import Mathlib

/-!
# Usage collection job pipeline (em-lib-common-usage)

A shallow embedding of the step service (`common/step_service.go`), the importer
step engine (`importer/importer_service.go`), the transaction helper
(`db/billingdb.go`) and the file helpers (`fileutil/fileutil.go`).

The definitions come first: the data model, the interfaces, the services, then the
vocabulary used to read the call log and three collaborators to run the services
on (`Script`: fixed answers; `Tables`: the file table with transactions). The
properties follow.

Go interfaces (`db.StepRepository`, `db.FileRepository`, `db.BillingTx`, ...) are
records of state transformers over an arbitrary collaborator state `σ`; every
call through an interface is recorded, in call order, in the log of the `World`.
A Go `error` is an `Option Err` (`none` is `nil`); `int64` fields are `Int`
(no arithmetic is performed on them); a `time.Time` is an instant on an integer
time line.
-/

namespace Fusemail

/-! ## Errors -/

/-- Error values. The named constructors are the package-level sentinels the code
compares against with `==`; `other` stands for every other error value. -/
inductive Err where
  /-- `sql.ErrNoRows` -/
  | ErrNoRows
  /-- `common.ErrToUpdateNil` -/
  | ErrToUpdateNil
  /-- `common.ErrNoFileToTransform` -/
  | ErrNoFileToTransform
  /-- `importer.ErrInvalidStepTypeID` -/
  | ErrInvalidStepTypeID
  /-- `fileutil.ErrInvalidFilePath` -/
  | ErrInvalidFilePath
  /-- `fileutil.ErrInvalidFilePointer` -/
  | ErrInvalidFilePointer
  /-- any other error, identified by its message -/
  | other (msg : String)
  deriving DecidableEq, Repr

/-- The method `Error()` of an error value. -/
def Err.Error : Err → String
  | .ErrNoRows => "sql: no rows in result set"
  | .ErrToUpdateNil => "Invalid error to update Step. Must be not nil"
  | .ErrNoFileToTransform => "There is no file available for Transform Step"
  | .ErrInvalidStepTypeID => "Invalid Step Type ID for the actual Source"
  | .ErrInvalidFilePath => "The given file path is invalid"
  | .ErrInvalidFilePointer => "The given file pointer is invalid"
  | .other msg => msg

/-! ## Data model (`db/billingbeans.go`) -/

/-- An instant (`time.Time`). -/
abbrev Time := Int

/-- The type `sql.NullInt64`. -/
structure NullInt64 where
  Int64 : Int
  Valid : Bool
  deriving DecidableEq, Repr

/-- The struct `db.Step`. -/
structure Step where
  ID : Int
  StepTypeID : Int
  CollectionJobID : Int
  StarteDate : Time
  EndDate : Time
  FileID : NullInt64
  Status : String
  Error : String
  deriving DecidableEq, Repr

/-- The struct `db.StepType`. -/
structure StepType where
  ID : Int
  SourceID : Int
  Name : String
  StepOrder : Int
  deriving DecidableEq, Repr

/-- The struct `db.File`. -/
structure File where
  ID : Int
  Checksum : String
  Name : String
  FilePath : String
  deriving DecidableEq, Repr

/-- The struct `db.CollectionJob`. -/
structure CollectionJob where
  ID : Int
  SourceID : Int
  Status : String
  CurrentStepTypeID : Int
  StarteDate : Time
  EndDate : Time
  deriving DecidableEq, Repr

/-- The struct `fileutil.FileMeta`. -/
structure FileMeta where
  FileName : String
  FilePath : String
  Checksum : String
  deriving DecidableEq, Repr

/-- The struct `common.Options` (the `FileFormat` field is not used by the code embedded here). -/
structure Options where
  SourceID : Int
  StepTypeID : Int
  InputFolder : String
  OutputFolder : String
  User : String
  deriving DecidableEq, Repr

/-- The constant `db.StepStatusInProgress`, as its string. -/
def StepStatusInProgress : String := "IN PROGRESS"
/-- The constant `db.StepStatusFinished`, as its string. -/
def StepStatusFinished : String := "FINISHED"
/-- The constant `db.StepStatusError`, as its string. -/
def StepStatusError : String := "ERROR"

/-- The zero value of `db.Step`. -/
def Step.zero : Step := ⟨0, 0, 0, 0, 0, ⟨0, false⟩, "", ""⟩
/-- The zero value of `db.File`. -/
def File.zero : File := ⟨0, "", "", ""⟩

/-- A transaction handle (a non-nil `db.BillingTx`); a nil handle is `none`. -/
abbrev Tx := Nat

/-- A value bound to a statement (`interface{}`): nil or a string. -/
abbrev Value := Option String

/-- An entry of a folder listing (`os.FileInfo`). -/
structure FileInfo where
  Name : String
  IsDir : Bool
  ModTime : Time
  deriving DecidableEq, Repr

/-- The result of one `Read` of a `csv.Reader`, before `io.EOF`. -/
inductive ReadResult where
  | record (fields : List String)
  | error (err : Err)
  deriving DecidableEq, Repr

/-- An open file seen through `encoding/csv`: its name and the results of the
successive `Read` calls that precede `io.EOF`. -/
structure ReadCloser where
  name : String
  stream : List ReadResult
  deriving DecidableEq, Repr

/-- The result of `os.Open`: a file, or an error with a nil file. -/
inductive OpenResult where
  | file (f : ReadCloser)
  | error (err : Err)
  deriving DecidableEq, Repr

/-! ## Recorded calls -/

/-- One call through an interface (or to the operating system), with its arguments
and, for the transaction actions and the writes, its error result. -/
inductive Event where
  | NewTransaction (tx : Option Tx) (err : Option Err)
  | CommitTransaction (tx : Tx) (err : Option Err)
  | RollbackTransaction (tx : Tx) (err : Option Err)
  | BulkInsert (sqlBase sqlValues : String) (entities : List (List Value)) (err : Option Err)
  | CollectionJobFetch (collectionJobID : Int)
  | CollectionJobUpdate (job : CollectionJob) (user : String) (tx : Option Tx) (err : Option Err)
  | StepCreate (stepTypeID collectionJobID : Int) (user : String) (tx : Option Tx) (err : Option Err)
  | StepFetch (stepID : Int)
  | StepFetchUnfinishedBySourceAndType (sourceID stepTypeID : Int) (user : String)
  | StepFetchByFileIDAndNoNextStep (fileID nextStepTypeID : Int) (user : String)
  | StepUpdate (step : Step) (user : String) (tx : Option Tx) (err : Option Err)
  | StepTypeFetch (stepTypeID : Int)
  | FileCreate (checksum name filePath user : String) (tx : Option Tx) (err : Option Err)
  | FileFetch (fileID : Int)
  | FileFetchByChecksum (checksum : String)
  | ReadDir (folder : String)
  | Open (name : String)
  | HashCopy (name : String)
  | Close (name : String)
  | RestartStep (step : Step)
  | UpdateStepToSuccessAndCreateFile (step : Step) (fileMeta : FileMeta)
  | UpdateStepToSuccessWithFileID (step : Step) (fileID : Int)
  | UpdateStepToError (step : Step) (err : Option Err)
  | FetchUnprocessedFileByStepType (stepType : StepType)
  deriving DecidableEq, Repr

/-- The state of a run: the collaborators' state, the calls made so far (oldest
first) and the number of `time.Now()` readings taken so far. -/
structure World (σ : Type) where
  st : σ
  log : List Event
  nowCount : Nat

/-! ## Interfaces (`db/billingdb.go`) -/

/-- The methods `CommitTransaction` and `RollbackTransaction` of `db.BillingTx`. -/
structure BillingTx (σ : Type) where
  CommitTransaction : Tx → σ → Option Err × σ
  RollbackTransaction : Tx → σ → Option Err × σ

/-- The interface `db.BillingTransactionDB` (`NewTransaction`, `BulkInsert`). -/
structure BillingTransactionDB (σ : Type) where
  NewTransaction : σ → (Option Tx × Option Err) × σ
  BulkInsert : String → String → List (List Value) → σ → Option Err × σ

/-- The interface `db.CollectionJobRepository` (the methods the engine uses). -/
structure CollectionJobRepository (σ : Type) where
  Fetch : Int → σ → (CollectionJob × Option Err) × σ
  Update : CollectionJob → String → Option Tx → σ → Option Err × σ

/-- The interface `db.StepRepository` (the methods the services use). -/
structure StepRepository (σ : Type) where
  Create : Int → Int → String → Option Tx → σ → (Int × Option Err) × σ
  Fetch : Int → σ → (Step × Option Err) × σ
  FetchUnfinishedBySourceAndType : Int → Int → String → σ → (Step × Option Err) × σ
  FetchByFileIDAndNoNextStep : Int → Int → String → σ → (Step × Option Err) × σ
  Update : Step → String → Option Tx → σ → Option Err × σ

/-- The interface `db.StepTypeRepository` (the method the engine uses). -/
structure StepTypeRepository (σ : Type) where
  Fetch : Int → σ → (StepType × Option Err) × σ

/-- The interface `db.FileRepository`. -/
structure FileRepository (σ : Type) where
  Create : String → String → String → String → Option Tx → σ → (Int × Option Err) × σ
  Fetch : Int → σ → (File × Option Err) × σ
  FetchByChecksum : String → σ → (File × Option Err) × σ

/-- The struct `db.BillingDB`: the repositories, the transactional database and the
methods of the transactions it hands out. -/
structure BillingDB (σ : Type) where
  BillingTransactionDB : BillingTransactionDB σ
  CollectionJobRepository : CollectionJobRepository σ
  StepRepository : StepRepository σ
  StepTypeRepository : StepTypeRepository σ
  FileRepository : FileRepository σ
  BillingTx : BillingTx σ

/-- The runtime the services run on: the successive readings of `time.Now()`, the
file system (`ioutil.ReadDir`, `os.Open`, `os.IsNotExist`, hashing a file's content
with SHA-256, `Close`), `filepath.Join`/`filepath.Clean` and `sort.Slice`. -/
structure Sys (σ : Type) where
  clock : Nat → Time
  ReadDir : String → σ → (List FileInfo × Option Err) × σ
  Open : String → σ → OpenResult × σ
  IsNotExist : Err → Bool
  HashCopy : String → σ → (List Nat × Option Err) × σ
  Close : String → σ → Option Err × σ
  Join : String → String → String
  Clean : String → String
  SortSlice : (FileInfo → FileInfo → Bool) → List FileInfo → List FileInfo

variable {σ : Type}

/-- Record a call. -/
def World.emit (w : World σ) (st : σ) (e : Event) : World σ :=
  ⟨st, w.log ++ [e], w.nowCount⟩

/-- The call `time.Now()`: the next reading of the clock. -/
def timeNow (sys : Sys σ) (w : World σ) : Time × World σ :=
  (sys.clock w.nowCount, ⟨w.st, w.log, w.nowCount + 1⟩)

namespace BillingDB

/-- Call `NewTransaction`. -/
def NewTransaction (db : BillingDB σ) (w : World σ) : (Option Tx × Option Err) × World σ :=
  let r := db.BillingTransactionDB.NewTransaction w.st
  (r.1, w.emit r.2 (Event.NewTransaction r.1.1 r.1.2))

/-- Call `tx.CommitTransaction()`. -/
def CommitTransaction (db : BillingDB σ) (tx : Tx) (w : World σ) : Option Err × World σ :=
  let r := db.BillingTx.CommitTransaction tx w.st
  (r.1, w.emit r.2 (Event.CommitTransaction tx r.1))

/-- Call `tx.RollbackTransaction()`. -/
def RollbackTransaction (db : BillingDB σ) (tx : Tx) (w : World σ) : Option Err × World σ :=
  let r := db.BillingTx.RollbackTransaction tx w.st
  (r.1, w.emit r.2 (Event.RollbackTransaction tx r.1))

/-- Call `StepRepository.Update`. -/
def StepUpdate (db : BillingDB σ) (step : Step) (user : String) (tx : Option Tx) (w : World σ) :
    Option Err × World σ :=
  let r := db.StepRepository.Update step user tx w.st
  (r.1, w.emit r.2 (Event.StepUpdate step user tx r.1))

/-- Call `FileRepository.FetchByChecksum`. -/
def FileFetchByChecksum (db : BillingDB σ) (checksum : String) (w : World σ) :
    (File × Option Err) × World σ :=
  let r := db.FileRepository.FetchByChecksum checksum w.st
  (r.1, w.emit r.2 (Event.FileFetchByChecksum checksum))

/-- Call `FileRepository.Fetch`. -/
def FileFetch (db : BillingDB σ) (fileID : Int) (w : World σ) : (File × Option Err) × World σ :=
  let r := db.FileRepository.Fetch fileID w.st
  (r.1, w.emit r.2 (Event.FileFetch fileID))

/-- Call `FileRepository.Create`. -/
def FileCreate (db : BillingDB σ) (checksum name filePath user : String) (tx : Option Tx)
    (w : World σ) : (Int × Option Err) × World σ :=
  let r := db.FileRepository.Create checksum name filePath user tx w.st
  (r.1, w.emit r.2 (Event.FileCreate checksum name filePath user tx r.1.2))

/-- The method `HandleTx` of `db.BillingDB`: with a non-nil transaction, roll back when
`err` is non-nil and commit otherwise; the action's error, when it has one, replaces `err`. -/
def HandleTx (db : BillingDB σ) (tx : Option Tx) (err : Option Err) (w : World σ) :
    Option Err × World σ :=
  match tx with
  | none => (err, w)
  | some t =>
    let r := match err with
      | some _ => db.RollbackTransaction t w
      | none => db.CommitTransaction t w
    match r.1 with
    | some txErr => (some txErr, r.2)
    | none => (err, r.2)

end BillingDB

/-! ## Step service (`common/step_service.go`) -/

/-- The struct `common.StepServiceImpl`, with the runtime it runs on. -/
structure StepServiceImpl (σ : Type) where
  Options : Options
  billingDB : BillingDB σ
  sys : Sys σ

namespace StepServiceImpl

/-- The method `RestartStep`. -/
def RestartStep (i : StepServiceImpl σ) (step : Step) (w : World σ) :
    (Step × Option Err) × World σ :=
  let stepPrevStatus := step.Status
  let stepPrevError := step.Error
  let stepPrevFileID := step.FileID
  let stepPrevStartDate := step.StarteDate
  let t := i.billingDB.NewTransaction w
  match t.1.2 with
  | some e =>
    let h := i.billingDB.HandleTx t.1.1 (some e) t.2
    ((step, h.1), h.2)
  | none =>
    let n := timeNow i.sys t.2
    let step1 : Step := { step with
      Status := StepStatusInProgress, Error := "", FileID := ⟨0, false⟩, StarteDate := n.1 }
    let u := i.billingDB.StepUpdate step1 i.Options.User t.1.1 n.2
    let h := i.billingDB.HandleTx t.1.1 u.1 u.2
    match h.1 with
    | some e =>
      (({ step1 with Status := stepPrevStatus, Error := stepPrevError,
                     FileID := stepPrevFileID, StarteDate := stepPrevStartDate }, some e), h.2)
    | none => ((step1, none), h.2)

/-- The method `UpdateStepToSuccessWithFileID`. -/
def UpdateStepToSuccessWithFileID (i : StepServiceImpl σ) (step : Step) (fileID : Int)
    (w : World σ) : (Step × Option Err) × World σ :=
  let t := i.billingDB.NewTransaction w
  match t.1.2 with
  | some e =>
    let h := i.billingDB.HandleTx t.1.1 (some e) t.2
    ((step, h.1), h.2)
  | none =>
    let prevStatus := step.Status
    let prevError := step.Error
    let prevFileID := step.FileID
    let prevEndDate := step.EndDate
    let n := timeNow i.sys t.2
    let step1 : Step := { step with
      FileID := ⟨fileID, true⟩, Status := StepStatusFinished, Error := "", EndDate := n.1 }
    let step0 : Step := { step1 with
      Status := prevStatus, Error := prevError, FileID := prevFileID, EndDate := prevEndDate }
    let u := i.billingDB.StepUpdate step1 i.Options.User t.1.1 n.2
    match u.1 with
    | some e =>
      let h := i.billingDB.HandleTx t.1.1 (some e) u.2
      ((step0, h.1), h.2)
    | none =>
      let h := i.billingDB.HandleTx t.1.1 none u.2
      match h.1 with
      | some e => ((step0, some e), h.2)
      | none => ((step1, none), h.2)

/-- The method `UpdateStepToError`. -/
def UpdateStepToError (i : StepServiceImpl σ) (step : Step) (err : Option Err) (w : World σ) :
    (Step × Option Err) × World σ :=
  match err with
  | none => ((step, some Err.ErrToUpdateNil), w)
  | some e =>
    let prevStepStatus := step.Status
    let prevStepError := step.Error
    let prevEndDate := step.EndDate
    let t := i.billingDB.NewTransaction w
    match t.1.2 with
    | some retErr =>
      let h := i.billingDB.HandleTx t.1.1 (some retErr) t.2
      ((step, h.1), h.2)
    | none =>
      let n := timeNow i.sys t.2
      let step1 : Step := { step with
        Status := StepStatusError, Error := e.Error, EndDate := n.1 }
      let u := i.billingDB.StepUpdate step1 i.Options.User t.1.1 n.2
      let h := i.billingDB.HandleTx t.1.1 u.1 u.2
      match h.1 with
      | some retErr =>
        (({ step1 with Status := prevStepStatus, Error := prevStepError,
                       EndDate := prevEndDate }, some retErr), h.2)
      | none => ((step1, none), h.2)

/-- Lines 157-174 of `UpdateStepToSuccessAndCreateFile`: look the checksum up and,
when no File has it (`sql.ErrNoRows`), create a File. Gives the `file` variable as
the lookup left it, and the file id to attach or the error that ends the call. -/
def fileIDForChecksum (i : StepServiceImpl σ) (fileMeta : FileMeta) (tx : Option Tx)
    (w : World σ) : (File × Except Err Int) × World σ :=
  let f := i.billingDB.FileFetchByChecksum fileMeta.Checksum w
  match f.1.2 with
  | some Err.ErrNoRows =>
    let cr := i.billingDB.FileCreate fileMeta.Checksum fileMeta.FileName fileMeta.FilePath
      i.Options.User tx f.2
    match cr.1.2 with
    | some e => ((f.1.1, Except.error e), cr.2)
    | none => ((f.1.1, Except.ok cr.1.1), cr.2)
  | some e => ((f.1.1, Except.error e), f.2)
  | none => ((f.1.1, Except.ok f.1.1.ID), f.2)

/-- Lines 176-219 of `UpdateStepToSuccessAndCreateFile`: save the previous values,
mark the step finished with the file id, update it, commit, and fetch the File
again when the lookup had left `file.ID < 1`. -/
def finishWithFileID (i : StepServiceImpl σ) (step : Step) (file : File) (fileID : Int)
    (tx : Option Tx) (w : World σ) : (Step × File × Option Err) × World σ :=
  let prevStatus := step.Status
  let prevError := step.Error
  let prevFileID := step.FileID
  let prevEndDate := step.EndDate
  let n := timeNow i.sys w
  let step1 : Step := { step with
    FileID := ⟨fileID, true⟩, Status := StepStatusFinished, Error := "", EndDate := n.1 }
  let step0 : Step := { step1 with
    Status := prevStatus, Error := prevError, FileID := prevFileID, EndDate := prevEndDate }
  let u := i.billingDB.StepUpdate step1 i.Options.User tx n.2
  match u.1 with
  | some e =>
    let h := i.billingDB.HandleTx tx (some e) u.2
    ((step0, file, h.1), h.2)
  | none =>
    let h := i.billingDB.HandleTx tx none u.2
    match h.1 with
    | some e => ((step0, file, some e), h.2)
    | none =>
      if file.ID < 1 then
        let g := i.billingDB.FileFetch fileID h.2
        match g.1.2 with
        | some e =>
          let h2 := i.billingDB.HandleTx tx (some e) g.2
          ((step1, g.1.1, h2.1), h2.2)
        | none => ((step1, g.1.1, none), g.2)
      else ((step1, file, none), h.2)

/-- The method `UpdateStepToSuccessAndCreateFile`: open the transaction (lines
152-155), resolve the file id (`fileIDForChecksum`), then finish the step
(`finishWithFileID`). -/
def UpdateStepToSuccessAndCreateFile (i : StepServiceImpl σ) (step : Step) (fileMeta : FileMeta)
    (w : World σ) : (Step × File × Option Err) × World σ :=
  let t := i.billingDB.NewTransaction w
  match t.1.2 with
  | some e =>
    let h := i.billingDB.HandleTx t.1.1 (some e) t.2
    ((step, File.zero, h.1), h.2)
  | none =>
    let c := i.fileIDForChecksum fileMeta t.1.1 t.2
    match c.1.2 with
    | Except.error e =>
      let h := i.billingDB.HandleTx t.1.1 (some e) c.2
      ((step, c.1.1, h.1), h.2)
    | Except.ok fileID => i.finishWithFileID step c.1.1 fileID t.1.1 c.2

end StepServiceImpl

/-! ## File helpers (`fileutil/fileutil.go`) -/

/-- Call `ioutil.ReadDir`. -/
def Sys.callReadDir (sys : Sys σ) (folder : String) (w : World σ) :
    (List FileInfo × Option Err) × World σ :=
  let r := sys.ReadDir folder w.st
  (r.1, w.emit r.2 (Event.ReadDir folder))

/-- Call `os.Open`. -/
def Sys.callOpen (sys : Sys σ) (name : String) (w : World σ) : OpenResult × World σ :=
  let r := sys.Open name w.st
  (r.1, w.emit r.2 (Event.Open name))

/-- Copy the content of an open file into a SHA-256 hasher and take the digest:
`io.Copy(hasher, file)` followed by `hasher.Sum(nil)`. -/
def Sys.callHashCopy (sys : Sys σ) (name : String) (w : World σ) :
    (List Nat × Option Err) × World σ :=
  let r := sys.HashCopy name w.st
  (r.1, w.emit r.2 (Event.HashCopy name))

/-- Call `f.Close()`. -/
def Sys.callClose (sys : Sys σ) (name : String) (w : World σ) : Option Err × World σ :=
  let r := sys.Close name w.st
  (r.1, w.emit r.2 (Event.Close name))

/-- The function `ListFilesInFolder`: the entries of the folder that are not
sub-folders, in the order `ioutil.ReadDir` lists them. -/
def ListFilesInFolder (sys : Sys σ) (folderPath : String) (w : World σ) :
    (List FileInfo × Option Err) × World σ :=
  let r := sys.callReadDir folderPath w
  match r.1.2 with
  | some e => (([], some e), r.2)
  | none => ((r.1.1.filter (fun finfo => !finfo.IsDir), none), r.2)

/-- The lower-case hexadecimal digits. -/
def hextable : List Char :=
  ['0', '1', '2', '3', '4', '5', '6', '7', '8', '9', 'a', 'b', 'c', 'd', 'e', 'f']

/-- The function `hex.EncodeToString`, on bytes given as numbers. -/
def hexEncodeToString (bytes : List Nat) : String :=
  String.mk (bytes.flatMap fun b => [hextable.getD (b % 256 / 16) '0', hextable.getD (b % 16) '0'])

/-- The function `GetChecksum`: the hexadecimal encoding of the first 16 bytes of the
SHA-256 digest of the content; a nil reader is refused. -/
def GetChecksum (sys : Sys σ) (file : Option ReadCloser) (w : World σ) :
    (String × Option Err) × World σ :=
  match file with
  | none => (("", some Err.ErrInvalidFilePointer), w)
  | some f =>
    let r := sys.callHashCopy f.name w
    match r.1.2 with
    | some e => (("", some e), r.2)
    | none => ((hexEncodeToString (r.1.1.take 16), none), r.2)

/-- The function `GetChecksumByName`: open the file, refuse a missing one with
`ErrInvalidFilePath`, and give the checksum of its content. The deferred `Close`
runs on every path (on a nil file it returns an error without a system call) and
its error is dropped. -/
def GetChecksumByName (sys : Sys σ) (fileName : String) (w : World σ) :
    (String × Option Err) × World σ :=
  let o := sys.callOpen fileName w
  match o.1 with
  | OpenResult.error e =>
    if sys.IsNotExist e then (("", some Err.ErrInvalidFilePath), o.2) else (("", some e), o.2)
  | OpenResult.file f =>
    let g := GetChecksum sys (some f) o.2
    let c := sys.callClose f.name g.2
    (g.1, c.2)

namespace BillingDB

/-- Call `StepRepository.FetchByFileIDAndNoNextStep`. -/
def FetchByFileIDAndNoNextStep (db : BillingDB σ) (fileID nextStepTypeID : Int) (user : String)
    (w : World σ) : (Step × Option Err) × World σ :=
  let r := db.StepRepository.FetchByFileIDAndNoNextStep fileID nextStepTypeID user w.st
  (r.1, w.emit r.2 (Event.StepFetchByFileIDAndNoNextStep fileID nextStepTypeID user))

end BillingDB

/-- The comparison `FetchUnprocessedFileByStepType` hands to `sort.Slice`:
`filesInfo[i].ModTime().Before(filesInfo[j].ModTime())`. -/
def byModTime (a b : FileInfo) : Bool := decide (a.ModTime < b.ModTime)

namespace StepServiceImpl

/-- The loop of `FetchUnprocessedFileByStepType` (lines 361-411) over the files still
to examine, with the current value of `previousStep`: the first file that has a
File row by checksum and a step by `FetchByFileIDAndNoNextStep` is opened and
returned; a file for which one of the lookups gives `sql.ErrNoRows` is passed
over; any other error ends the loop; when no file is left, `errRet` still is
`ErrNoFileToTransform`. -/
def scanFiles (i : StepServiceImpl σ) (stepType : StepType) :
    List FileInfo → Step → World σ → (Option ReadCloser × Step × Option Err) × World σ
  | [], previousStep, w => ((none, previousStep, some Err.ErrNoFileToTransform), w)
  | fileInfo :: rest, previousStep, w =>
    let fileFullname := i.sys.Join i.Options.InputFolder (i.sys.Clean fileInfo.Name)
    let c := GetChecksumByName i.sys fileFullname w
    match c.1.2 with
    | some e => ((none, previousStep, some e), c.2)
    | none =>
      let d := i.billingDB.FileFetchByChecksum c.1.1 c.2
      match d.1.2 with
      | some Err.ErrNoRows => scanFiles i stepType rest previousStep d.2
      | some e => ((none, previousStep, some e), d.2)
      | none =>
        let p := i.billingDB.FetchByFileIDAndNoNextStep d.1.1.ID stepType.ID i.Options.User d.2
        match p.1.2 with
        | some Err.ErrNoRows => scanFiles i stepType rest p.1.1 p.2
        | some e => ((none, p.1.1, some e), p.2)
        | none =>
          let o := i.sys.callOpen fileFullname p.2
          match o.1 with
          | OpenResult.error e => ((none, p.1.1, some e), o.2)
          | OpenResult.file file => ((some file, p.1.1, none), o.2)

/-- The method `FetchUnprocessedFileByStepType`: list the files of the input folder,
sort them with `sort.Slice` by modification time (`Before`), and scan them. -/
def FetchUnprocessedFileByStepType (i : StepServiceImpl σ) (stepType : StepType)
    (w : World σ) : (Option ReadCloser × Step × Option Err) × World σ :=
  let l := ListFilesInFolder i.sys i.Options.InputFolder w
  match l.1.2 with
  | some e => ((none, Step.zero, some e), l.2)
  | none =>
    let filesInfo := i.sys.SortSlice byModTime l.1.1
    i.scanFiles stepType filesInfo Step.zero l.2

end StepServiceImpl

/-! ## Importer step engine (`importer/importer.go`, `importer/importer_service.go`) -/

/-- The interface `common.StepService`. -/
structure StepService (σ : Type) where
  RestartStep : Step → World σ → (Step × Option Err) × World σ
  UpdateStepToSuccessAndCreateFile :
    Step → FileMeta → World σ → (Step × File × Option Err) × World σ
  UpdateStepToSuccessWithFileID : Step → Int → World σ → (Step × Option Err) × World σ
  UpdateStepToError : Step → Option Err → World σ → (Step × Option Err) × World σ
  FetchUnprocessedFileByStepType :
    StepType → World σ → (Option ReadCloser × Step × Option Err) × World σ

/-- The step service implementation seen through the interface, as `main.go` wires
it (`common.NewStepService`). -/
def StepServiceImpl.toStepService (i : StepServiceImpl σ) : StepService σ :=
  ⟨i.RestartStep, i.UpdateStepToSuccessAndCreateFile, i.UpdateStepToSuccessWithFileID,
   i.UpdateStepToError, i.FetchUnprocessedFileByStepType⟩

/-- The struct `importer.ColumnMapper`. -/
structure ColumnMapper where
  TableIndex : Int
  CsvIndex : Int
  deriving DecidableEq, Repr

/-- The struct `importer.VendorMapper`. The map `ColumnMappers` is the list of its
entries in the order in which `range` enumerates it in the run at hand. -/
structure VendorMapper where
  VendorID : Int
  VendorName : String
  SqlBase : String
  SqlValues : String
  ColumnMappers : List (String × ColumnMapper)
  deriving DecidableEq, Repr

/-- The struct `importer.ImporterStepService`. -/
structure ImporterStepService (σ : Type) where
  Options : Options
  billingDB : BillingDB σ
  stepService : StepService σ

/-- How a call ends: it returns its error result, or it panics. -/
inductive Outcome where
  | returned (err : Option Err)
  | panicked
  deriving DecidableEq, Repr

namespace BillingDB

/-- Call `StepTypeRepository.Fetch`. -/
def StepTypeFetch (db : BillingDB σ) (stepTypeID : Int) (w : World σ) :
    (StepType × Option Err) × World σ :=
  let r := db.StepTypeRepository.Fetch stepTypeID w.st
  (r.1, w.emit r.2 (Event.StepTypeFetch stepTypeID))

/-- Call `StepRepository.FetchUnfinishedBySourceAndType`. -/
def FetchUnfinishedBySourceAndType (db : BillingDB σ) (sourceID stepTypeID : Int)
    (user : String) (w : World σ) : (Step × Option Err) × World σ :=
  let r := db.StepRepository.FetchUnfinishedBySourceAndType sourceID stepTypeID user w.st
  (r.1, w.emit r.2 (Event.StepFetchUnfinishedBySourceAndType sourceID stepTypeID user))

/-- Call `StepRepository.Create`. -/
def StepCreate (db : BillingDB σ) (stepTypeID collectionJobID : Int) (user : String)
    (tx : Option Tx) (w : World σ) : (Int × Option Err) × World σ :=
  let r := db.StepRepository.Create stepTypeID collectionJobID user tx w.st
  (r.1, w.emit r.2 (Event.StepCreate stepTypeID collectionJobID user tx r.1.2))

/-- Call `StepRepository.Fetch`. -/
def StepFetch (db : BillingDB σ) (stepID : Int) (w : World σ) : (Step × Option Err) × World σ :=
  let r := db.StepRepository.Fetch stepID w.st
  (r.1, w.emit r.2 (Event.StepFetch stepID))

/-- Call `CollectionJobRepository.Fetch`. -/
def CollectionJobFetch (db : BillingDB σ) (collectionJobID : Int) (w : World σ) :
    (CollectionJob × Option Err) × World σ :=
  let r := db.CollectionJobRepository.Fetch collectionJobID w.st
  (r.1, w.emit r.2 (Event.CollectionJobFetch collectionJobID))

/-- Call `CollectionJobRepository.Update`. -/
def CollectionJobUpdate (db : BillingDB σ) (job : CollectionJob) (user : String)
    (tx : Option Tx) (w : World σ) : Option Err × World σ :=
  let r := db.CollectionJobRepository.Update job user tx w.st
  (r.1, w.emit r.2 (Event.CollectionJobUpdate job user tx r.1))

/-- Call `BulkInsert`. -/
def BulkInsert (db : BillingDB σ) (sqlBase sqlValues : String) (entities : List (List Value))
    (w : World σ) : Option Err × World σ :=
  let r := db.BillingTransactionDB.BulkInsert sqlBase sqlValues entities w.st
  (r.1, w.emit r.2 (Event.BulkInsert sqlBase sqlValues entities r.1))

end BillingDB

namespace StepService

/-- Call `RestartStep` through the interface. -/
def callRestartStep (s : StepService σ) (step : Step) (w : World σ) :
    (Step × Option Err) × World σ :=
  s.RestartStep step (w.emit w.st (Event.RestartStep step))

/-- Call `UpdateStepToSuccessWithFileID` through the interface. -/
def callUpdateStepToSuccessWithFileID (s : StepService σ) (step : Step) (fileID : Int)
    (w : World σ) : (Step × Option Err) × World σ :=
  s.UpdateStepToSuccessWithFileID step fileID
    (w.emit w.st (Event.UpdateStepToSuccessWithFileID step fileID))

/-- Call `UpdateStepToError` through the interface. -/
def callUpdateStepToError (s : StepService σ) (step : Step) (err : Option Err) (w : World σ) :
    (Step × Option Err) × World σ :=
  s.UpdateStepToError step err (w.emit w.st (Event.UpdateStepToError step err))

/-- Call `FetchUnprocessedFileByStepType` through the interface. -/
def callFetchUnprocessedFileByStepType (s : StepService σ) (stepType : StepType)
    (w : World σ) : (Option ReadCloser × Step × Option Err) × World σ :=
  s.FetchUnprocessedFileByStepType stepType
    (w.emit w.st (Event.FetchUnprocessedFileByStepType stepType))

end StepService

/-- The index expression `m[key]` on the map `ColumnMappers`: the entry of the key,
or the zero `ColumnMapper`. -/
def VendorMapper.at (vendorMapper : VendorMapper) (key : String) : ColumnMapper :=
  (vendorMapper.ColumnMappers.lookup key).getD ⟨0, 0⟩

/-- The keys of `ColumnMappers`, as `range` enumerates them. -/
def VendorMapper.keys (vendorMapper : VendorMapper) : List String :=
  vendorMapper.ColumnMappers.map Prod.fst

/-- Lines 307-314 of `executeImport`: the row built for one record, a slice of
`len(keys)+1` values with `record[CsvIndex]` stored at `TableIndex` for each key and
the user stored last; `none` when an index is out of range (the code panics). -/
def buildUsage (user : String) (vendorMapper : VendorMapper) (keys : List String)
    (record : List String) : Option (List Value) :=
  let usage := keys.foldlM
    (fun (usage : List Value) key =>
      let csvIndex := (vendorMapper.at key).CsvIndex
      let tableIndex := (vendorMapper.at key).TableIndex
      if 0 ≤ csvIndex ∧ csvIndex < record.length then
        if 0 ≤ tableIndex ∧ tableIndex < usage.length then
          some (usage.set tableIndex.toNat (some (record.getD csvIndex.toNat "")))
        else none
      else none)
    (List.replicate (keys.length + 1) none)
  usage.map fun u => u.set (u.length - 1) (some user)

namespace ImporterStepService

/-- The method `getStepType`. -/
def getStepType (i : ImporterStepService σ) (w : World σ) : (StepType × Option Err) × World σ :=
  let r := i.billingDB.StepTypeFetch i.Options.StepTypeID w
  match r.1.2 with
  | some e => ((r.1.1, some e), r.2)
  | none =>
    if r.1.1.SourceID ≠ i.Options.SourceID then ((r.1.1, some Err.ErrInvalidStepTypeID), r.2)
    else ((r.1.1, none), r.2)

/-- The method `createNewImportStep`. -/
def createNewImportStep (i : ImporterStepService σ) (stepType : StepType)
    (collectionJobID : Int) (w : World σ) : (Step × Option Err) × World σ :=
  let t := i.billingDB.NewTransaction w
  match t.1.2 with
  | some e =>
    let h := i.billingDB.HandleTx t.1.1 (some e) t.2
    ((Step.zero, h.1), h.2)
  | none =>
    let c := i.billingDB.StepCreate stepType.ID collectionJobID i.Options.User t.1.1 t.2
    match c.1.2 with
    | some e =>
      let h := i.billingDB.HandleTx t.1.1 (some e) c.2
      ((Step.zero, h.1), h.2)
    | none =>
      let j := i.billingDB.CollectionJobFetch collectionJobID c.2
      match j.1.2 with
      | some e =>
        let h := i.billingDB.HandleTx t.1.1 (some e) j.2
        ((Step.zero, h.1), h.2)
      | none =>
        let collectionJob : CollectionJob := { j.1.1 with CurrentStepTypeID := stepType.ID }
        let u := i.billingDB.CollectionJobUpdate collectionJob i.Options.User t.1.1 j.2
        let h := i.billingDB.HandleTx t.1.1 u.1 u.2
        match h.1 with
        | some e => ((Step.zero, some e), h.2)
        | none => i.billingDB.StepFetch c.1.1 h.2

/-- The method `startImportStep`. -/
def startImportStep (i : ImporterStepService σ) (stepType : StepType) (collectionJobID : Int)
    (w : World σ) : (Step × Option Err) × World σ :=
  let r := i.billingDB.FetchUnfinishedBySourceAndType stepType.SourceID stepType.ID
    i.Options.User w
  match r.1.2 with
  | some Err.ErrNoRows => i.createNewImportStep stepType collectionJobID r.2
  | some e => ((r.1.1, some e), r.2)
  | none =>
    if r.1.1.CollectionJobID = collectionJobID then i.stepService.callRestartStep r.1.1 r.2
    else i.createNewImportStep stepType collectionJobID r.2

/-- The loop of `executeImport` (lines 298-327) and its end (lines 329-338), over the
reads still to come and the rows accumulated in `bulk`. -/
def importLoop (i : ImporterStepService σ) (vendorMapper : VendorMapper) (keys : List String) :
    List ReadResult → List (List Value) → World σ → Outcome × World σ
  | [], bulk, w =>
    if bulk.length > 0 then
      let b := i.billingDB.BulkInsert vendorMapper.SqlBase vendorMapper.SqlValues bulk w
      (Outcome.returned b.1, b.2)
    else (Outcome.returned none, w)
  | ReadResult.error e :: _, _, w => (Outcome.returned (some e), w)
  | ReadResult.record record :: rest, bulk, w =>
    match buildUsage i.Options.User vendorMapper keys record with
    | none => (Outcome.panicked, w)
    | some usage =>
      if (bulk ++ [usage]).length = 10 then
        let b := i.billingDB.BulkInsert vendorMapper.SqlBase vendorMapper.SqlValues
          (bulk ++ [usage]) w
        match b.1 with
        | some e => (Outcome.returned (some e), b.2)
        | none => importLoop i vendorMapper keys rest [] b.2
      else importLoop i vendorMapper keys rest (bulk ++ [usage]) w

/-- The method `executeImport`. Reading from a nil `io.ReadCloser` panics. -/
def executeImport (i : ImporterStepService σ) (data : Option ReadCloser)
    (vendorMapper : VendorMapper) (w : World σ) : Outcome × World σ :=
  match data with
  | none => (Outcome.panicked, w)
  | some r => i.importLoop vendorMapper vendorMapper.keys r.stream [] w

/-- The method `ExecuteImportStep`: how the call ends, and the `Error` of the trace
handed to the tracers by the deferred `i.Trace(t)`. -/
def ExecuteImportStep (i : ImporterStepService σ) (vendorMapper : VendorMapper)
    (w : World σ) : (Outcome × Option Err) × World σ :=
  let g := i.getStepType w
  match g.1.2 with
  | some e => ((Outcome.returned (some e), none), g.2)
  | none =>
    let f := i.stepService.callFetchUnprocessedFileByStepType g.1.1 g.2
    match f.1.2.2 with
    | some e =>
      ((Outcome.returned (some e), if e ≠ Err.ErrNoFileToTransform then some e else none), f.2)
    | none =>
      let s := i.startImportStep g.1.1 f.1.2.1.CollectionJobID f.2
      match s.1.2 with
      | some e => ((Outcome.returned (some e), some e), s.2)
      | none =>
        let x := i.executeImport f.1.1 vendorMapper s.2
        match x.1 with
        | Outcome.panicked => ((Outcome.panicked, none), x.2)
        | Outcome.returned (some e) => ((Outcome.returned (some e), some e), x.2)
        | Outcome.returned none =>
          let u := i.stepService.callUpdateStepToSuccessWithFileID s.1.1
            f.1.2.1.FileID.Int64 x.2
          match u.1.2 with
          | some e =>
            let v := i.stepService.callUpdateStepToError s.1.1 (some e) u.2
            match v.1.2 with
            | some updateErr => ((Outcome.returned (some updateErr), some updateErr), v.2)
            | none => ((Outcome.returned (some e), some e), v.2)
          | none => ((Outcome.returned none, none), u.2)

end ImporterStepService

/-- The engine over a step service implementation, as `main.go` wires it
(`importer.New(stepService, commonOptions, billingDB)`). -/
def StepServiceImpl.importer (i : StepServiceImpl σ) : ImporterStepService σ :=
  ⟨i.Options, i.billingDB, i.toStepService⟩

/-! ## Reading the log -/

/-- The calls recorded between two states of a run. -/
def newEvents (before after : World σ) : List Event :=
  after.log.drop before.log.length

/-- A `RollbackTransaction` call on the transaction `t`. -/
def Event.isRollbackOf (t : Tx) : Event → Bool
  | .RollbackTransaction t1 _ => t1 == t
  | _ => false

/-- A `CommitTransaction` call on the transaction `t`, whatever it returned. -/
def Event.isCommitOf (t : Tx) : Event → Bool
  | .CommitTransaction t1 _ => t1 == t
  | _ => false

/-- A `CommitTransaction` call that returned nil. -/
def Event.isCommitOk : Event → Bool
  | .CommitTransaction _ none => true
  | _ => false

/-- A `RollbackTransaction` call. -/
def Event.isRollback : Event → Bool
  | .RollbackTransaction _ _ => true
  | _ => false

/-- A `CommitTransaction` call, whatever it returned. -/
def Event.isCommit : Event → Bool
  | .CommitTransaction _ _ => true
  | _ => false

/-- Every transaction opened in `evs` (a `NewTransaction` that returned a handle and
a nil error) was rolled back in `evs` and no commit was called on it. -/
def RolledBackNotCommitted (evs : List Event) : Bool :=
  evs.all fun e =>
    match e with
    | .NewTransaction (some t) none => evs.any (Event.isRollbackOf t) && !evs.any (Event.isCommitOf t)
    | _ => true

/-- No commit succeeded in `evs`; a transaction whose `StepRepository.Update` failed
was rolled back without any commit call; and a commit call (necessarily a failed
one) is followed and preceded by no rollback call. -/
def NeverCommitted (evs : List Event) : Bool :=
  !evs.any Event.isCommitOk
  && (evs.all fun e =>
    match e with
    | .StepUpdate _ _ (some t) (some _) => evs.any (Event.isRollbackOf t) && !evs.any Event.isCommit
    | _ => true)
  && (!evs.any Event.isCommit || !evs.any Event.isRollback)

/-- The three transitions that take and return a Step alone. -/
inductive StepOp where
  | RestartStep
  | UpdateStepToSuccessWithFileID (fileID : Int)
  | UpdateStepToError (err : Option Err)

/-- Run one of the three transitions. -/
def StepOp.run (i : StepServiceImpl σ) : StepOp → Step → World σ → (Step × Option Err) × World σ
  | .RestartStep => i.RestartStep
  | .UpdateStepToSuccessWithFileID fileID => fun step => i.UpdateStepToSuccessWithFileID step fileID
  | .UpdateStepToError err => fun step => i.UpdateStepToError step err

/-! ## A scripted collaborator

A database and runtime without state whose answers are fixed in advance: a folder
and a database that do not change while a call runs. -/

/-- The answers of the scripted collaborator. -/
structure Script where
  newTx : Option Tx × Option Err
  commitErr : Option Err
  rollbackErr : Option Err
  updateErr : Option Err
  bulkErr : List (List Value) → Option Err
  fileByChecksum : String → File × Option Err
  fileCreate : String → Int × Option Err
  fileFetch : Int → File × Option Err
  stepType : Int → StepType × Option Err
  unfinished : Int → Int → String → Step × Option Err
  noNextStep : Int → Int → String → Step × Option Err
  stepCreate : Int → Int → Int × Option Err
  stepFetch : Int → Step × Option Err
  jobFetch : Int → CollectionJob × Option Err
  jobUpdateErr : Option Err
  readDir : String → List FileInfo × Option Err
  openFile : String → OpenResult
  hash : String → List Nat × Option Err
  isNotExist : Err → Bool
  join : String → String → String
  clean : String → String
  sortSlice : (FileInfo → FileInfo → Bool) → List FileInfo → List FileInfo
  clock : Nat → Time

/-- The database of a script. -/
def Script.db (k : Script) : BillingDB Unit where
  BillingTransactionDB := ⟨fun u => (k.newTx, u), fun _ _ rows u => (k.bulkErr rows, u)⟩
  CollectionJobRepository := ⟨fun j u => (k.jobFetch j, u), fun _ _ _ u => (k.jobUpdateErr, u)⟩
  StepRepository :=
    ⟨fun a b _ _ u => (k.stepCreate a b, u), fun a u => (k.stepFetch a, u),
     fun a b c u => (k.unfinished a b c, u), fun a b c u => (k.noNextStep a b c, u),
     fun _ _ _ u => (k.updateErr, u)⟩
  StepTypeRepository := ⟨fun a u => (k.stepType a, u)⟩
  FileRepository :=
    ⟨fun c _ _ _ _ u => (k.fileCreate c, u), fun a u => (k.fileFetch a, u),
     fun c u => (k.fileByChecksum c, u)⟩
  BillingTx := ⟨fun _ u => (k.commitErr, u), fun _ u => (k.rollbackErr, u)⟩

/-- Insert `a` into a list sorted by `less`, after the entries not greater than it. -/
def insertBy (less : FileInfo → FileInfo → Bool) (a : FileInfo) : List FileInfo → List FileInfo
  | [] => [a]
  | b :: l => if less a b then a :: b :: l else b :: insertBy less a l

/-- An insertion sort, one implementation of the contract of `sort.Slice`. -/
def sortBy (less : FileInfo → FileInfo → Bool) : List FileInfo → List FileInfo
  | [] => []
  | a :: l => insertBy less a (sortBy less l)

/-- The runtime of a script. -/
def Script.sys (k : Script) : Sys σ where
  clock := k.clock
  ReadDir := fun d u => (k.readDir d, u)
  Open := fun n u => (k.openFile n, u)
  IsNotExist := k.isNotExist
  HashCopy := fun n u => (k.hash n, u)
  Close := fun _ u => (none, u)
  Join := k.join
  Clean := k.clean
  SortSlice := k.sortSlice

/-- A script in which every call succeeds, on an empty database and an empty folder. -/
def Script.ok : Script where
  newTx := (some 1, none)
  commitErr := none
  rollbackErr := none
  updateErr := none
  bulkErr := fun _ => none
  fileByChecksum := fun _ => (File.zero, some Err.ErrNoRows)
  fileCreate := fun _ => (1, none)
  fileFetch := fun a => (⟨a, "c0ffee", "usage.csv", "out"⟩, none)
  stepType := fun _ => (⟨0, 0, "", 0⟩, some Err.ErrNoRows)
  unfinished := fun _ _ _ => (Step.zero, some Err.ErrNoRows)
  noNextStep := fun _ _ _ => (Step.zero, some Err.ErrNoRows)
  stepCreate := fun _ _ => (1, none)
  stepFetch := fun _ => (Step.zero, some Err.ErrNoRows)
  jobFetch := fun _ => (⟨0, 0, "", 0, 0, 0⟩, some Err.ErrNoRows)
  jobUpdateErr := none
  readDir := fun _ => ([], none)
  openFile := fun _ => OpenResult.error (Err.other "open")
  hash := fun _ => ([], some (Err.other "read"))
  isNotExist := fun _ => false
  join := fun d n => d ++ "/" ++ n
  clean := fun n => n
  sortSlice := sortBy
  clock := fun n => n

/-- The options of the scripted runs. -/
def Script.options : Options := ⟨1, 4, "in", "out", "importer"⟩

/-- The step service over a script. -/
def Script.service (k : Script) : StepServiceImpl Unit := ⟨Script.options, k.db, k.sys⟩

/-- The step service over a script, with the given options. -/
def Script.serviceWith (k : Script) (options : Options) : StepServiceImpl Unit :=
  ⟨options, k.db, k.sys⟩

/-- The world before a scripted run. -/
def World.init : World Unit := ⟨(), [], 0⟩

/-- A step in progress, used as the input of the scripted runs. -/
def Step.sample : Step := ⟨7, 4, 2, 100, 0, ⟨0, false⟩, "IN PROGRESS", ""⟩

/-- The script in which only the commit fails. -/
def Script.commitFails : Script := { Script.ok with commitErr := some (Err.other "commit") }

/-- The script in which only `FileRepository.Fetch` fails. -/
def Script.fetchFails : Script :=
  { Script.ok with fileFetch := fun _ => (File.zero, some Err.ErrNoRows) }

/-- The file metadata of the scripted runs. -/
def FileMeta.sample : FileMeta := ⟨"usage.csv", "out", "c0ffee"⟩

/-- A `FileRepository.Fetch` call. -/
def Event.isFileFetch : Event → Bool
  | .FileFetch _ => true
  | _ => false

/-! ## A model of the file table

The `file` table behind `sqlxdb.FileSqlxRepository` (`db/sqlxdb/file_sqlx.go`): an
`INSERT` made through a transaction is pending until the transaction is committed,
the `SELECT`s run outside the transaction and see the committed rows only. -/

/-- The file table: the committed rows (oldest first), the rows inserted by the
open transaction, and the next auto-increment id. -/
structure Tables where
  files : List File
  pending : List File
  nextFileID : Int

/-- The failures the database may answer with, each depending on the state of the
tables (and, for the step update, on the step written). A failed `SELECT` is a
storage error, given by its message; "no row" is never a failure of the storage. -/
structure Faults where
  newTx : Tables → Option Err
  lookup : Tables → Option String
  create : Tables → Option Err
  update : Step → Tables → Option Err
  commit : Tables → Option Err
  rollback : Tables → Option Err

/-- The query `SELECT ... FROM file WHERE checksum = ?`, scanned into a zero `db.File`. -/
def Tables.FetchByChecksum (t : Tables) (checksum : String) : File × Option Err :=
  match t.files.find? (fun f => f.Checksum == checksum) with
  | some f => (f, none)
  | none => (File.zero, some Err.ErrNoRows)

/-- The query `SELECT ... FROM file WHERE file_id = ?`, scanned into a zero `db.File`. -/
def Tables.Fetch (t : Tables) (fileID : Int) : File × Option Err :=
  match t.files.find? (fun f => f.ID == fileID) with
  | some f => (f, none)
  | none => (File.zero, some Err.ErrNoRows)

/-- The statement `INSERT INTO file (checksum, name, file_path, created_by)` run in
the open transaction, and the id it was given. -/
def Tables.Create (t : Tables) (checksum name filePath : String) : Int × Tables :=
  (t.nextFileID,
   ⟨t.files, t.pending ++ [⟨t.nextFileID, checksum, name, filePath⟩], t.nextFileID + 1⟩)

/-- The billing database over the file table. The step, step type and collection
job tables are not modelled: their lookups find no row and their writes change
nothing. -/
def Tables.db (φ : Faults) : BillingDB Tables where
  BillingTransactionDB :=
    ⟨fun t => ((some 1, φ.newTx t), ⟨t.files, [], t.nextFileID⟩),
     fun _ _ _ t => (none, t)⟩
  CollectionJobRepository :=
    ⟨fun _ t => ((⟨0, 0, "", 0, 0, 0⟩, some Err.ErrNoRows), t), fun _ _ _ t => (none, t)⟩
  StepRepository :=
    ⟨fun _ _ _ _ t => ((0, none), t), fun _ t => ((Step.zero, some Err.ErrNoRows), t),
     fun _ _ _ t => ((Step.zero, some Err.ErrNoRows), t),
     fun _ _ _ t => ((Step.zero, some Err.ErrNoRows), t),
     fun step _ _ t => (φ.update step t, t)⟩
  StepTypeRepository := ⟨fun _ t => ((⟨0, 0, "", 0⟩, some Err.ErrNoRows), t)⟩
  FileRepository :=
    ⟨fun checksum name filePath _ _ t =>
       (((t.Create checksum name filePath).1, φ.create t), (t.Create checksum name filePath).2),
     fun fileID t =>
       match φ.lookup t with
       | some msg => ((File.zero, some (Err.other msg)), t)
       | none => (t.Fetch fileID, t),
     fun checksum t =>
       match φ.lookup t with
       | some msg => ((File.zero, some (Err.other msg)), t)
       | none => (t.FetchByChecksum checksum, t)⟩
  BillingTx :=
    ⟨fun _ t =>
       match φ.commit t with
       | some e => (some e, ⟨t.files, [], t.nextFileID⟩)
       | none => (none, ⟨t.files ++ t.pending, [], t.nextFileID⟩),
     fun _ t => (φ.rollback t, ⟨t.files, [], t.nextFileID⟩)⟩

/-- The step service over the file table. -/
def Tables.service (φ : Faults) (options : Options) (sys : Sys Tables) : StepServiceImpl Tables :=
  ⟨options, Tables.db φ, sys⟩

/-- A `FileRepository.Create` call. -/
def Event.isFileCreate : Event → Bool
  | .FileCreate _ _ _ _ _ _ => true
  | _ => false

/-- No failure at all. -/
def Faults.none : Faults :=
  ⟨fun _ => Option.none, fun _ => Option.none, fun _ => Option.none, fun _ _ => Option.none,
   fun _ => Option.none, fun _ => Option.none⟩

/-- An empty file table. -/
def Tables.empty : Tables := ⟨[], [], 1⟩

/-- The step service over an empty file table that never fails. -/
def Tables.sampleService : StepServiceImpl Tables :=
  Tables.service Faults.none Script.options Script.ok.sys

/-! ## The scan, read off a folder and a database that do not change -/

/-- What the scan finds for one file: passed over, eligible with the step that
produced it, or failing with an error. -/
inductive Verdict where
  | skipped
  | eligible (step : Step)
  | failed (err : Err)
  deriving DecidableEq, Repr

/-- The contract of `sort.Slice` for the comparison by modification time: the result
is a rearrangement of the input in which modification times never decrease. -/
def SortsByModTime (sort : (FileInfo → FileInfo → Bool) → List FileInfo → List FileInfo) :
    Prop :=
  ∀ l, (sort byModTime l).Perm l
    ∧ (sort byModTime l).Pairwise (fun a b => a.ModTime ≤ b.ModTime)

/-- The full name the scan gives a file of the input folder. -/
def Script.fullName (k : Script) (options : Options) (fileInfo : FileInfo) : String :=
  k.join options.InputFolder (k.clean fileInfo.Name)

/-- The checksum `GetChecksumByName` computes for a file name, or its error. -/
def Script.checksum (k : Script) (fileName : String) : String × Option Err :=
  (GetChecksumByName (k.sys : Sys Unit) fileName World.init).1

/-- The files of the input folder: the listed entries that are not sub-folders. -/
def Script.files (k : Script) (options : Options) : List FileInfo :=
  (k.readDir options.InputFolder).1.filter (fun finfo => !finfo.IsDir)

/-- The verdict on a file: it is eligible when `FetchByChecksum` finds a File row
for its checksum and `FetchByFileIDAndNoNextStep` finds a step for that row and the
step type; it is skipped when one of the two lookups gives `sql.ErrNoRows`; any
other error, of the checksum computation or of a lookup, makes it fail. -/
def Script.verdict (k : Script) (options : Options) (stepType : StepType)
    (fileInfo : FileInfo) : Verdict :=
  match (k.checksum (k.fullName options fileInfo)).2 with
  | some e => Verdict.failed e
  | none =>
    match (k.fileByChecksum (k.checksum (k.fullName options fileInfo)).1).2 with
    | some Err.ErrNoRows => Verdict.skipped
    | some e => Verdict.failed e
    | none =>
      match (k.noNextStep (k.fileByChecksum (k.checksum (k.fullName options fileInfo)).1).1.ID
          stepType.ID options.User).2 with
      | some Err.ErrNoRows => Verdict.skipped
      | some e => Verdict.failed e
      | none =>
        Verdict.eligible
          (k.noNextStep (k.fileByChecksum (k.checksum (k.fullName options fileInfo)).1).1.ID
            stepType.ID options.User).1

/-- The verdict is a failure. -/
def Verdict.isFailed : Verdict → Bool
  | .failed _ => true
  | _ => false

/-- The verdict is eligibility. -/
def Verdict.isEligible : Verdict → Bool
  | .eligible _ => true
  | _ => false

/-- A folder with three tracked files and a sub-folder: every file has a File row
and a producing step without a next step. -/
def Script.threeFiles : Script :=
  { Script.ok with
    readDir := fun _ =>
      ([⟨"a.csv", false, 30⟩, ⟨"b.csv", false, 10⟩, ⟨"old", true, 5⟩, ⟨"c.csv", false, 20⟩], none)
    openFile := fun n => OpenResult.file ⟨n, []⟩
    hash := fun n => (n.toList.map Char.toNat, none)
    fileByChecksum := fun c => (⟨c.length, c, "f", "in"⟩, none)
    noNextStep := fun fid _ _ => (⟨fid, 3, 2, 0, 1, ⟨fid, true⟩, "FINISHED", ""⟩, none) }

/-- A folder whose first file (by modification time) is not tracked, whose second
file makes the checksum lookup fail and whose third file is eligible. -/
def Script.failingFolder : Script :=
  { Script.threeFiles with
    fileByChecksum := fun c =>
      if c = "696e2f622e637376" then (File.zero, some Err.ErrNoRows)
      else if c = "696e2f632e637376" then (File.zero, some (Err.other "connection lost"))
      else (⟨c.length, c, "f", "in"⟩, none) }

/-- No collaborator answers with the sentinel `ErrNoFileToTransform`, which belongs
to the step service. -/
def Script.NoSentinel (k : Script) (options : Options) (stepType : StepType) : Prop :=
  (k.readDir options.InputFolder).2 ≠ some Err.ErrNoFileToTransform
  ∧ ∀ fileInfo ∈ k.files options,
      k.verdict options stepType fileInfo ≠ Verdict.failed Err.ErrNoFileToTransform
      ∧ k.openFile (k.fullName options fileInfo) ≠ OpenResult.error Err.ErrNoFileToTransform

/-- A call that creates, restarts or updates a Step. -/
def Event.isStepWrite : Event → Bool
  | .StepCreate _ _ _ _ _ => true
  | .StepUpdate _ _ _ _ => true
  | .RestartStep _ => true
  | .UpdateStepToSuccessAndCreateFile _ _ => true
  | .UpdateStepToSuccessWithFileID _ _ => true
  | .UpdateStepToError _ _ => true
  | _ => false

/-- The script of an empty input folder, with a step type of the configured source. -/
def Script.emptyFolder : Script :=
  { Script.ok with stepType := fun a => (⟨a, 1, "IMPORT", 4⟩, none) }

/-- The script whose step type belongs to another source than the configured one. -/
def Script.otherSource : Script :=
  { Script.threeFiles with stepType := fun a => (⟨a, 2, "IMPORT", 4⟩, none) }

/-- A vendor mapping with two columns: field 1 goes to column 0, field 0 to column 1. -/
def VendorMapper.sample : VendorMapper :=
  ⟨9, "vendor", "INSERT INTO usage (a, b, created_by) VALUES", "(?, ?, ?)",
   [("a", ⟨0, 1⟩), ("b", ⟨1, 0⟩)]⟩

/-- The number of rows of a `BulkInsert` call (0 for another call). -/
def Event.bulkSize : Event → Nat
  | .BulkInsert _ _ entities _ => entities.length
  | _ => 0

/-- Twenty-five records of two fields, all different. -/
def sampleRecords : List (List String) :=
  (List.range 25).map fun n => [String.mk (List.replicate n 'r'), "v"]

/-- A file holding the twenty-five sample records. -/
def ReadCloser.sample : ReadCloser := ⟨"in/b.csv", sampleRecords.map ReadResult.record⟩

/-- A call of the transaction discipline of the step transitions: opening, committing
or rolling back a transaction, or `StepRepository.Update`. -/
def Event.isStepTx : Event → Bool
  | .NewTransaction _ _ => true
  | .CommitTransaction _ _ => true
  | .RollbackTransaction _ _ => true
  | .StepUpdate _ _ _ _ => true
  | _ => false

/-- A call of `FileRepository`: a lookup or `Create`. -/
def Event.isFileRepository : Event → Bool
  | .FileCreate _ _ _ _ _ _ => true
  | .FileFetch _ => true
  | .FileFetchByChecksum _ => true
  | _ => false

/-- The invariant of the data model: a FINISHED Step has a non-null file reference. -/
def FinishedHasFile (s : Step) : Prop :=
  s.Status = StepStatusFinished → s.FileID.Valid = true

/-- The four transitions of the step service. -/
inductive StepTransition where
  | RestartStep
  | UpdateStepToSuccessAndCreateFile (fileMeta : FileMeta)
  | UpdateStepToSuccessWithFileID (fileID : Int)
  | UpdateStepToError (err : Option Err)

/-- Run one of the four transitions: the Step it returns and the world it leaves. -/
def StepTransition.run (i : StepServiceImpl σ) :
    StepTransition → Step → World σ → Step × World σ
  | .RestartStep, step, w => ((i.RestartStep step w).1.1, (i.RestartStep step w).2)
  | .UpdateStepToSuccessAndCreateFile fileMeta, step, w =>
    ((i.UpdateStepToSuccessAndCreateFile step fileMeta w).1.1,
     (i.UpdateStepToSuccessAndCreateFile step fileMeta w).2)
  | .UpdateStepToSuccessWithFileID fileID, step, w =>
    ((i.UpdateStepToSuccessWithFileID step fileID w).1.1,
     (i.UpdateStepToSuccessWithFileID step fileID w).2)
  | .UpdateStepToError err, step, w =>
    ((i.UpdateStepToError step err w).1.1, (i.UpdateStepToError step err w).2)


/-- A `StepRepository.Update` call. -/
def Event.isStepUpdate : Event → Bool
  | .StepUpdate _ _ _ _ => true
  | _ => false

/-- A `StepRepository.Create` call that returned a nil error. -/
def Event.isStepCreateOk : Event → Bool
  | .StepCreate _ _ _ _ none => true
  | _ => false

/-- A `CollectionJobRepository.Update` call that returned a nil error. -/
def Event.isJobUpdateOk : Event → Bool
  | .CollectionJobUpdate _ _ _ none => true
  | _ => false

/-- A call `createNewImportStep` may make: the transaction calls, `StepRepository.Create`
and `Fetch`, `CollectionJobRepository.Fetch` and `Update`. -/
def Event.isNewImportStep : Event → Bool
  | .NewTransaction _ _ => true
  | .CommitTransaction _ _ => true
  | .RollbackTransaction _ _ => true
  | .StepCreate _ _ _ _ _ => true
  | .StepFetch _ => true
  | .CollectionJobFetch _ => true
  | .CollectionJobUpdate _ _ _ _ => true
  | _ => false

/-- A `StepRepository.Create` call. -/
def Event.isStepCreate : Event → Bool
  | .StepCreate _ _ _ _ _ => true
  | _ => false

/-- A `RestartStep` call on the step service. -/
def Event.isRestartStep : Event → Bool
  | .RestartStep _ => true
  | _ => false

/-- Line 229 of `startImportStep`: the lookup of an unfinished step of the step type,
for the source of the step type and the configured user. -/
def ImporterStepService.fetchUnfinished (i : ImporterStepService σ) (stepType : StepType)
    (w : World σ) : (Step × Option Err) × World σ :=
  i.billingDB.FetchUnfinishedBySourceAndType stepType.SourceID stepType.ID i.Options.User w

/-- The script of a run that creates a new import step: the step type belongs to the
configured source, no unfinished step exists, the collection job and the created step
are found. -/
def Script.newStep : Script :=
  { Script.threeFiles with
    stepType := fun a => (⟨a, 1, "IMPORT", 4⟩, none)
    jobFetch := fun a => (⟨a, 1, "IN PROGRESS", 3, 50, 0⟩, none)
    stepFetch := fun a => (⟨a, 4, 2, 60, 0, ⟨0, false⟩, "IN PROGRESS", ""⟩, none) }

/-- A `BulkInsert` call. -/
def Event.isBulkInsert : Event → Bool
  | .BulkInsert _ _ _ _ => true
  | _ => false

/-- A call that ends the step of a run: `UpdateStepToSuccessAndCreateFile`,
`UpdateStepToSuccessWithFileID` or `UpdateStepToError` on the step service. -/
def Event.isFinalization : Event → Bool
  | .UpdateStepToSuccessAndCreateFile _ _ => true
  | .UpdateStepToSuccessWithFileID _ _ => true
  | .UpdateStepToError _ _ => true
  | _ => false

/-- How the loop of `executeImport` ends, after its full batches were inserted: with
no further call (`tail = []`), at the end of the input with nothing left to insert,
at a read that failed, or at a record that cannot be mapped; or with one last
`BulkInsert` of the rows `pending`, which failed or was the flush at the end of the
input. `rest` is what was left to read. -/
def ImportEnd (user : String) (vm : VendorMapper) (keys : List String) (outcome : Outcome)
    (rest : List ReadResult) (pending : List (List Value)) (tail : List Event) : Prop :=
  (tail = [] ∧ pending.length < 10
    ∧ ((rest = [] ∧ pending = [] ∧ outcome = Outcome.returned none)
      ∨ (∃ e rest1, rest = ReadResult.error e :: rest1 ∧ outcome = Outcome.returned (some e))
      ∨ (∃ r rest1, rest = ReadResult.record r :: rest1 ∧ buildUsage user vm keys r = none
          ∧ outcome = Outcome.panicked)))
  ∨ (∃ err, tail = [Event.BulkInsert vm.SqlBase vm.SqlValues pending err]
      ∧ outcome = Outcome.returned err ∧ pending ≠ [] ∧ pending.length ≤ 10
      ∧ (pending.length < 10 → rest = [])
      ∧ (err = none → rest = [] ∧ pending.length < 10))

namespace ImporterStepService

/-- Lines 127-151 of `ExecuteImportStep`: fetch the step type, the file to import and
start the import step. Gives the result of an early return, or the file data, the
step that produced the file (`previousStep`) and the started step. -/
def startStage (i : ImporterStepService σ) (w : World σ) :
    Except (Outcome × Option Err) (Option ReadCloser × Step × Step) × World σ :=
  let g := i.getStepType w
  match g.1.2 with
  | some e => (Except.error (Outcome.returned (some e), none), g.2)
  | none =>
    let f := i.stepService.callFetchUnprocessedFileByStepType g.1.1 g.2
    match f.1.2.2 with
    | some e =>
      (Except.error (Outcome.returned (some e),
        if e ≠ Err.ErrNoFileToTransform then some e else none), f.2)
    | none =>
      let s := i.startImportStep g.1.1 f.1.2.1.CollectionJobID f.2
      match s.1.2 with
      | some e => (Except.error (Outcome.returned (some e), some e), s.2)
      | none => (Except.ok (f.1.1, f.1.2.1, s.1.1), s.2)

/-- Lines 162-177 of `ExecuteImportStep`: mark the step finished with the file id and,
when that fails, mark it in error. -/
def finalize (i : ImporterStepService σ) (step : Step) (fileID : Int) (w : World σ) :
    (Outcome × Option Err) × World σ :=
  let u := i.stepService.callUpdateStepToSuccessWithFileID step fileID w
  match u.1.2 with
  | some e =>
    let v := i.stepService.callUpdateStepToError step (some e) u.2
    match v.1.2 with
    | some updateErr => ((Outcome.returned (some updateErr), some updateErr), v.2)
    | none => ((Outcome.returned (some e), some e), v.2)
  | none => ((Outcome.returned none, none), u.2)

end ImporterStepService

/-- The script of a run whose file holds one record and whose `BulkInsert` fails. -/
def Script.insertFails : Script :=
  { Script.newStep with
    openFile := fun n => OpenResult.file ⟨n, [ReadResult.record ["x", "y"]]⟩
    bulkErr := fun _ => some (Err.other "insert") }

/-- The script of a run whose import succeeds and whose `StepRepository.Update`
fails. -/
def Script.updateFails : Script :=
  { Script.newStep with updateErr := some (Err.other "update") }

/-- A call that neither ends a step (`Event.isFinalization`) nor creates a File. -/
def Event.isOrdinary : Event → Bool
  | .UpdateStepToSuccessAndCreateFile _ _ => false
  | .UpdateStepToSuccessWithFileID _ _ => false
  | .UpdateStepToError _ _ => false
  | .FileCreate _ _ _ _ _ _ => false
  | _ => true

/-- An `UpdateStepToSuccessWithFileID` call on the step service. -/
def Event.isSuccessWithFileID : Event → Bool
  | .UpdateStepToSuccessWithFileID _ _ => true
  | _ => false

/-! ## A model of the step table

The `step`, `step_type` and `collection_job` tables behind the repositories of
`db/sqlxdb`: a statement run through the transaction is pending until the transaction
is committed, the `SELECT`s run outside the transaction and see the committed rows
only. -/

/-- A row of the `step` table: the columns scanned into `db.Step`, and `created_by`. -/
structure StepRow where
  step : Step
  createdBy : String
  deriving DecidableEq, Repr

/-- A statement on the `step` table run in the open transaction: the `INSERT` of
`Create`, or the `UPDATE` of `Update` with the `time.Now()` it binds to `end_date`. -/
inductive StepWrite where
  | insert (row : StepRow)
  | update (step : Step) (endDate : Time)
  deriving DecidableEq, Repr

/-- Modelled from the spec: the tables of the billing database, whose schema is not
part of the repository. The committed rows of `step` (oldest first), `step_type` and
`collection_job`, the statements of the open transaction, the next auto-increment
step id, the reading of `time.Now()` in the repositories, and the values a new step
row takes for the columns the `INSERT` does not name (`stepDefaults`; the spec has a
Step "created as IN_PROGRESS"). -/
structure StepTables where
  steps : List StepRow
  stepTypes : List StepType
  jobs : List CollectionJob
  pending : List StepWrite
  pendingJobs : List CollectionJob
  nextStepID : Int
  now : Time
  stepDefaults : Step

/-- The failures the database may answer with, each depending on the state of the
tables. A failed `SELECT` is a storage error, given by its message. -/
structure StepFaults where
  newTx : StepTables → Option Err
  select : StepTables → Option String
  create : StepTables → Option Err
  update : StepTables → Option Err
  jobUpdate : StepTables → Option Err
  commit : StepTables → Option Err
  rollback : StepTables → Option Err

namespace StepTables

/-- The `WHERE` clause of `FetchUnfinishedBySourceAndType`, over the join of `step`
with `step_type`: `s.step_type_id = ? and s.created_by = ? and s.status <> 'FINISHED'
and st.source_id = ?`. -/
def isUnfinished (t : StepTables) (sourceID stepTypeID : Int) (user : String)
    (r : StepRow) : Bool :=
  r.step.StepTypeID == stepTypeID && r.createdBy == user
    && r.step.Status != StepStatusFinished
    && t.stepTypes.any (fun st => st.ID == r.step.StepTypeID && st.SourceID == sourceID)

/-- The unfinished steps of a (source, step type, user) combination. -/
def unfinished (t : StepTables) (sourceID stepTypeID : Int) (user : String) : List StepRow :=
  t.steps.filter (t.isUnfinished sourceID stepTypeID user)

/-- The query of `FetchUnfinishedBySourceAndType`, whose first row is scanned into a
zero `db.Step`. -/
def FetchUnfinishedBySourceAndType (t : StepTables) (sourceID stepTypeID : Int)
    (user : String) : Step × Option Err :=
  match (t.unfinished sourceID stepTypeID user).head? with
  | some r => (r.step, none)
  | none => (Step.zero, some Err.ErrNoRows)

/-- The query `SELECT ... FROM step WHERE step_id = ?`. -/
def StepFetch (t : StepTables) (stepID : Int) : Step × Option Err :=
  match t.steps.find? (fun r => r.step.ID == stepID) with
  | some r => (r.step, none)
  | none => (Step.zero, some Err.ErrNoRows)

/-- The query of `FetchByFileIDAndNoNextStep`: a FINISHED step with the file, whose
collection job has no FINISHED step of the step type. -/
def FetchByFileIDAndNoNextStep (t : StepTables) (fileID stepTypeID : Int) : Step × Option Err :=
  match t.steps.find? (fun r =>
      r.step.FileID == ⟨fileID, true⟩ && r.step.Status == StepStatusFinished
        && !t.steps.any (fun n => n.step.StepTypeID == stepTypeID
              && n.step.Status == StepStatusFinished
              && n.step.CollectionJobID == r.step.CollectionJobID)) with
  | some r => (r.step, none)
  | none => (Step.zero, some Err.ErrNoRows)

/-- The query `SELECT ... FROM step_type WHERE step_type_id = ?`. -/
def StepTypeFetch (t : StepTables) (stepTypeID : Int) : StepType × Option Err :=
  match t.stepTypes.find? (fun st => st.ID == stepTypeID) with
  | some st => (st, none)
  | none => (⟨0, 0, "", 0⟩, some Err.ErrNoRows)

/-- The query `SELECT ... FROM collection_job WHERE collection_job_id = ?`. -/
def JobFetch (t : StepTables) (collectionJobID : Int) : CollectionJob × Option Err :=
  match t.jobs.find? (fun job => job.ID == collectionJobID) with
  | some job => (job, none)
  | none => (⟨0, 0, "", 0, 0, 0⟩, some Err.ErrNoRows)

/-- The statement `INSERT INTO step (step_type_id, collection_job_id, created_by)` run
in the open transaction, and the id it was given. -/
def Create (t : StepTables) (stepTypeID collectionJobID : Int) (user : String) :
    Int × StepTables :=
  (t.nextStepID,
   { t with
     pending := t.pending ++ [StepWrite.insert
       ⟨{ t.stepDefaults with
          ID := t.nextStepID, StepTypeID := stepTypeID, CollectionJobID := collectionJobID },
        user⟩]
     nextStepID := t.nextStepID + 1 })

/-- The step table after a statement of the transaction: the inserted row is added;
`UPDATE step SET start_date, end_date, file_id, status, error WHERE step_id = ?`
rewrites the rows of that id. -/
def applyWrite (rows : List StepRow) : StepWrite → List StepRow
  | .insert row => rows ++ [row]
  | .update step endDate =>
    rows.map fun r =>
      if r.step.ID = step.ID then
        ⟨{ r.step with
           StarteDate := step.StarteDate, EndDate := endDate, FileID := step.FileID,
           Status := step.Status, Error := step.Error },
         r.createdBy⟩
      else r

/-- The job table after `UPDATE collection_job SET status, current_step_type_id,
end_date WHERE collection_job_id = ?`. -/
def applyJob (now : Time) (jobs : List CollectionJob) (job : CollectionJob) :
    List CollectionJob :=
  jobs.map fun x =>
    if x.ID = job.ID then
      { x with Status := job.Status, CurrentStepTypeID := job.CurrentStepTypeID, EndDate := now }
    else x

/-- The tables with the open transaction dropped. -/
def clear (t : StepTables) : StepTables :=
  { t with pending := [], pendingJobs := [] }

/-- The tables with the statements of the open transaction applied. -/
def commit (t : StepTables) : StepTables :=
  { t with
    steps := t.pending.foldl applyWrite t.steps
    jobs := t.pendingJobs.foldl (applyJob t.now) t.jobs
    pending := []
    pendingJobs := [] }

/-- The billing database over the step tables. The file table is not modelled here:
its lookups find no row and `Create` changes nothing; `BulkInsert` changes nothing. -/
def db (φ : StepFaults) : BillingDB StepTables where
  BillingTransactionDB :=
    ⟨fun t => ((some 1, φ.newTx t), t.clear), fun _ _ _ t => (none, t)⟩
  CollectionJobRepository :=
    ⟨fun collectionJobID t =>
       match φ.select t with
       | some msg => ((⟨0, 0, "", 0, 0, 0⟩, some (Err.other msg)), t)
       | none => (t.JobFetch collectionJobID, t),
     fun job _ _ t =>
       match φ.jobUpdate t with
       | some e => (some e, t)
       | none => (none, { t with pendingJobs := t.pendingJobs ++ [job] })⟩
  StepRepository :=
    ⟨fun stepTypeID collectionJobID user _ t =>
       match φ.create t with
       | some e => ((0, some e), t)
       | none =>
         (((t.Create stepTypeID collectionJobID user).1, none),
          (t.Create stepTypeID collectionJobID user).2),
     fun stepID t =>
       match φ.select t with
       | some msg => ((Step.zero, some (Err.other msg)), t)
       | none => (t.StepFetch stepID, t),
     fun sourceID stepTypeID user t =>
       match φ.select t with
       | some msg => ((Step.zero, some (Err.other msg)), t)
       | none => (t.FetchUnfinishedBySourceAndType sourceID stepTypeID user, t),
     fun fileID stepTypeID _ t =>
       match φ.select t with
       | some msg => ((Step.zero, some (Err.other msg)), t)
       | none => (t.FetchByFileIDAndNoNextStep fileID stepTypeID, t),
     fun step _ _ t =>
       match φ.update t with
       | some e => (some e, t)
       | none => (none, { t with pending := t.pending ++ [StepWrite.update step t.now] })⟩
  StepTypeRepository :=
    ⟨fun stepTypeID t =>
       match φ.select t with
       | some msg => ((⟨0, 0, "", 0⟩, some (Err.other msg)), t)
       | none => (t.StepTypeFetch stepTypeID, t)⟩
  FileRepository :=
    ⟨fun _ _ _ _ _ t => ((0, none), t),
     fun _ t => ((File.zero, some Err.ErrNoRows), t),
     fun _ t => ((File.zero, some Err.ErrNoRows), t)⟩
  BillingTx :=
    ⟨fun _ t =>
       match φ.commit t with
       | some e => (some e, t.clear)
       | none => (none, t.commit),
     fun _ t => (φ.rollback t, t.clear)⟩

/-- The step service over the step tables. -/
def service (φ : StepFaults) (options : Options) (sys : Sys StepTables) :
    StepServiceImpl StepTables :=
  ⟨options, StepTables.db φ, sys⟩

/-- Tables with one step type, two collection jobs and one step in error, of the
collection job 5; a new step row is IN PROGRESS (the "initial status" of
`db/billingbeans.go`, the spec's "created as IN_PROGRESS"). -/
def sample : StepTables where
  steps := [⟨⟨7, 4, 5, 10, 20, ⟨0, false⟩, "ERROR", "broken"⟩, "importer"⟩]
  stepTypes := [⟨4, 1, "IMPORT", 4⟩]
  jobs := [⟨2, 1, "IN PROGRESS", 3, 0, 0⟩, ⟨5, 1, "IN PROGRESS", 4, 0, 0⟩]
  pending := []
  pendingJobs := []
  nextStepID := 8
  now := 30
  stepDefaults := ⟨0, 0, 0, 0, 0, ⟨0, false⟩, "IN PROGRESS", ""⟩

end StepTables

/-- No failure at all. -/
def StepFaults.none : StepFaults :=
  ⟨fun _ => Option.none, fun _ => Option.none, fun _ => Option.none, fun _ => Option.none,
   fun _ => Option.none, fun _ => Option.none, fun _ => Option.none⟩

/-- The step service over the sample tables, which never fail. -/
def StepTables.sampleService : StepServiceImpl StepTables :=
  StepTables.service StepFaults.none Script.options Script.ok.sys

/-! ## Construction of the engine (`importer.New`) -/

/-- The error `importer.ErrorNewInvalidOptions`. -/
def ErrorNewInvalidOptions : Err := Err.other "New Transformer Step Invalid Options"

/-- The struct `db.BillingDB` as `importer.New` receives it: each embedded interface
may be nil. -/
structure BillingDBFields (σ : Type) where
  BillingTransactionDB : Option (BillingTransactionDB σ)
  CollectionJobRepository : Option (CollectionJobRepository σ)
  StepRepository : Option (StepRepository σ)
  StepTypeRepository : Option (StepTypeRepository σ)
  FileRepository : Option (FileRepository σ)

/-- The struct `importer.ImporterStepService` as `importer.New` fills it: the options,
the pointer to the billing database and the step service (an interface, which may be
nil). -/
structure ImporterStepServiceFields (σ : Type) where
  Options : Options
  billingDB : BillingDBFields σ
  stepService : Option (StepService σ)

/-- The function `validateOptions`. -/
def validateOptions (options : Options) : Bool :=
  if options.User.length = 0 then false
  else if options.InputFolder.length = 0 then false
  else if options.SourceID < 1 then false
  else true

/-- The function `validateBillingDB`. -/
def validateBillingDB (billingDB : BillingDBFields σ) : Bool :=
  if billingDB.BillingTransactionDB.isNone then false
  else if billingDB.StepRepository.isNone then false
  else if billingDB.StepTypeRepository.isNone then false
  else if billingDB.FileRepository.isNone then false
  else true

/-- The function `importer.New`: the service and the error it returns; `none` when it
panics, which it does on a nil `billingDB` pointer (`validateBillingDB` dereferences
it). -/
def New (stepService : Option (StepService σ)) (options : Options)
    (billingDB : Option (BillingDBFields σ)) :
    Option (Option (ImporterStepServiceFields σ) × Option Err) :=
  let err1 : Option Err := if !validateOptions options then some ErrorNewInvalidOptions else none
  match billingDB with
  | none => none
  | some db =>
    let err2 : Option Err := if !validateBillingDB db then some ErrorNewInvalidOptions else err1
    match err2 with
    | some err => some (none, some err)
    | none => some (some ⟨options, db, stepService⟩, none)

/-! ## The HTTP trigger (`handler.go`) -/

/-- The state the handler `StartImportStep` works on: the package variable
`processing`, and the pipeline executions started and not yet ended. `alive` is false
once an execution has panicked: the goroutine recovers nothing, so the program
ends. -/
structure ServerState where
  processing : Bool
  executions : Nat
  alive : Bool
  deriving DecidableEq, Repr

/-- The state at program start. -/
def ServerState.init : ServerState := ⟨false, 0, true⟩

/-- The handler `StartImportStep`, its test-and-set of `processing` taken as one step:
the status and body it writes, and the state it leaves. With the flag clear it sets
the flag and starts the goroutine that calls `ExecuteImportStep`. -/
def StartImportStep (s : ServerState) : (Nat × String) × ServerState :=
  if s.processing then ((503, "Serve is busy. Try again later"), s)
  else ((200, "Import Step request enqueued"), { s with processing := true,
                                                         executions := s.executions + 1 })

/-- The end of the goroutine started by the handler: the deferred function clears
`processing`, whatever `ExecuteImportStep` returned; a panic ends the program. -/
def endExecution (outcome : Outcome) (s : ServerState) : ServerState :=
  { processing := false, executions := s.executions - 1,
    alive := match outcome with
      | Outcome.returned _ => s.alive
      | Outcome.panicked => false }

/-- What happens to the server: a trigger request arrives, or a running execution
ends with an outcome. -/
inductive ServerAction where
  | trigger
  | finish (outcome : Outcome)
  deriving DecidableEq, Repr

/-- One step of the server; `none` when the action cannot happen (no execution is
running, or the program has ended). -/
def ServerState.step (s : ServerState) : ServerAction → Option ServerState
  | .trigger => if s.alive then some (StartImportStep s).2 else none
  | .finish outcome =>
    if s.alive ∧ 0 < s.executions then some (endExecution outcome s) else none

/-- The state after a sequence of steps from `s`. -/
def ServerState.run (s : ServerState) : List ServerAction → Option ServerState
  | [] => some s
  | a :: rest =>
    match s.step a with
    | some s1 => s1.run rest
    | none => none

/-- The script whose files all have the digest 0, 8, 16, ..., 248. -/
def Script.digest : Script :=
  { Script.ok with hash := fun _ => ((List.range 32).map (· * 8), none) }

/-! ## The bulk insert of the sqlx database (`db/sqlxdb/billingdb_sqlx.go`) -/

/-- The calls `BulkInsert` makes on `database/sql`: `DB.Prepare`, and on the prepared
statement `Exec` and `Close`. Each decides its error from the state of the database. -/
structure SqlDriver (σ : Type) where
  Prepare : String → σ → Option Err × σ
  Exec : String → List Value → σ → Option Err × σ
  Close : String → σ → Option Err × σ

/-- One call on `database/sql`, with the text of the statement and, for `Exec`, the
arguments bound. -/
inductive SqlCall where
  | Prepare (query : String)
  | Exec (query : String) (args : List Value)
  | Close (query : String)
  deriving DecidableEq, Repr

/-- The loop of `BulkInsert`, from `index` on, over the entities still to come:
`sqlValues` is appended to `bulkStmt`, then ", " unless the entity is the last, and
the values of the entity are appended to `valsInsert`. -/
def bulkInsertLoop (sqlValues : String) (len : Nat) :
    Nat → List (List Value) → String → List Value → String × List Value
  | _, [], bulkStmt, valsInsert => (bulkStmt, valsInsert)
  | index, entity :: rest, bulkStmt, valsInsert =>
    let bulkStmt1 := bulkStmt ++ sqlValues
    let bulkStmt2 := if (index : Int) < (len : Int) - 1 then bulkStmt1 ++ ", " else bulkStmt1
    bulkInsertLoop sqlValues len (index + 1) rest bulkStmt2 (valsInsert ++ entity)

/-- The method `BillingSQLXDB.BulkInsert`: the error it returns and the calls it made.
The statement is prepared; when that succeeds it is executed and closed, and the
error of `Close`, if any, replaces that of `Exec`. -/
def BillingSQLXDB.BulkInsert (drv : SqlDriver σ) (sqlBase sqlValues : String)
    (entities : List (List Value)) (st : σ) : (Option Err × List SqlCall) × σ :=
  let l := bulkInsertLoop sqlValues entities.length 0 entities "" []
  let sqlStmt := sqlBase ++ " " ++ l.1
  let p := drv.Prepare sqlStmt st
  match p.1 with
  | some traceError => ((some traceError, [SqlCall.Prepare sqlStmt]), p.2)
  | none =>
    let x := drv.Exec sqlStmt l.2 p.2
    let c := drv.Close sqlStmt x.2
    let traceError := match c.1 with
      | some closeError => some closeError
      | none => x.1
    ((traceError, [SqlCall.Prepare sqlStmt, SqlCall.Exec sqlStmt l.2, SqlCall.Close sqlStmt]),
     c.2)

/-- A `DB.Prepare` call. -/
def SqlCall.isPrepare : SqlCall → Bool
  | .Prepare _ => true
  | _ => false

/-- The text `sqlValues` repeated `n` times with ", " between consecutive copies and
nothing after the last. -/
def repeatedValues (sqlValues : String) : Nat → String
  | 0 => ""
  | 1 => sqlValues
  | n + 2 => sqlValues ++ ", " ++ repeatedValues sqlValues (n + 1)

/-- A driver that accepts every statement. -/
def SqlDriver.ok : SqlDriver Unit :=
  ⟨fun _ u => (none, u), fun _ _ u => (none, u), fun _ u => (none, u)⟩

/-- One iteration of the inner loop of `executeImport` when no index is out of range:
`usage[TableIndex] = record[CsvIndex]`. -/
def setUsage (vendorMapper : VendorMapper) (record : List String) (usage : List Value)
    (key : String) : List Value :=
  usage.set (vendorMapper.at key).TableIndex.toNat
    (some (record.getD (vendorMapper.at key).CsvIndex.toNat ""))

/-- A vendor mapping whose only column mapper reads the field -1. -/
def VendorMapper.negativeIndex : VendorMapper :=
  ⟨9, "vendor", "INSERT INTO usage (a, created_by) VALUES", "(?, ?)", [("a", ⟨0, -1⟩)]⟩

/-! ## The base62 coder (`utils/basecoder/basecoder.go`)

A Go string is its sequence of bytes.  Two pieces of the Go runtime are parameters: `runes`, the
pairs (byte index, rune) that `for i, char := range str` yields, and `powInt`, the value of
`int(math.Pow(float64(base), float64(exp)))`. -/

/-- A Go string, as its bytes. -/
abbrev GoString := List Nat

/-- The bytes of an ASCII string literal. -/
def GoString.lit (s : String) : GoString := s.toList.map Char.toNat

/-- Go's `int` on a 64 bit platform: the value an arithmetic result wraps to. -/
def wrapInt (x : Int) : Int := (x + 2 ^ 63) % 2 ^ 64 - 2 ^ 63

/-- `BaseCoder` of `basecoder.go`. -/
structure BaseCoder where
  Alphabet : GoString

/-- `New62`: the coder of base 62. -/
def New62 : BaseCoder :=
  ⟨GoString.lit "0123456789ABCDEFGHIJKLMNOPQRSTUVWXYZabcdefghijklmnopqrstuvwxyz"⟩

/-- `strings.IndexByte`: the index of the first byte equal to `c`, or -1. -/
def IndexByte (s : GoString) (c : Nat) : Int :=
  if c ∈ s then (s.indexOf c : Int) else -1

/-- The loop `for number > 0` of `Encode`; `number` is positive inside the loop, where `%` and `/`
of Go are those of the natural numbers.  `none`: the loop is still running when the fuel is
used up. -/
def encodeLoop (alphabet : GoString) : Nat → Nat → List Nat → Option (List Nat)
  | 0, number, result => if number > 0 then none else some result
  | fuel + 1, number, result =>
    if number > 0 then
      encodeLoop alphabet fuel (number / alphabet.length)
        (result ++ [alphabet.getD (number % alphabet.length) 0])
    else some result

/-- `BaseCoder.Encode`.  The loop divides `number` by the base until it is zero; it is run with
`number` units of fuel, which it uses up only when it never ends (base 1).  The second loop of
the source reverses `result` in place. -/
def BaseCoder.Encode (b : BaseCoder) (number : Int) : Option GoString :=
  if b.Alphabet.length = 0 then some []
  else if number < 1 then some [b.Alphabet.getD 0 0]
  else (encodeLoop b.Alphabet number.toNat number.toNat []).map List.reverse

/-- The loop `for i, char := range str` of `Decode`, over the pairs the range yields. -/
def decodeLoop (alphabet : GoString) (powInt : Int → Int → Int) (len : Nat) :
    List (Nat × Nat) → Int → Int
  | [], result => result
  | (i, char) :: rest, result =>
    if IndexByte alphabet (char % 256) < 0 then 0
    else
      decodeLoop alphabet powInt len rest
        (wrapInt (result + wrapInt (IndexByte alphabet (char % 256)
          * powInt alphabet.length ((len : Int) - i - 1))))

/-- `BaseCoder.Decode`. -/
def BaseCoder.Decode (b : BaseCoder) (runes : GoString → List (Nat × Nat))
    (powInt : Int → Int → Int) (str : GoString) : Int :=
  if b.Alphabet.length = 0 ∨ str.length = 0 then 0
  else decodeLoop b.Alphabet powInt str.length (runes str) 0

/-- Ranging over a string of ASCII bytes yields each byte as a rune, at its index. -/
def RangesASCII (runes : GoString → List (Nat × Nat)) : Prop :=
  ∀ s : GoString, (∀ c ∈ s, c < 128) → runes s = s.enum

/-- The powers of 62 up to the tenth are computed exactly: `float64` holds them without
rounding, as 62 ^ 10 = 2 ^ 10 * 31 ^ 10 and 31 ^ 10 < 2 ^ 53. -/
def PowExact (powInt : Int → Int → Int) : Prop :=
  ∀ e : Nat, e ≤ 10 → powInt 62 e = 62 ^ e

/-- A `powInt` that computes every power exactly. -/
def exactPow (base exp : Int) : Int := base ^ exp.toNat

/-! ## Message ids (`utils/msgid.go`) -/

/-- The test of the loop of `IsBase62` on one rune. -/
def isBase62Rune (c : Nat) : Bool :=
  (Char.toNat '0' ≤ c ∧ c ≤ Char.toNat '9') ∨ (Char.toNat 'A' ≤ c ∧ c ≤ Char.toNat 'Z')
    ∨ (Char.toNat 'a' ≤ c ∧ c ≤ Char.toNat 'z')

/-- `IsBase62` of `basecoder.go`: false on the empty string and at the first rune outside the
three ranges. -/
def IsBase62 (runes : GoString → List (Nat × Nat)) (str : GoString) : Bool :=
  if str.length = 0 then false
  else (runes str).all (fun ic => isBase62Rune ic.2)

/-- `strings.Split` with a separator of one byte. -/
def Split (sep : Nat) : GoString → List GoString
  | [] => [[]]
  | c :: rest =>
    if c = sep then [] :: Split sep rest
    else
      match Split sep rest with
      | t :: ts => (c :: t) :: ts
      | [] => [[c]]

/-- The verb `%0Ns` of `fmt.Sprintf` with `width` for N: zeros on the left up to the width,
nothing cut.  The width counts characters, which are the bytes of an ASCII string. -/
def padZero (width : Nat) (s : GoString) : GoString :=
  List.replicate (width - s.length) (Char.toNat '0') ++ s

/-- What `Generate` reads of a `time.Time`: `Unix()` and `Nanosecond()`. -/
structure Instant where
  Unix : Int
  Nanosecond : Nat

/-- `MsgIDGenerator` of `msgid.go`. -/
structure MsgIDGenerator where
  ProcessID : Int
  Date : Instant
  BackupDate : Instant

/-- The nanoseconds `Generate` encodes: those of `Date`, else of `BackupDate`, else of
`time.Now()`. -/
def MsgIDGenerator.nanos (m : MsgIDGenerator) (nowNanos : Nat) : Nat :=
  if m.Date.Nanosecond = 0 then
    if m.BackupDate.Nanosecond = 0 then nowNanos else m.BackupDate.Nanosecond
  else m.Date.Nanosecond

/-- `MsgIDGenerator.Generate`; `nowNanos` is `time.Now().Nanosecond()`. -/
def MsgIDGenerator.Generate (m : MsgIDGenerator) (nowNanos : Nat) : Option GoString :=
  match New62.Encode m.Date.Unix, New62.Encode m.ProcessID,
      New62.Encode ((m.nanos nowNanos : Int) % (62 * 62)) with
  | some p0, some p1, some p2 =>
    some (padZero 6 p0 ++ [Char.toNat '-'] ++ padZero 6 p1 ++ [Char.toNat '-'] ++ padZero 2 p2)
  | _, _, _ => none

/-- `IsEximMsgID`. -/
def IsEximMsgID (runes : GoString → List (Nat × Nat)) (msgid : GoString) : Bool :=
  if msgid.length < 16 then false
  else if (Split (Char.toNat '-') msgid).length < 3 then false
  else if ((Split (Char.toNat '-') msgid).getD 0 []).length ≠ 6
      ∨ ¬ IsBase62 runes ((Split (Char.toNat '-') msgid).getD 0 []) then false
  else if ((Split (Char.toNat '-') msgid).getD 1 []).length ≠ 6
      ∨ ¬ IsBase62 runes ((Split (Char.toNat '-') msgid).getD 1 []) then false
  else
    decide (((Split (Char.toNat '-') msgid).getD 2 []).length ≥ 2)
      && IsBase62 runes (((Split (Char.toNat '-') msgid).getD 2 []).take 2)

/-- A generator for 2001-09-09 01:46:40 UTC, no nanoseconds, process 4242. -/
def MsgIDGenerator.sample : MsgIDGenerator := ⟨4242, ⟨1000000000, 0⟩, ⟨1000000000, 0⟩⟩

/-- The script of `Script.newStep` in which only the commit fails. -/
def Script.newStepCommitFails : Script :=
  { Script.newStep with commitErr := some (Err.other "commit") }

/-- A driver that refuses to prepare any statement. -/
def SqlDriver.prepareFails : SqlDriver Unit :=
  ⟨fun _ u => (some (Err.other "prepare"), u), fun _ _ u => (none, u), fun _ u => (none, u)⟩

/-! # Properties -/

/-! ## Step service: transitions -/

theorem newEvents_self (w : World σ) : newEvents w w = [] := by
  simp [newEvents]

/-- A failed `RestartStep` gives the step back and never commits. -/
theorem RestartStep_error (i : StepServiceImpl σ) (s : Step) (w : World σ)
    (h : (i.RestartStep s w).1.2 ≠ none) :
    (i.RestartStep s w).1.1 = s ∧ NeverCommitted (newEvents w (i.RestartStep s w).2) = true := by
  unfold StepServiceImpl.RestartStep at h ⊢
  rcases hn : i.billingDB.BillingTransactionDB.NewTransaction w.st with ⟨⟨tx, e0⟩, st0⟩
  simp only [BillingDB.NewTransaction, hn, BillingDB.StepUpdate, timeNow, World.emit] at h ⊢
  generalize hu : i.billingDB.StepRepository.Update _ _ _ _ = ru at h ⊢
  rcases ru with ⟨e1, st1⟩
  cases tx with
  | none =>
    cases e0 <;> cases e1 <;>
      simp_all [BillingDB.HandleTx, newEvents, NeverCommitted, Event.isCommitOk, Event.isCommit,
        Event.isRollback]
  | some t =>
    simp only [BillingDB.HandleTx, BillingDB.RollbackTransaction, BillingDB.CommitTransaction,
      World.emit] at h ⊢
    generalize hr0 : i.billingDB.BillingTx.RollbackTransaction t st0 = rr0 at h ⊢
    generalize hr : i.billingDB.BillingTx.RollbackTransaction t st1 = rr at h ⊢
    generalize hc : i.billingDB.BillingTx.CommitTransaction t st1 = rc at h ⊢
    rcases rr0 with ⟨x0, st2⟩
    rcases rr with ⟨x1, st3⟩
    rcases rc with ⟨x2, st4⟩
    cases e0 <;> cases e1 <;> cases x0 <;> cases x1 <;> cases x2 <;>
      simp_all [newEvents, NeverCommitted, Event.isCommitOk, Event.isCommit, Event.isRollback,
        Event.isRollbackOf]

/-- A failed `UpdateStepToSuccessWithFileID` gives the step back and never commits. -/
theorem UpdateStepToSuccessWithFileID_error (i : StepServiceImpl σ) (s : Step) (fileID : Int)
    (w : World σ) (h : (i.UpdateStepToSuccessWithFileID s fileID w).1.2 ≠ none) :
    (i.UpdateStepToSuccessWithFileID s fileID w).1.1 = s
      ∧ NeverCommitted (newEvents w (i.UpdateStepToSuccessWithFileID s fileID w).2) = true := by
  unfold StepServiceImpl.UpdateStepToSuccessWithFileID at h ⊢
  rcases hn : i.billingDB.BillingTransactionDB.NewTransaction w.st with ⟨⟨tx, e0⟩, st0⟩
  simp only [BillingDB.NewTransaction, hn, BillingDB.StepUpdate, timeNow, World.emit] at h ⊢
  generalize hu : i.billingDB.StepRepository.Update _ _ _ _ = ru at h ⊢
  rcases ru with ⟨e1, st1⟩
  cases tx with
  | none =>
    cases e0 <;> cases e1 <;>
      simp_all [BillingDB.HandleTx, newEvents, NeverCommitted, Event.isCommitOk, Event.isCommit,
        Event.isRollback]
  | some t =>
    simp only [BillingDB.HandleTx, BillingDB.RollbackTransaction, BillingDB.CommitTransaction,
      World.emit] at h ⊢
    generalize hr0 : i.billingDB.BillingTx.RollbackTransaction t st0 = rr0 at h ⊢
    generalize hr : i.billingDB.BillingTx.RollbackTransaction t st1 = rr at h ⊢
    generalize hc : i.billingDB.BillingTx.CommitTransaction t st1 = rc at h ⊢
    rcases rr0 with ⟨x0, st2⟩
    rcases rr with ⟨x1, st3⟩
    rcases rc with ⟨x2, st4⟩
    cases e0 <;> cases e1 <;> cases x0 <;> cases x1 <;> cases x2 <;>
      simp_all [newEvents, NeverCommitted, Event.isCommitOk, Event.isCommit, Event.isRollback,
        Event.isRollbackOf]

/-- A failed `UpdateStepToError` gives the step back and never commits. -/
theorem UpdateStepToError_error (i : StepServiceImpl σ) (s : Step) (err : Option Err)
    (w : World σ) (h : (i.UpdateStepToError s err w).1.2 ≠ none) :
    (i.UpdateStepToError s err w).1.1 = s
      ∧ NeverCommitted (newEvents w (i.UpdateStepToError s err w).2) = true := by
  cases err with
  | none => simp [StepServiceImpl.UpdateStepToError, newEvents_self, NeverCommitted]
  | some e =>
    unfold StepServiceImpl.UpdateStepToError at h ⊢
    rcases hn : i.billingDB.BillingTransactionDB.NewTransaction w.st with ⟨⟨tx, e0⟩, st0⟩
    simp only [BillingDB.NewTransaction, hn, BillingDB.StepUpdate, timeNow, World.emit] at h ⊢
    generalize hu : i.billingDB.StepRepository.Update _ _ _ _ = ru at h ⊢
    rcases ru with ⟨e1, st1⟩
    cases tx with
    | none =>
      cases e0 <;> cases e1 <;>
        simp_all [BillingDB.HandleTx, newEvents, NeverCommitted, Event.isCommitOk,
          Event.isCommit, Event.isRollback]
    | some t =>
      simp only [BillingDB.HandleTx, BillingDB.RollbackTransaction, BillingDB.CommitTransaction,
        World.emit] at h ⊢
      generalize hr0 : i.billingDB.BillingTx.RollbackTransaction t st0 = rr0 at h ⊢
      generalize hr : i.billingDB.BillingTx.RollbackTransaction t st1 = rr at h ⊢
      generalize hc : i.billingDB.BillingTx.CommitTransaction t st1 = rc at h ⊢
      rcases rr0 with ⟨x0, st2⟩
      rcases rr with ⟨x1, st3⟩
      rcases rc with ⟨x2, st4⟩
      cases e0 <;> cases e1 <;> cases x0 <;> cases x1 <;> cases x2 <;>
        simp_all [newEvents, NeverCommitted, Event.isCommitOk, Event.isCommit, Event.isRollback,
          Event.isRollbackOf]

/-- C1, as stated, fails: when `StepRepository.Update` succeeds and the commit fails,
`RestartStep` returns the commit's error with the input step restored, but the
transaction it opened has a (failed) commit call and no rollback call. -/
theorem C1_commit_failure_is_not_rolled_back :
    ¬ ((StepOp.run Script.commitFails.service .RestartStep Step.sample World.init).1.2 ≠ none →
        (StepOp.run Script.commitFails.service .RestartStep Step.sample World.init).1.1
            = Step.sample
          ∧ RolledBackNotCommitted (newEvents World.init
              (StepOp.run Script.commitFails.service .RestartStep Step.sample World.init).2)
            = true) := by
  decide

/-- C1 (amended): for each of RestartStep, UpdateStepToSuccessWithFileID and
UpdateStepToError and every input Step, whenever the operation returns a non-nil
error the returned Step equals the input Step in every field and no commit
succeeded; a transaction whose StepRepository.Update failed was rolled back with no
commit call, and when it is the commit that failed no rollback call was made. -/
theorem C1_error_returns_input_step (i : StepServiceImpl σ) (op : StepOp) (s : Step)
    (w : World σ) (h : (op.run i s w).1.2 ≠ none) :
    (op.run i s w).1.1 = s ∧ NeverCommitted (newEvents w (op.run i s w).2) = true := by
  cases op with
  | RestartStep => exact RestartStep_error i s w h
  | UpdateStepToSuccessWithFileID fileID => exact UpdateStepToSuccessWithFileID_error i s fileID w h
  | UpdateStepToError err => exact UpdateStepToError_error i s err w h

/-- C1 (amended), on the run in which the commit fails. -/
theorem C1_error_returns_input_step_witness :
    (StepOp.run Script.commitFails.service .RestartStep Step.sample World.init).1.2 ≠ none
    ∧ (StepOp.run Script.commitFails.service .RestartStep Step.sample World.init).1.1
        = Step.sample
    ∧ NeverCommitted (newEvents World.init
        (StepOp.run Script.commitFails.service .RestartStep Step.sample World.init).2) = true :=
  ⟨by decide, C1_error_returns_input_step _ _ _ _ (by decide)⟩

theorem newEvents_of_log (w w1 : World σ) (evs : List Event) (h : w1.log = w.log ++ evs) :
    newEvents w w1 = evs := by
  simp [newEvents, h]

/-- What `HandleTx` records: nothing, one rollback or one commit. -/
theorem HandleTx_log (db : BillingDB σ) (tx : Option Tx) (err : Option Err) (w : World σ) :
    (db.HandleTx tx err w).2.nowCount = w.nowCount
    ∧ ((db.HandleTx tx err w).2.log = w.log
      ∨ (∃ t x, (db.HandleTx tx err w).2.log = w.log ++ [Event.RollbackTransaction t x])
      ∨ (∃ t x, (db.HandleTx tx err w).2.log = w.log ++ [Event.CommitTransaction t x])) := by
  cases tx with
  | none => exact ⟨rfl, Or.inl rfl⟩
  | some t =>
    cases err with
    | some e =>
      simp only [BillingDB.HandleTx, BillingDB.RollbackTransaction, World.emit]
      generalize db.BillingTx.RollbackTransaction _ _ = rr
      rcases rr with ⟨x, st⟩
      cases x <;> exact ⟨rfl, Or.inr (Or.inl ⟨_, _, rfl⟩)⟩
    | none =>
      simp only [BillingDB.HandleTx, BillingDB.CommitTransaction, World.emit]
      generalize db.BillingTx.CommitTransaction _ _ = rr
      rcases rr with ⟨x, st⟩
      cases x <;> exact ⟨rfl, Or.inr (Or.inr ⟨_, _, rfl⟩)⟩

/-- `HandleTx` makes no `FileRepository.Fetch` call. -/
theorem HandleTx_noFileFetch (db : BillingDB σ) (tx : Option Tx) (err : Option Err)
    (w : World σ) :
    ∃ evs, (db.HandleTx tx err w).2.log = w.log ++ evs ∧ evs.any Event.isFileFetch = false := by
  rcases (HandleTx_log db tx err w).2 with h | ⟨t, x, h⟩ | ⟨t, x, h⟩
  · exact ⟨[], by simpa using h, rfl⟩
  · exact ⟨_, h, by simp [Event.isFileFetch]⟩
  · exact ⟨_, h, by simp [Event.isFileFetch]⟩

/-- A rolled back call returns an error. -/
theorem HandleTx_error (db : BillingDB σ) (tx : Option Tx) (e : Err) (w : World σ) :
    (db.HandleTx tx (some e) w).1 ≠ none := by
  cases tx with
  | none => simp [BillingDB.HandleTx]
  | some t =>
    simp only [BillingDB.HandleTx]
    split <;> simp

/-- The lookup stage makes no `FileRepository.Fetch` call and does not read the clock. -/
theorem fileIDForChecksum_log (i : StepServiceImpl σ) (fm : FileMeta) (tx : Option Tx)
    (w : World σ) :
    (i.fileIDForChecksum fm tx w).2.nowCount = w.nowCount
    ∧ ∃ evs, (i.fileIDForChecksum fm tx w).2.log = w.log ++ evs
        ∧ evs.any Event.isFileFetch = false := by
  unfold StepServiceImpl.fileIDForChecksum
  simp only [BillingDB.FileFetchByChecksum, BillingDB.FileCreate, World.emit]
  generalize i.billingDB.FileRepository.FetchByChecksum _ _ = rf
  rcases rf with ⟨⟨file, e1⟩, st1⟩
  generalize i.billingDB.FileRepository.Create _ _ _ _ _ _ = rc
  rcases rc with ⟨⟨fid, e2⟩, st2⟩
  rcases e1 with _ | e1
  · exact ⟨rfl, _, rfl, by simp [Event.isFileFetch]⟩
  · cases e1 <;> first
      | exact ⟨rfl, _, rfl, by simp [Event.isFileFetch]⟩
      | (cases e2 <;> exact ⟨rfl, _, List.append_assoc _ _ _, by simp [Event.isFileFetch]⟩)

/-- A failed finishing stage gives the step back, unless the failure is that of the
re-fetch. -/
theorem finishWithFileID_error (i : StepServiceImpl σ) (s : Step) (file : File) (fileID : Int)
    (tx : Option Tx) (w : World σ) (h : (i.finishWithFileID s file fileID tx w).1.2.2 ≠ none) :
    (i.finishWithFileID s file fileID tx w).2.log
        = w.log ++ newEvents w (i.finishWithFileID s file fileID tx w).2
      ∧ ((newEvents w (i.finishWithFileID s file fileID tx w).2).any Event.isFileFetch = false →
          (i.finishWithFileID s file fileID tx w).1.1 = s)
      ∧ ((newEvents w (i.finishWithFileID s file fileID tx w).2).any Event.isFileFetch = true →
          (i.finishWithFileID s file fileID tx w).1.1
            = { s with FileID := ⟨fileID, true⟩, Status := StepStatusFinished, Error := "",
                       EndDate := i.sys.clock w.nowCount }
          ∧ Event.FileFetch fileID ∈ newEvents w (i.finishWithFileID s file fileID tx w).2) := by
  unfold StepServiceImpl.finishWithFileID at h ⊢
  simp only [timeNow, BillingDB.StepUpdate, World.emit] at h ⊢
  generalize hu : i.billingDB.StepRepository.Update _ _ _ _ = ru at h ⊢
  rcases ru with ⟨eu, su⟩
  cases tx with
  | none =>
    simp only [BillingDB.HandleTx, BillingDB.FileFetch, World.emit] at h ⊢
    generalize hg : i.billingDB.FileRepository.Fetch _ _ = rg at h ⊢
    rcases rg with ⟨⟨gfile, eg⟩, sg⟩
    cases eu <;> cases eg <;> simp_all [newEvents, Event.isFileFetch] <;>
      split at h <;> simp_all [newEvents, Event.isFileFetch]
  | some t =>
    simp only [BillingDB.HandleTx, BillingDB.FileFetch, BillingDB.RollbackTransaction,
      BillingDB.CommitTransaction, World.emit] at h ⊢
    generalize i.billingDB.BillingTx.RollbackTransaction t su = rr at h ⊢
    rcases rr with ⟨xr, sr⟩
    generalize i.billingDB.BillingTx.CommitTransaction t su = rc at h ⊢
    rcases rc with ⟨xc, sc⟩
    simp only [] at h ⊢
    generalize hg : i.billingDB.FileRepository.Fetch _ _ = rg at h ⊢
    rcases rg with ⟨⟨gfile, eg⟩, sg⟩
    simp only [] at h ⊢
    generalize i.billingDB.BillingTx.RollbackTransaction t sg = rr2 at h ⊢
    rcases rr2 with ⟨xr2, sr2⟩
    cases eu with
    | some eu => cases xr <;> simp [newEvents, Event.isFileFetch]
    | none =>
      cases xc with
      | some xc => simp [newEvents, Event.isFileFetch]
      | none =>
        simp only [] at h ⊢
        split
        · cases eg with
          | some eg => cases xr2 <;> simp [newEvents, Event.isFileFetch]
          | none => simp_all
        · simp_all

/-- A failed `UpdateStepToSuccessAndCreateFile` gives the input step back unless the
failure is that of the re-fetch, which returns the updated step. -/
theorem UpdateStepToSuccessAndCreateFile_error (i : StepServiceImpl σ) (s : Step)
    (fm : FileMeta) (w : World σ)
    (h : (i.UpdateStepToSuccessAndCreateFile s fm w).1.2.2 ≠ none) :
    ((newEvents w (i.UpdateStepToSuccessAndCreateFile s fm w).2).any Event.isFileFetch = false →
      (i.UpdateStepToSuccessAndCreateFile s fm w).1.1 = s)
    ∧ ((newEvents w (i.UpdateStepToSuccessAndCreateFile s fm w).2).any Event.isFileFetch = true →
      (i.UpdateStepToSuccessAndCreateFile s fm w).1.1
        = { s with
            FileID := ⟨(i.UpdateStepToSuccessAndCreateFile s fm w).1.1.FileID.Int64, true⟩,
            Status := StepStatusFinished, Error := "", EndDate := i.sys.clock w.nowCount }
      ∧ Event.FileFetch (i.UpdateStepToSuccessAndCreateFile s fm w).1.1.FileID.Int64
          ∈ newEvents w (i.UpdateStepToSuccessAndCreateFile s fm w).2) := by
  unfold StepServiceImpl.UpdateStepToSuccessAndCreateFile at h ⊢
  rcases hn : i.billingDB.BillingTransactionDB.NewTransaction w.st with ⟨⟨tx, e0⟩, st0⟩
  simp only [BillingDB.NewTransaction, hn, World.emit] at h ⊢
  generalize hW0 : (⟨st0, w.log ++ [Event.NewTransaction tx e0], w.nowCount⟩ : World σ) = W0
    at h ⊢
  have hW0log : W0.log = w.log ++ [Event.NewTransaction tx e0] := by rw [← hW0]
  have hW0now : W0.nowCount = w.nowCount := by rw [← hW0]
  cases e0 with
  | some e =>
    simp only [] at h ⊢
    obtain ⟨evs, hl, hf⟩ := HandleTx_noFileFetch i.billingDB tx (some e) W0
    rw [newEvents_of_log w _ ([Event.NewTransaction tx (some e)] ++ evs)
      (by rw [hl, hW0log, List.append_assoc])]
    simp [Event.isFileFetch, hf]
  | none =>
    simp only [] at h ⊢
    obtain ⟨hAnow, evsA, hAlog, hAf⟩ := fileIDForChecksum_log i fm tx W0
    generalize i.fileIDForChecksum fm tx W0 = rc at h hAnow hAlog ⊢
    rcases rc with ⟨⟨file, res⟩, WA⟩
    simp only [] at hAnow hAlog
    cases res with
    | error e =>
      simp only [] at h ⊢
      obtain ⟨evs, hl, hf⟩ := HandleTx_noFileFetch i.billingDB tx (some e) WA
      rw [newEvents_of_log w _ ([Event.NewTransaction tx none] ++ evsA ++ evs)
        (by rw [hl, hAlog, hW0log]; simp only [List.append_assoc])]
      simp [Event.isFileFetch, hf, hAf]
    | ok fid =>
      simp only [] at h ⊢
      obtain ⟨hBlog, hB1, hB2⟩ := finishWithFileID_error i s file fid tx WA h
      rw [newEvents_of_log w _
        ([Event.NewTransaction tx none] ++ evsA
          ++ newEvents WA (i.finishWithFileID s file fid tx WA).2)
        (by rw [hBlog, hAlog, hW0log]; simp only [List.append_assoc])]
      simp only [List.any_append, hAf, List.any_cons, List.any_nil, Event.isFileFetch,
        Bool.false_or, Bool.or_false, List.mem_append, List.mem_singleton, List.mem_cons]
      refine ⟨hB1, fun hff => ?_⟩
      obtain ⟨h1, h2⟩ := hB2 hff
      rw [h1, hAnow, hW0now]
      exact ⟨rfl, Or.inr h2⟩

/-- C2, as stated, fails: when the File is created, the Step is updated and the
transaction is committed, but the re-fetch of the new File fails,
`UpdateStepToSuccessAndCreateFile` returns an error together with the updated
(FINISHED) Step, not with the input Step's values. -/
theorem C2_refetch_failure_returns_updated_step :
    ¬ ((Script.fetchFails.service.UpdateStepToSuccessAndCreateFile Step.sample FileMeta.sample
          World.init).1.2.2 ≠ none →
        (Script.fetchFails.service.UpdateStepToSuccessAndCreateFile Step.sample FileMeta.sample
          World.init).1.1 = Step.sample) := by
  decide

/-- C2 (amended): whenever UpdateStepToSuccessAndCreateFile returns a non-nil error
before the re-fetch of the new File (no FileRepository.Fetch call was made: the
failure is in opening the transaction, the checksum lookup, the File creation, the
Step update or the commit), the returned Step equals the input Step; when the
error comes from the re-fetch made after the commit, the returned Step is the
updated one: the input Step with FileID set to the attached file id (valid), Status
FINISHED, empty Error and EndDate the current time, the re-fetch having been made
for that file id. -/
theorem C2_error_before_refetch_returns_input_step (i : StepServiceImpl σ) (s : Step)
    (fm : FileMeta) (w : World σ)
    (h : (i.UpdateStepToSuccessAndCreateFile s fm w).1.2.2 ≠ none) :
    ((newEvents w (i.UpdateStepToSuccessAndCreateFile s fm w).2).any Event.isFileFetch = false →
      (i.UpdateStepToSuccessAndCreateFile s fm w).1.1 = s)
    ∧ ((newEvents w (i.UpdateStepToSuccessAndCreateFile s fm w).2).any Event.isFileFetch = true →
      (i.UpdateStepToSuccessAndCreateFile s fm w).1.1
        = { s with
            FileID := ⟨(i.UpdateStepToSuccessAndCreateFile s fm w).1.1.FileID.Int64, true⟩,
            Status := StepStatusFinished, Error := "", EndDate := i.sys.clock w.nowCount }
      ∧ Event.FileFetch (i.UpdateStepToSuccessAndCreateFile s fm w).1.1.FileID.Int64
          ∈ newEvents w (i.UpdateStepToSuccessAndCreateFile s fm w).2) :=
  UpdateStepToSuccessAndCreateFile_error i s fm w h

/-- C2 (amended), on the run in which the update fails: the input step comes back. -/
theorem C2_error_before_refetch_returns_input_step_witness :
    (({ Script.ok with updateErr := some (Err.other "update") } : Script).service
        |>.UpdateStepToSuccessAndCreateFile Step.sample FileMeta.sample World.init).1.2.2 ≠ none
    ∧ (({ Script.ok with updateErr := some (Err.other "update") } : Script).service
        |>.UpdateStepToSuccessAndCreateFile Step.sample FileMeta.sample World.init).1.1
        = Step.sample :=
  ⟨by decide,
   (C2_error_before_refetch_returns_input_step _ Step.sample FileMeta.sample World.init
      (by decide)).1 (by decide)⟩

/-- C9: for every Step s, `UpdateStepToError(s, nil)` returns s unchanged with
`ErrToUpdateNil` and leaves the world as it found it: no transaction is opened and
`StepRepository.Update` is not called (no call at all is recorded). -/
theorem C9_nil_error_is_rejected (i : StepServiceImpl σ) (s : Step) (w : World σ) :
    i.UpdateStepToError s none w = ((s, some Err.ErrToUpdateNil), w)
    ∧ newEvents w (i.UpdateStepToError s none w).2 = [] :=
  ⟨rfl, newEvents_self w⟩

/-- A successful `RestartStep` returns the restarted step and reads the clock once. -/
theorem RestartStep_ok (i : StepServiceImpl σ) (s : Step) (w : World σ)
    (h : (i.RestartStep s w).1.2 = none) :
    (i.RestartStep s w).1.1
        = { s with Status := StepStatusInProgress, Error := "", FileID := ⟨0, false⟩,
                   StarteDate := i.sys.clock w.nowCount }
      ∧ (i.RestartStep s w).2.nowCount = w.nowCount + 1 := by
  unfold StepServiceImpl.RestartStep at h ⊢
  rcases hn : i.billingDB.BillingTransactionDB.NewTransaction w.st with ⟨⟨tx, e0⟩, st0⟩
  simp only [BillingDB.NewTransaction, hn, BillingDB.StepUpdate, timeNow, World.emit] at h ⊢
  generalize hu : i.billingDB.StepRepository.Update _ _ _ _ = ru at h ⊢
  rcases ru with ⟨e1, st1⟩
  cases tx with
  | none =>
    cases e0 <;> cases e1 <;> simp_all [BillingDB.HandleTx]
  | some t =>
    simp only [BillingDB.HandleTx, BillingDB.RollbackTransaction, BillingDB.CommitTransaction,
      World.emit] at h ⊢
    generalize hr0 : i.billingDB.BillingTx.RollbackTransaction t st0 = rr0 at h ⊢
    generalize hr : i.billingDB.BillingTx.RollbackTransaction t st1 = rr at h ⊢
    generalize hc : i.billingDB.BillingTx.CommitTransaction t st1 = rc at h ⊢
    rcases rr0 with ⟨x0, st2⟩
    rcases rr with ⟨x1, st3⟩
    rcases rc with ⟨x2, st4⟩
    cases e0 <;> cases e1 <;> cases x0 <;> cases x1 <;> cases x2 <;> simp_all

/-- C10: with a clock that never goes backwards and persistence succeeding (both
calls return a nil error), s1 = RestartStep(s) and s2 = RestartStep(s1) both have
Status "IN PROGRESS", a null FileID and an empty Error, the start time of s2 is not
earlier than that of s1, and s2 equals s1 apart from the start time. -/
theorem C10_restart_twice (i : StepServiceImpl σ) (s : Step) (w : World σ)
    (hclock : Monotone i.sys.clock)
    (h1 : (i.RestartStep s w).1.2 = none)
    (h2 : (i.RestartStep (i.RestartStep s w).1.1 (i.RestartStep s w).2).1.2 = none) :
    (i.RestartStep s w).1.1.Status = "IN PROGRESS"
    ∧ (i.RestartStep s w).1.1.FileID.Valid = false
    ∧ (i.RestartStep s w).1.1.Error = ""
    ∧ (i.RestartStep (i.RestartStep s w).1.1 (i.RestartStep s w).2).1.1.Status = "IN PROGRESS"
    ∧ (i.RestartStep (i.RestartStep s w).1.1 (i.RestartStep s w).2).1.1.FileID.Valid = false
    ∧ (i.RestartStep (i.RestartStep s w).1.1 (i.RestartStep s w).2).1.1.Error = ""
    ∧ (i.RestartStep s w).1.1.StarteDate
        ≤ (i.RestartStep (i.RestartStep s w).1.1 (i.RestartStep s w).2).1.1.StarteDate
    ∧ (i.RestartStep (i.RestartStep s w).1.1 (i.RestartStep s w).2).1.1
        = { (i.RestartStep s w).1.1 with
            StarteDate :=
              (i.RestartStep (i.RestartStep s w).1.1 (i.RestartStep s w).2).1.1.StarteDate } := by
  obtain ⟨e1, n1⟩ := RestartStep_ok i s w h1
  obtain ⟨e2, _⟩ := RestartStep_ok i _ _ h2
  rw [e2, e1, n1]
  refine ⟨rfl, rfl, rfl, rfl, rfl, rfl, ?_, rfl⟩
  exact hclock (Nat.le_succ _)

/-- C10 on the run in which every call succeeds and the clock reads 0, 1, 2, ... -/
theorem C10_restart_twice_witness :
    (Script.ok.service.RestartStep (Script.ok.service.RestartStep Step.sample World.init).1.1
        (Script.ok.service.RestartStep Step.sample World.init).2).1.1
      = { Step.sample with StarteDate := 1 } :=
  (C10_restart_twice Script.ok.service Step.sample World.init
    (fun _ _ hab => Int.ofNat_le.mpr hab) (by decide) (by decide)).2.2.2.2.2.2.2.trans
    (by decide)

theorem Tables_fileIDForChecksum_new (φ : Faults) (i : StepServiceImpl Tables)
    (hi : i.billingDB = Tables.db φ) (fm : FileMeta) (tx : Option Tx) (w : World Tables)
    (fid : Int)
    (hnew : w.st.files.find? (fun f => f.Checksum == fm.Checksum) = none)
    (h : (i.fileIDForChecksum fm tx w).1.2 = Except.ok fid) :
    fid = w.st.nextFileID
    ∧ (i.fileIDForChecksum fm tx w).1.1 = File.zero
    ∧ (i.fileIDForChecksum fm tx w).2.st
        = ⟨w.st.files,
           w.st.pending ++ [⟨w.st.nextFileID, fm.Checksum, fm.FileName, fm.FilePath⟩],
           w.st.nextFileID + 1⟩
    ∧ (i.fileIDForChecksum fm tx w).2.log
        = w.log ++ [Event.FileFetchByChecksum fm.Checksum,
            Event.FileCreate fm.Checksum fm.FileName fm.FilePath i.Options.User tx none]
    ∧ (i.fileIDForChecksum fm tx w).2.nowCount = w.nowCount := by
  unfold StepServiceImpl.fileIDForChecksum at h ⊢
  simp only [BillingDB.FileFetchByChecksum, BillingDB.FileCreate, World.emit, hi, Tables.db,
    Tables.FetchByChecksum, hnew, Tables.Create] at h ⊢
  cases hl : φ.lookup w.st with
  | some msg => simp [hl] at h
  | none =>
    simp only [hl] at h ⊢
    cases hc : φ.create w.st with
    | some e => simp [hc] at h
    | none =>
      simp only [hc] at h ⊢
      simp at h
      simp [h]

theorem Tables_fileIDForChecksum_found (φ : Faults) (i : StepServiceImpl Tables)
    (hi : i.billingDB = Tables.db φ) (fm : FileMeta) (tx : Option Tx) (w : World Tables)
    (fid : Int) (f : File)
    (hfound : w.st.files.find? (fun f => f.Checksum == fm.Checksum) = some f)
    (h : (i.fileIDForChecksum fm tx w).1.2 = Except.ok fid) :
    fid = f.ID
    ∧ (i.fileIDForChecksum fm tx w).1.1 = f
    ∧ (i.fileIDForChecksum fm tx w).2.st = w.st
    ∧ (i.fileIDForChecksum fm tx w).2.log = w.log ++ [Event.FileFetchByChecksum fm.Checksum]
    ∧ (i.fileIDForChecksum fm tx w).2.nowCount = w.nowCount := by
  unfold StepServiceImpl.fileIDForChecksum at h ⊢
  simp only [BillingDB.FileFetchByChecksum, BillingDB.FileCreate, World.emit, hi, Tables.db,
    Tables.FetchByChecksum, hfound, Tables.Create] at h ⊢
  cases hl : φ.lookup w.st with
  | some msg => simp [hl] at h
  | none =>
    simp only [hl] at h ⊢
    simp at h
    simp [h]

theorem Tables_finishWithFileID_ok (φ : Faults) (i : StepServiceImpl Tables)
    (hi : i.billingDB = Tables.db φ) (s : Step) (file : File) (fid : Int) (t : Tx)
    (w : World Tables)
    (h : (i.finishWithFileID s file fid (some t) w).1.2.2 = none) :
    (i.finishWithFileID s file fid (some t) w).1.1.FileID = ⟨fid, true⟩
    ∧ (i.finishWithFileID s file fid (some t) w).2.st
        = ⟨w.st.files ++ w.st.pending, [], w.st.nextFileID⟩
    ∧ (i.finishWithFileID s file fid (some t) w).2.log
        = w.log ++ newEvents w (i.finishWithFileID s file fid (some t) w).2
    ∧ (newEvents w (i.finishWithFileID s file fid (some t) w).2).countP Event.isFileCreate = 0 := by
  unfold StepServiceImpl.finishWithFileID at h ⊢
  simp only [timeNow, BillingDB.StepUpdate, BillingDB.HandleTx, BillingDB.FileFetch,
    BillingDB.RollbackTransaction, BillingDB.CommitTransaction, World.emit, hi, Tables.db] at h ⊢
  generalize φ.update _ _ = eu at h ⊢
  cases eu with
  | some eu =>
    simp only [] at h
    generalize φ.rollback _ = x at h
    cases x <;> simp at h
  | none =>
    simp only [] at h ⊢
    generalize φ.commit _ = ec at h ⊢
    cases ec with
    | some ec => simp at h
    | none =>
      simp only [] at h ⊢
      split at h
      · rename_i hlt
        simp only [if_pos hlt] at h ⊢
        generalize φ.lookup _ = el at h ⊢
        cases el with
        | some msg =>
          simp only [] at h
          generalize φ.rollback _ = x at h
          cases x <;> simp at h
        | none =>
          simp only [] at h ⊢
          generalize Tables.Fetch _ _ = rf at h ⊢
          rcases rf with ⟨gf, eg⟩
          cases eg with
          | some eg =>
            simp only [] at h
            generalize φ.rollback _ = x at h
            cases x <;> simp at h
          | none => simp [newEvents, Event.isFileCreate]
      · rename_i hlt
        simp only [if_neg hlt]
        simp [newEvents, Event.isFileCreate]

/-- A successful call on the file table: the transaction was opened on the
committed rows, the lookup stage returned a file id and the finishing stage
succeeded from the state the lookup stage left. -/
theorem Tables_call_ok (φ : Faults) (i : StepServiceImpl Tables)
    (hi : i.billingDB = Tables.db φ) (s : Step) (fm : FileMeta) (w : World Tables)
    (h : (i.UpdateStepToSuccessAndCreateFile s fm w).1.2.2 = none) :
    ∃ fid, (i.fileIDForChecksum fm (some 1)
              ⟨⟨w.st.files, [], w.st.nextFileID⟩,
               w.log ++ [Event.NewTransaction (some 1) none], w.nowCount⟩).1.2 = Except.ok fid
      ∧ i.UpdateStepToSuccessAndCreateFile s fm w
          = i.finishWithFileID s
              (i.fileIDForChecksum fm (some 1)
                ⟨⟨w.st.files, [], w.st.nextFileID⟩,
                 w.log ++ [Event.NewTransaction (some 1) none], w.nowCount⟩).1.1
              fid (some 1)
              (i.fileIDForChecksum fm (some 1)
                ⟨⟨w.st.files, [], w.st.nextFileID⟩,
                 w.log ++ [Event.NewTransaction (some 1) none], w.nowCount⟩).2 := by
  unfold StepServiceImpl.UpdateStepToSuccessAndCreateFile at h ⊢
  rcases hn : i.billingDB.BillingTransactionDB.NewTransaction w.st with ⟨⟨tx, e0⟩, st0⟩
  have hn1 := hn
  rw [hi] at hn1
  simp only [Tables.db, Prod.mk.injEq] at hn1
  obtain ⟨⟨rfl, -⟩, rfl⟩ := hn1
  simp only [BillingDB.NewTransaction, hn, World.emit] at h ⊢
  cases e0 with
  | some e => exact absurd h (HandleTx_error _ _ _ _)
  | none =>
    simp only [] at h ⊢
    generalize i.fileIDForChecksum fm (some 1) _ = rc at h ⊢
    rcases rc with ⟨⟨file, res⟩, WA⟩
    cases res with
    | error e => exact absurd h (HandleTx_error _ _ _ _)
    | ok fid => exact ⟨fid, rfl, rfl⟩

/-- On the file table, a successful call with a checksum that no committed row has
creates exactly one File, commits its row and attaches its id. -/
theorem Tables_create_new (φ : Faults) (i : StepServiceImpl Tables)
    (hi : i.billingDB = Tables.db φ) (s : Step) (fm : FileMeta) (w : World Tables)
    (hnew : w.st.files.find? (fun f => f.Checksum == fm.Checksum) = none)
    (h : (i.UpdateStepToSuccessAndCreateFile s fm w).1.2.2 = none) :
    (i.UpdateStepToSuccessAndCreateFile s fm w).2.st.files
        = w.st.files ++ [⟨w.st.nextFileID, fm.Checksum, fm.FileName, fm.FilePath⟩]
    ∧ (i.UpdateStepToSuccessAndCreateFile s fm w).2.log
        = w.log ++ newEvents w (i.UpdateStepToSuccessAndCreateFile s fm w).2
    ∧ (newEvents w (i.UpdateStepToSuccessAndCreateFile s fm w).2).countP Event.isFileCreate = 1
    ∧ (i.UpdateStepToSuccessAndCreateFile s fm w).1.1.FileID = ⟨w.st.nextFileID, true⟩ := by
  obtain ⟨fid, hA, hrun⟩ := Tables_call_ok φ i hi s fm w h
  rw [hrun] at h ⊢
  generalize hW0 : (⟨⟨w.st.files, [], w.st.nextFileID⟩,
    w.log ++ [Event.NewTransaction (some 1) none], w.nowCount⟩ : World Tables) = W0 at hA h ⊢
  have hW0st : W0.st = ⟨w.st.files, [], w.st.nextFileID⟩ := by rw [← hW0]
  have hW0log : W0.log = w.log ++ [Event.NewTransaction (some 1) none] := by rw [← hW0]
  obtain ⟨hfid, -, hst, hlog, -⟩ :=
    Tables_fileIDForChecksum_new φ i hi fm (some 1) W0 fid (by rw [hW0st]; exact hnew) hA
  obtain ⟨hB1, hB2, hB3, hB4⟩ := Tables_finishWithFileID_ok φ i hi s _ fid 1 _ h
  have hlogw : (i.finishWithFileID s (i.fileIDForChecksum fm (some 1) W0).1.1 fid (some 1)
      (i.fileIDForChecksum fm (some 1) W0).2).2.log
      = w.log ++ ([Event.NewTransaction (some 1) none]
          ++ [Event.FileFetchByChecksum fm.Checksum,
              Event.FileCreate fm.Checksum fm.FileName fm.FilePath i.Options.User (some 1) none]
          ++ newEvents (i.fileIDForChecksum fm (some 1) W0).2
              (i.finishWithFileID s (i.fileIDForChecksum fm (some 1) W0).1.1 fid (some 1)
                (i.fileIDForChecksum fm (some 1) W0).2).2) := by
    rw [hB3, hlog, hW0log]; simp only [List.append_assoc]
  refine ⟨?_, ?_, ?_, ?_⟩
  · rw [hB2, hst, hW0st]; simp
  · rw [newEvents_of_log w _ _ hlogw]; exact hlogw
  · rw [newEvents_of_log w _ _ hlogw]
    simp only [List.countP_append, hB4]
    simp [Event.isFileCreate]
  · rw [hB1, hfid, hW0st]

/-- On the file table, a successful call with a checksum that a committed row has
creates no File, leaves the rows as they are and attaches the id of the first such
row. -/
theorem Tables_reuse (φ : Faults) (i : StepServiceImpl Tables)
    (hi : i.billingDB = Tables.db φ) (s : Step) (fm : FileMeta) (w : World Tables) (f : File)
    (hfound : w.st.files.find? (fun f => f.Checksum == fm.Checksum) = some f)
    (h : (i.UpdateStepToSuccessAndCreateFile s fm w).1.2.2 = none) :
    (i.UpdateStepToSuccessAndCreateFile s fm w).2.st.files = w.st.files
    ∧ (i.UpdateStepToSuccessAndCreateFile s fm w).2.log
        = w.log ++ newEvents w (i.UpdateStepToSuccessAndCreateFile s fm w).2
    ∧ (newEvents w (i.UpdateStepToSuccessAndCreateFile s fm w).2).countP Event.isFileCreate = 0
    ∧ (i.UpdateStepToSuccessAndCreateFile s fm w).1.1.FileID = ⟨f.ID, true⟩ := by
  obtain ⟨fid, hA, hrun⟩ := Tables_call_ok φ i hi s fm w h
  rw [hrun] at h ⊢
  generalize hW0 : (⟨⟨w.st.files, [], w.st.nextFileID⟩,
    w.log ++ [Event.NewTransaction (some 1) none], w.nowCount⟩ : World Tables) = W0 at hA h ⊢
  have hW0st : W0.st = ⟨w.st.files, [], w.st.nextFileID⟩ := by rw [← hW0]
  have hW0log : W0.log = w.log ++ [Event.NewTransaction (some 1) none] := by rw [← hW0]
  obtain ⟨hfid, -, hst, hlog, -⟩ :=
    Tables_fileIDForChecksum_found φ i hi fm (some 1) W0 fid f (by rw [hW0st]; exact hfound) hA
  obtain ⟨hB1, hB2, hB3, hB4⟩ := Tables_finishWithFileID_ok φ i hi s _ fid 1 _ h
  have hlogw : (i.finishWithFileID s (i.fileIDForChecksum fm (some 1) W0).1.1 fid (some 1)
      (i.fileIDForChecksum fm (some 1) W0).2).2.log
      = w.log ++ ([Event.NewTransaction (some 1) none]
          ++ [Event.FileFetchByChecksum fm.Checksum]
          ++ newEvents (i.fileIDForChecksum fm (some 1) W0).2
              (i.finishWithFileID s (i.fileIDForChecksum fm (some 1) W0).1.1 fid (some 1)
                (i.fileIDForChecksum fm (some 1) W0).2).2) := by
    rw [hB3, hlog, hW0log]; simp only [List.append_assoc]
  refine ⟨?_, ?_, ?_, ?_⟩
  · rw [hB2, hst, hW0st]; simp
  · rw [newEvents_of_log w _ _ hlogw]; exact hlogw
  · rw [newEvents_of_log w _ _ hlogw]
    simp only [List.countP_append, hB4]
    simp [Event.isFileCreate]
  · rw [hB1, hfid]

/-- C3: over the file table model (a committed Create is visible to later
FetchByChecksum calls), for a checksum c that no row has beforehand, two successive
successful calls of UpdateStepToSuccessAndCreateFile whose file metadata carry c
call FileRepository.Create exactly once, leave exactly one File row with checksum
c, and return Steps whose FileID is valid and is the same file id in both calls. -/
theorem C3_checksum_dedup (φ : Faults) (i : StepServiceImpl Tables)
    (hi : i.billingDB = Tables.db φ) (s1 s2 : Step) (fm1 fm2 : FileMeta) (w : World Tables)
    (hsame : fm2.Checksum = fm1.Checksum)
    (hnew : ∀ f ∈ w.st.files, f.Checksum ≠ fm1.Checksum)
    (h1 : (i.UpdateStepToSuccessAndCreateFile s1 fm1 w).1.2.2 = none)
    (h2 : (i.UpdateStepToSuccessAndCreateFile s2 fm2
            (i.UpdateStepToSuccessAndCreateFile s1 fm1 w).2).1.2.2 = none) :
    (newEvents w (i.UpdateStepToSuccessAndCreateFile s2 fm2
        (i.UpdateStepToSuccessAndCreateFile s1 fm1 w).2).2).countP Event.isFileCreate = 1
    ∧ (i.UpdateStepToSuccessAndCreateFile s2 fm2
        (i.UpdateStepToSuccessAndCreateFile s1 fm1 w).2).2.st.files.countP
          (fun f => f.Checksum == fm1.Checksum) = 1
    ∧ (i.UpdateStepToSuccessAndCreateFile s1 fm1 w).1.1.FileID.Valid = true
    ∧ (i.UpdateStepToSuccessAndCreateFile s2 fm2
        (i.UpdateStepToSuccessAndCreateFile s1 fm1 w).2).1.1.FileID.Valid = true
    ∧ (i.UpdateStepToSuccessAndCreateFile s2 fm2
        (i.UpdateStepToSuccessAndCreateFile s1 fm1 w).2).1.1.FileID.Int64
        = (i.UpdateStepToSuccessAndCreateFile s1 fm1 w).1.1.FileID.Int64 := by
  have hnone : w.st.files.find? (fun f => f.Checksum == fm1.Checksum) = none := by
    rw [List.find?_eq_none]
    intro f hf
    simpa using hnew f hf
  obtain ⟨hf1, hl1, hc1, hid1⟩ := Tables_create_new φ i hi s1 fm1 w hnone h1
  have hfound : (i.UpdateStepToSuccessAndCreateFile s1 fm1 w).2.st.files.find?
      (fun f => f.Checksum == fm2.Checksum)
      = some ⟨w.st.nextFileID, fm1.Checksum, fm1.FileName, fm1.FilePath⟩ := by
    rw [hf1, hsame, List.find?_append, hnone]
    simp
  obtain ⟨hf2, hl2, hc2, hid2⟩ := Tables_reuse φ i hi s2 fm2 _ _ hfound h2
  have hlog : (i.UpdateStepToSuccessAndCreateFile s2 fm2
      (i.UpdateStepToSuccessAndCreateFile s1 fm1 w).2).2.log
      = w.log ++ (newEvents w (i.UpdateStepToSuccessAndCreateFile s1 fm1 w).2
          ++ newEvents (i.UpdateStepToSuccessAndCreateFile s1 fm1 w).2
              (i.UpdateStepToSuccessAndCreateFile s2 fm2
                (i.UpdateStepToSuccessAndCreateFile s1 fm1 w).2).2) := by
    rw [hl2, hl1, List.append_assoc]
  refine ⟨?_, ?_, ?_, ?_, ?_⟩
  · rw [newEvents_of_log w _ _ hlog, List.countP_append, hc1, hc2]
  · rw [hf2, hf1, List.countP_append]
    have h0 : w.st.files.countP (fun f => f.Checksum == fm1.Checksum) = 0 := by
      rw [List.countP_eq_zero]
      intro f hf
      simpa using hnew f hf
    rw [h0]
    simp
  · rw [hid1]
  · rw [hid2]
  · rw [hid2, hid1]

/-- C3 on an empty file table: two calls with the checksum "c0ffee". -/
theorem C3_checksum_dedup_witness :
    (newEvents (⟨Tables.empty, [], 0⟩ : World Tables)
      (Tables.sampleService.UpdateStepToSuccessAndCreateFile Step.sample FileMeta.sample
        (Tables.sampleService.UpdateStepToSuccessAndCreateFile Step.sample FileMeta.sample
          ⟨Tables.empty, [], 0⟩).2).2).countP Event.isFileCreate = 1
    ∧ (Tables.sampleService.UpdateStepToSuccessAndCreateFile Step.sample FileMeta.sample
        (Tables.sampleService.UpdateStepToSuccessAndCreateFile Step.sample FileMeta.sample
          ⟨Tables.empty, [], 0⟩).2).2.st.files.countP
          (fun f => f.Checksum == FileMeta.sample.Checksum) = 1 :=
  let h := C3_checksum_dedup Faults.none Tables.sampleService rfl Step.sample Step.sample
    FileMeta.sample FileMeta.sample ⟨Tables.empty, [], 0⟩ rfl
    (fun f hf => absurd hf (List.not_mem_nil f)) (by decide) (by decide)
  ⟨h.1, h.2.1⟩

theorem Script.sys_Join (k : Script) : (k.sys : Sys Unit).Join = k.join := rfl
theorem Script.sys_Clean (k : Script) : (k.sys : Sys Unit).Clean = k.clean := rfl

theorem GetChecksumByName_script (k : Script) (name : String) (w : World Unit) :
    (GetChecksumByName (k.sys : Sys Unit) name w).1 = k.checksum name := by
  unfold Script.checksum GetChecksumByName GetChecksum
  simp only [Sys.callOpen, Sys.callHashCopy, Sys.callClose, Script.sys, World.emit]
  cases k.openFile name with
  | error e => simp only []; split <;> rfl
  | file f =>
    simp only []
    cases (k.hash f.name).2 <;> rfl

/-- One turn of the loop over a scripted folder and database, by the verdict on the
file examined. -/
theorem scanFiles_cons (k : Script) (i : StepServiceImpl Unit) (hdb : i.billingDB = k.db)
    (hsys : i.sys = k.sys) (stepType : StepType) (fi : FileInfo)
    (prev : Step) (w : World Unit) :
    match k.verdict i.Options stepType fi with
    | Verdict.skipped => ∃ prev1 w1, ∀ rest1, i.scanFiles stepType (fi :: rest1) prev w
        = i.scanFiles stepType rest1 prev1 w1
    | Verdict.failed e => ∃ prev1 w1, ∀ rest1, i.scanFiles stepType (fi :: rest1) prev w
        = ((none, prev1, some e), w1)
    | Verdict.eligible step => ∃ w1, ∀ rest1, i.scanFiles stepType (fi :: rest1) prev w
        = (match k.openFile (k.fullName i.Options fi) with
           | OpenResult.error e => ((none, step, some e), w1)
           | OpenResult.file f => ((some f, step, none), w1)) := by
  unfold Script.verdict
  simp only [StepServiceImpl.scanFiles, hdb, hsys, Script.sys_Join, Script.sys_Clean]
  have hc := GetChecksumByName_script k (k.fullName i.Options fi) w
  unfold Script.fullName at hc ⊢
  generalize GetChecksumByName (k.sys : Sys Unit) _ w = rc at hc ⊢
  rcases rc with ⟨c, wc⟩
  simp only [] at hc
  subst hc
  simp only [BillingDB.FileFetchByChecksum, BillingDB.FetchByFileIDAndNoNextStep, Script.db,
    World.emit, Sys.callOpen, Script.sys]
  generalize k.checksum _ = cs
  rcases cs with ⟨c, ec⟩
  cases ec with
  | some e => exact ⟨_, _, fun _ => rfl⟩
  | none =>
    simp only []
    generalize k.fileByChecksum c = rf
    rcases rf with ⟨file, ef⟩
    rcases ef with _ | ef
    · simp only []
      generalize k.noNextStep _ _ _ = rn
      rcases rn with ⟨step, en⟩
      rcases en with _ | en
      · simp only []
        generalize k.openFile _ = ro
        cases ro <;> exact ⟨_, fun _ => rfl⟩
      · cases en <;> exact ⟨_, _, fun _ => rfl⟩
    · cases ef <;> exact ⟨_, _, fun _ => rfl⟩

/-- The loop passes over a run of skipped files. -/
theorem scanFiles_skip_prefix (k : Script) (i : StepServiceImpl Unit) (hdb : i.billingDB = k.db)
    (hsys : i.sys = k.sys) (stepType : StepType) (pre : List FileInfo)
    (hpre : ∀ y ∈ pre, k.verdict i.Options stepType y = Verdict.skipped) :
    ∀ prev w, ∃ prev1 w1, ∀ rest, i.scanFiles stepType (pre ++ rest) prev w
      = i.scanFiles stepType rest prev1 w1 := by
  induction pre with
  | nil => intro prev w; exact ⟨prev, w, fun _ => rfl⟩
  | cons a pre ih =>
    intro prev w
    have ha := scanFiles_cons k i hdb hsys stepType a prev w
    rw [hpre a (List.mem_cons_self _ _)] at ha
    obtain ⟨p1, w1, h1⟩ := ha
    obtain ⟨p2, w2, h2⟩ := ih (fun y hy => hpre y (List.mem_cons_of_mem _ hy)) p1 w1
    exact ⟨p2, w2, fun rest => by rw [List.cons_append, h1, h2]⟩

/-- A list satisfies a predicate throughout, or has a first element that does not. -/
theorem all_or_first_not (P : FileInfo → Prop) (l : List FileInfo) :
    (∀ x ∈ l, P x) ∨ ∃ pre x post, l = pre ++ x :: post ∧ (∀ y ∈ pre, P y) ∧ ¬ P x := by
  induction l with
  | nil => exact Or.inl (fun x hx => absurd hx (List.not_mem_nil x))
  | cons a l ih =>
    by_cases ha : P a
    · rcases ih with h | ⟨pre, x, post, hl, hpre, hx⟩
      · refine Or.inl (fun x hx => ?_)
        rcases List.mem_cons.mp hx with rfl | hx
        · exact ha
        · exact h x hx
      · refine Or.inr ⟨a :: pre, x, post, by rw [hl, List.cons_append], fun y hy => ?_, hx⟩
        rcases List.mem_cons.mp hy with rfl | hy
        · exact ha
        · exact hpre y hy
    · exact Or.inr ⟨[], a, l, rfl, fun y hy => absurd hy (List.not_mem_nil y), ha⟩

/-- A failed listing ends the call with the listing's error. -/
theorem FetchUnprocessed_listing_error (k : Script) (i : StepServiceImpl Unit)
    (hsys : i.sys = k.sys) (stepType : StepType) (w : World Unit) (e : Err)
    (h : (k.readDir i.Options.InputFolder).2 = some e) :
    (i.FetchUnprocessedFileByStepType stepType w).1 = (none, Step.zero, some e) := by
  unfold StepServiceImpl.FetchUnprocessedFileByStepType ListFilesInFolder
  simp only [hsys, Sys.callReadDir, Script.sys, h]

/-- After a successful listing the call is the scan of the sorted files. -/
theorem FetchUnprocessed_scan (k : Script) (i : StepServiceImpl Unit)
    (hsys : i.sys = k.sys) (stepType : StepType) (w : World Unit)
    (h : (k.readDir i.Options.InputFolder).2 = none) :
    i.FetchUnprocessedFileByStepType stepType w
      = i.scanFiles stepType (k.sortSlice byModTime (k.files i.Options)) Step.zero
          (ListFilesInFolder i.sys i.Options.InputFolder w).2 := by
  unfold StepServiceImpl.FetchUnprocessedFileByStepType ListFilesInFolder Script.files
  simp only [hsys, Sys.callReadDir, Script.sys, h]

theorem insertBy_perm (a : FileInfo) (l : List FileInfo) :
    (insertBy byModTime a l).Perm (a :: l) := by
  induction l with
  | nil => exact List.Perm.refl _
  | cons b l ih =>
    unfold insertBy
    split
    · exact List.Perm.refl _
    · exact (List.Perm.cons b ih).trans (List.Perm.swap a b l)

theorem insertBy_sorted (a : FileInfo) (l : List FileInfo)
    (h : l.Pairwise (fun a b => a.ModTime ≤ b.ModTime)) :
    (insertBy byModTime a l).Pairwise (fun a b => a.ModTime ≤ b.ModTime) := by
  induction l with
  | nil => simp [insertBy]
  | cons b l ih =>
    obtain ⟨hb, hl⟩ := List.pairwise_cons.mp h
    unfold insertBy
    split
    · rename_i hab
      have hab1 : a.ModTime < b.ModTime := by simpa [byModTime] using hab
      refine List.pairwise_cons.mpr ⟨fun x hx => ?_, h⟩
      rcases List.mem_cons.mp hx with rfl | hx
      · exact le_of_lt hab1
      · exact le_trans (le_of_lt hab1) (hb x hx)
    · rename_i hab
      have hba : b.ModTime ≤ a.ModTime := by simpa [byModTime] using hab
      refine List.pairwise_cons.mpr ⟨fun x hx => ?_, ih hl⟩
      rcases List.mem_cons.mp ((insertBy_perm a l).subset hx) with rfl | hx
      · exact hba
      · exact hb x hx

/-- The insertion sort meets the contract of `sort.Slice`. -/
theorem sortBy_sorts : SortsByModTime sortBy := by
  intro l
  induction l with
  | nil => exact ⟨List.Perm.refl _, List.Pairwise.nil⟩
  | cons a l ih =>
    exact ⟨(insertBy_perm a _).trans (List.Perm.cons a ih.1), insertBy_sorted a _ ih.2⟩

/-- C7: over a folder and a database that do not change during the call, with a
`sort.Slice` that sorts by modification time: if the listing succeeds, the regular
files have pairwise distinct modification times, `fi` is an eligible file (a File
row for its checksum, a step by FetchByFileIDAndNoNextStep) with the earliest
modification time among the eligible files, no file older than `fi` fails and
`fi` opens, then FetchUnprocessedFileByStepType returns `fi` opened, paired with
the step FetchByFileIDAndNoNextStep returned for it, and a nil error. -/
theorem C7_oldest_eligible_file_is_returned (k : Script) (options : Options)
    (stepType : StepType) (w : World Unit)
    (hsort : SortsByModTime k.sortSlice)
    (hlist : (k.readDir options.InputFolder).2 = none)
    (hdistinct : (k.files options).Pairwise (fun a b => a.ModTime ≠ b.ModTime))
    (fi : FileInfo) (hfi : fi ∈ k.files options) (step : Step) (f : ReadCloser)
    (helig : k.verdict options stepType fi = Verdict.eligible step)
    (hopen : k.openFile (k.fullName options fi) = OpenResult.file f)
    (hnoerr : ∀ fj ∈ k.files options, fj.ModTime < fi.ModTime →
      (k.verdict options stepType fj).isFailed = false)
    (hmin : ∀ fj ∈ k.files options, (k.verdict options stepType fj).isEligible = true →
      fi.ModTime ≤ fj.ModTime) :
    ((k.serviceWith options).FetchUnprocessedFileByStepType stepType w).1
      = (some f, step, none) := by
  rw [FetchUnprocessed_scan k (k.serviceWith options) rfl stepType w hlist]
  obtain ⟨hperm, hsorted⟩ := hsort (k.files options)
  obtain ⟨pre, post, hL⟩ := List.append_of_mem (hperm.mem_iff.mpr hfi)
  have hdist : (k.sortSlice byModTime (k.files options)).Pairwise
      (fun a b => a.ModTime ≠ b.ModTime) :=
    (hperm.pairwise_iff (fun {a b} (h : a.ModTime ≠ b.ModTime) => h.symm)).mpr hdistinct
  have hopt : (k.serviceWith options).Options = options := rfl
  rw [hopt, hL]
  rw [hL] at hsorted hdist hperm
  have hpre : ∀ y ∈ pre, k.verdict options stepType y = Verdict.skipped := by
    intro y hy
    have hyf : y ∈ k.files options :=
      hperm.mem_iff.mp (List.mem_append_left _ hy)
    have hle : y.ModTime ≤ fi.ModTime :=
      (List.pairwise_append.mp hsorted).2.2 y hy fi (List.mem_cons_self _ _)
    have hne : y.ModTime ≠ fi.ModTime :=
      (List.pairwise_append.mp hdist).2.2 y hy fi (List.mem_cons_self _ _)
    have hlt : y.ModTime < fi.ModTime := lt_of_le_of_ne hle hne
    have h1 := hnoerr y hyf hlt
    have h2 := hmin y hyf
    cases hv : k.verdict options stepType y with
    | skipped => rfl
    | eligible st =>
      rw [hv] at h2
      exact absurd (h2 rfl) (not_le.mpr hlt)
    | failed e =>
      rw [hv] at h1
      simp [Verdict.isFailed] at h1
  obtain ⟨p1, w1, h1⟩ := scanFiles_skip_prefix k (k.serviceWith options) rfl rfl stepType pre
    hpre Step.zero (ListFilesInFolder (k.serviceWith options).sys options.InputFolder w).2
  have h2 := scanFiles_cons k (k.serviceWith options) rfl rfl stepType fi p1 w1
  rw [hopt, helig] at h2
  obtain ⟨w2, h2⟩ := h2
  rw [h1, h2, hopen]

/-- C7 on a folder with three eligible files of times 30, 10 and 20 (and a
sub-folder): the file of time 10 is returned, with its step. -/
theorem C7_oldest_eligible_file_is_returned_witness :
    ((Script.threeFiles.serviceWith Script.options).FetchUnprocessedFileByStepType
        ⟨4, 1, "IMPORT", 4⟩ World.init).1
      = (some ⟨"in/b.csv", []⟩, ⟨16, 3, 2, 0, 1, ⟨16, true⟩, "FINISHED", ""⟩, none) :=
  C7_oldest_eligible_file_is_returned Script.threeFiles Script.options ⟨4, 1, "IMPORT", 4⟩
    World.init sortBy_sorts (by decide) (by decide) ⟨"b.csv", false, 10⟩ (by decide)
    ⟨16, 3, 2, 0, 1, ⟨16, true⟩, "FINISHED", ""⟩ ⟨"in/b.csv", []⟩ (by decide) (by decide)
    (by decide) (by decide)

/-- C8: over a folder and a database that do not change during the call, whose
collaborators never answer with the sentinel ErrNoFileToTransform, and a
`sort.Slice` that sorts by modification time: FetchUnprocessedFileByStepType
returns ErrNoFileToTransform exactly when the listing succeeds and every listed
file is skipped (this includes the empty folder); an error of the listing is
returned unchanged; and when, in scan order, the files before `fi` are skipped and
`fi` fails with `e` (checksum computation or either lookup), the call returns `e`
unchanged with no file, and is the scan of the files up to `fi` alone: nothing is
done for the later files, eligible or not. -/
theorem C8_no_file_signal_and_errors (k : Script) (options : Options) (stepType : StepType)
    (w : World Unit) (hsort : SortsByModTime k.sortSlice)
    (hsent : k.NoSentinel options stepType) :
    (((k.serviceWith options).FetchUnprocessedFileByStepType stepType w).1.2.2
        = some Err.ErrNoFileToTransform
      ↔ (k.readDir options.InputFolder).2 = none
        ∧ ∀ fi ∈ k.files options, k.verdict options stepType fi = Verdict.skipped)
    ∧ (∀ e, (k.readDir options.InputFolder).2 = some e →
        ((k.serviceWith options).FetchUnprocessedFileByStepType stepType w).1
          = (none, Step.zero, some e))
    ∧ (∀ pre fi post e, (k.readDir options.InputFolder).2 = none →
        k.sortSlice byModTime (k.files options) = pre ++ fi :: post →
        (∀ y ∈ pre, k.verdict options stepType y = Verdict.skipped) →
        k.verdict options stepType fi = Verdict.failed e →
        ((k.serviceWith options).FetchUnprocessedFileByStepType stepType w).1.2.2 = some e
        ∧ ((k.serviceWith options).FetchUnprocessedFileByStepType stepType w).1.1 = none
        ∧ (k.serviceWith options).FetchUnprocessedFileByStepType stepType w
            = (k.serviceWith options).scanFiles stepType (pre ++ [fi]) Step.zero
                (ListFilesInFolder (k.serviceWith options).sys options.InputFolder w).2) := by
  have hopt : (k.serviceWith options).Options = options := rfl
  refine ⟨⟨fun h => ?_, fun h => ?_⟩, fun e he => ?_, fun pre fi post e hlist hL hpre hfi => ?_⟩
  · cases hl : (k.readDir options.InputFolder).2 with
    | some e =>
      rw [FetchUnprocessed_listing_error k (k.serviceWith options) rfl stepType w e hl] at h
      simp only [Option.some.injEq] at h
      exact absurd (h ▸ hl) hsent.1
    | none =>
      refine ⟨rfl, ?_⟩
      rw [FetchUnprocessed_scan k (k.serviceWith options) rfl stepType w hl, hopt] at h
      obtain ⟨hperm, -⟩ := hsort (k.files options)
      rcases all_or_first_not (fun fi => k.verdict options stepType fi = Verdict.skipped)
        (k.sortSlice byModTime (k.files options)) with hall | ⟨pre, x, post, hL, hpre, hx⟩
      · exact fun fi hfi => hall fi (hperm.mem_iff.mpr hfi)
      · exfalso
        have hxf : x ∈ k.files options :=
          hperm.mem_iff.mp (hL ▸ List.mem_append_right _ (List.mem_cons_self _ _))
        obtain ⟨p1, w1, h1⟩ := scanFiles_skip_prefix k (k.serviceWith options) rfl rfl stepType
          pre hpre Step.zero
          (ListFilesInFolder (k.serviceWith options).sys options.InputFolder w).2
        have h2 := scanFiles_cons k (k.serviceWith options) rfl rfl stepType x p1 w1
        rw [hopt] at h2
        rw [hL, h1] at h
        cases hv : k.verdict options stepType x with
        | skipped => exact hx hv
        | failed e =>
          rw [hv] at h2
          obtain ⟨p2, w2, h2⟩ := h2
          rw [h2] at h
          simp only [Option.some.injEq] at h
          exact (hsent.2 x hxf).1 (h ▸ hv)
        | eligible st =>
          rw [hv] at h2
          obtain ⟨w2, h2⟩ := h2
          rw [h2] at h
          cases ho : k.openFile (k.fullName options x) with
          | error e =>
            rw [ho] at h
            simp only [Option.some.injEq] at h
            exact (hsent.2 x hxf).2 (h ▸ ho)
          | file f =>
            rw [ho] at h
            simp at h
  · obtain ⟨hl, hall⟩ := h
    rw [FetchUnprocessed_scan k (k.serviceWith options) rfl stepType w hl, hopt]
    obtain ⟨hperm, -⟩ := hsort (k.files options)
    obtain ⟨p1, w1, h1⟩ := scanFiles_skip_prefix k (k.serviceWith options) rfl rfl stepType
      (k.sortSlice byModTime (k.files options))
      (fun y hy => hall y (hperm.mem_iff.mp hy)) Step.zero
      (ListFilesInFolder (k.serviceWith options).sys options.InputFolder w).2
    have h2 := h1 []
    rw [List.append_nil] at h2
    rw [h2]
    rfl
  · exact FetchUnprocessed_listing_error k (k.serviceWith options) rfl stepType w e he
  · rw [FetchUnprocessed_scan k (k.serviceWith options) rfl stepType w hlist, hopt, hL]
    obtain ⟨p1, w1, h1⟩ := scanFiles_skip_prefix k (k.serviceWith options) rfl rfl stepType
      pre hpre Step.zero
      (ListFilesInFolder (k.serviceWith options).sys options.InputFolder w).2
    have h2 := scanFiles_cons k (k.serviceWith options) rfl rfl stepType fi p1 w1
    rw [hopt, hfi] at h2
    obtain ⟨p2, w2, h2⟩ := h2
    rw [h1, h2, h1, h2]
    exact ⟨rfl, rfl, rfl⟩

/-- C8 on an empty folder, which gives ErrNoFileToTransform, and on a folder whose
oldest file is untracked, whose next file makes the checksum lookup fail and whose
newest file is eligible: the lookup's error is returned. -/
theorem C8_no_file_signal_and_errors_witness :
    ((Script.ok.serviceWith Script.options).FetchUnprocessedFileByStepType
        ⟨4, 1, "IMPORT", 4⟩ World.init).1.2.2 = some Err.ErrNoFileToTransform
    ∧ ((Script.failingFolder.serviceWith Script.options).FetchUnprocessedFileByStepType
        ⟨4, 1, "IMPORT", 4⟩ World.init).1.2.2 = some (Err.other "connection lost") :=
  ⟨(C8_no_file_signal_and_errors Script.ok Script.options ⟨4, 1, "IMPORT", 4⟩ World.init
      sortBy_sorts (by unfold Script.NoSentinel; decide)).1.mpr (by decide),
   ((C8_no_file_signal_and_errors Script.failingFolder Script.options ⟨4, 1, "IMPORT", 4⟩
      World.init sortBy_sorts (by unfold Script.NoSentinel; decide)).2.2 [⟨"b.csv", false, 10⟩] ⟨"c.csv", false, 20⟩
      [⟨"a.csv", false, 30⟩] (Err.other "connection lost") (by decide) (by decide) (by decide)
      (by decide)).1⟩

/-- `GetChecksumByName` touches no Step. -/
theorem GetChecksumByName_noStepWrite (sys : Sys σ) (name : String) (w : World σ) :
    ∃ evs, (GetChecksumByName sys name w).2.log = w.log ++ evs
      ∧ evs.any Event.isStepWrite = false := by
  unfold GetChecksumByName GetChecksum
  simp only [Sys.callOpen, Sys.callHashCopy, Sys.callClose, World.emit]
  generalize sys.Open _ _ = ro
  rcases ro with ⟨o, so⟩
  cases o with
  | error e =>
    simp only []
    split <;> exact ⟨_, rfl, by simp [Event.isStepWrite]⟩
  | file f =>
    simp only []
    generalize sys.HashCopy _ _ = rh
    rcases rh with ⟨⟨d, eh⟩, sh⟩
    cases eh <;> exact ⟨_, by simp only [List.append_assoc]; rfl, by simp [Event.isStepWrite]⟩

/-- The loop of `FetchUnprocessedFileByStepType` touches no Step. -/
theorem scanFiles_noStepWrite (i : StepServiceImpl σ) (stepType : StepType)
    (l : List FileInfo) :
    ∀ prev w, ∃ evs, (i.scanFiles stepType l prev w).2.log = w.log ++ evs
      ∧ evs.any Event.isStepWrite = false := by
  induction l with
  | nil => intro prev w; exact ⟨[], by simp [StepServiceImpl.scanFiles], rfl⟩
  | cons a l ih =>
    intro prev w
    rw [StepServiceImpl.scanFiles]
    simp only []
    obtain ⟨evc, hcl, hcf⟩ := GetChecksumByName_noStepWrite i.sys
      (i.sys.Join i.Options.InputFolder (i.sys.Clean a.Name)) w
    generalize GetChecksumByName i.sys _ w = rc at hcl ⊢
    rcases rc with ⟨⟨c, ec⟩, wc⟩
    simp only [] at hcl
    cases ec with
    | some e => exact ⟨evc, hcl, hcf⟩
    | none =>
      simp only [BillingDB.FileFetchByChecksum, BillingDB.FetchByFileIDAndNoNextStep,
        Sys.callOpen, World.emit]
      generalize i.billingDB.FileRepository.FetchByChecksum _ _ = rf
      rcases rf with ⟨⟨file, ef⟩, sf⟩
      have hskip : ∀ (p : Step) (W : World σ) (evs : List Event), W.log = w.log ++ evs →
          evs.any Event.isStepWrite = false →
          ∃ evs1, (i.scanFiles stepType l p W).2.log = w.log ++ evs1
            ∧ evs1.any Event.isStepWrite = false := by
        intro p W evs hW hevs
        obtain ⟨evs2, h2, h2f⟩ := ih p W
        exact ⟨evs ++ evs2, by rw [h2, hW, List.append_assoc], by simp [hevs, h2f]⟩
      rcases ef with _ | ef
      · simp only []
        generalize i.billingDB.StepRepository.FetchByFileIDAndNoNextStep _ _ _ _ = rn
        rcases rn with ⟨⟨step, en⟩, sn⟩
        rcases en with _ | en
        · simp only []
          generalize i.sys.Open _ _ = ro
          rcases ro with ⟨o, so⟩
          cases o <;>
            exact ⟨evc ++ _, by simp only [hcl, List.append_assoc]; rfl,
              by simp [hcf, Event.isStepWrite]⟩
        · cases en <;> first
            | exact hskip _ _ (evc ++ _) (by simp only [hcl, List.append_assoc]; rfl)
                (by simp [hcf, Event.isStepWrite])
            | exact ⟨evc ++ _, by simp only [hcl, List.append_assoc]; rfl,
                by simp [hcf, Event.isStepWrite]⟩
      · cases ef <;> first
          | exact hskip _ _ (evc ++ _) (by simp only [hcl, List.append_assoc]; rfl)
              (by simp [hcf, Event.isStepWrite])
          | exact ⟨evc ++ _, by simp only [hcl, List.append_assoc]; rfl,
              by simp [hcf, Event.isStepWrite]⟩

/-- `FetchUnprocessedFileByStepType` touches no Step. -/
theorem FetchUnprocessed_noStepWrite (i : StepServiceImpl σ) (stepType : StepType)
    (w : World σ) :
    ∃ evs, (i.FetchUnprocessedFileByStepType stepType w).2.log = w.log ++ evs
      ∧ evs.any Event.isStepWrite = false := by
  unfold StepServiceImpl.FetchUnprocessedFileByStepType ListFilesInFolder
  simp only [Sys.callReadDir, World.emit]
  generalize i.sys.ReadDir _ _ = rd
  rcases rd with ⟨⟨fs, ed⟩, sd⟩
  cases ed with
  | some e => exact ⟨_, rfl, by simp [Event.isStepWrite]⟩
  | none =>
    simp only []
    obtain ⟨evs, h, hf⟩ := scanFiles_noStepWrite i stepType
      (i.sys.SortSlice byModTime (fs.filter fun finfo => !finfo.IsDir)) Step.zero
      ⟨sd, w.log ++ [Event.ReadDir i.Options.InputFolder], w.nowCount⟩
    exact ⟨[Event.ReadDir i.Options.InputFolder] ++ evs, by rw [h, List.append_assoc],
      by simp [hf, Event.isStepWrite]⟩

/-- C4, as stated, fails: on an empty input folder FetchUnprocessedFileByStepType
signals ErrNoFileToTransform and ExecuteImportStep returns that very error, not
nil. -/
theorem C4_no_file_is_returned_as_an_error :
    ¬ ((Script.emptyFolder.service.FetchUnprocessedFileByStepType ⟨4, 1, "IMPORT", 4⟩
          World.init).1.2.2 = some Err.ErrNoFileToTransform →
        (Script.emptyFolder.service.importer.ExecuteImportStep VendorMapper.sample
          World.init).1.1 = Outcome.returned none) := by
  decide

/-- C4 (amended): whenever the step type is resolved and
FetchUnprocessedFileByStepType signals ErrNoFileToTransform, ExecuteImportStep
returns ErrNoFileToTransform itself with a nil trace error (the caller tells it
apart from failures), makes no call after the scan, and no Step is created,
restarted or updated. -/
theorem C4_no_file_ends_the_run (i : StepServiceImpl σ) (vendorMapper : VendorMapper)
    (w : World σ)
    (hg : (i.importer.getStepType w).1.2 = none)
    (hf : (i.importer.stepService.callFetchUnprocessedFileByStepType
            (i.importer.getStepType w).1.1 (i.importer.getStepType w).2).1.2.2
          = some Err.ErrNoFileToTransform) :
    (i.importer.ExecuteImportStep vendorMapper w).1
        = (Outcome.returned (some Err.ErrNoFileToTransform), none)
    ∧ (i.importer.ExecuteImportStep vendorMapper w).2
        = (i.importer.stepService.callFetchUnprocessedFileByStepType
            (i.importer.getStepType w).1.1 (i.importer.getStepType w).2).2
    ∧ (newEvents w (i.importer.ExecuteImportStep vendorMapper w).2).any Event.isStepWrite
        = false := by
  have hrun : i.importer.ExecuteImportStep vendorMapper w
      = ((Outcome.returned (some Err.ErrNoFileToTransform), none),
         (i.importer.stepService.callFetchUnprocessedFileByStepType
            (i.importer.getStepType w).1.1 (i.importer.getStepType w).2).2) := by
    unfold ImporterStepService.ExecuteImportStep
    simp only [hg, hf]
    simp
  refine ⟨by rw [hrun], by rw [hrun], ?_⟩
  rw [hrun]
  simp only []
  obtain ⟨evs, hl, hfalse⟩ := FetchUnprocessed_noStepWrite i (i.importer.getStepType w).1.1
    ((i.importer.getStepType w).2.emit (i.importer.getStepType w).2.st
      (Event.FetchUnprocessedFileByStepType (i.importer.getStepType w).1.1))
  have hgl : (i.importer.getStepType w).2.log
      = w.log ++ [Event.StepTypeFetch i.Options.StepTypeID] := by
    unfold ImporterStepService.getStepType
    simp only [BillingDB.StepTypeFetch, World.emit, StepServiceImpl.importer]
    split
    · rfl
    · split <;> rfl
  rw [newEvents_of_log w _ ([Event.StepTypeFetch i.Options.StepTypeID]
      ++ [Event.FetchUnprocessedFileByStepType (i.importer.getStepType w).1.1] ++ evs)]
  · simp [hfalse, Event.isStepWrite]
  · show (i.FetchUnprocessedFileByStepType _ _).2.log = _
    rw [hl]
    simp only [World.emit, hgl, List.append_assoc]

/-- C4 (amended) on an empty input folder. -/
theorem C4_no_file_ends_the_run_witness :
    (Script.emptyFolder.service.importer.ExecuteImportStep VendorMapper.sample World.init).1
        = (Outcome.returned (some Err.ErrNoFileToTransform), none)
    ∧ (newEvents World.init (Script.emptyFolder.service.importer.ExecuteImportStep
        VendorMapper.sample World.init).2).any Event.isStepWrite = false :=
  let h := C4_no_file_ends_the_run Script.emptyFolder.service VendorMapper.sample World.init
    (by decide) (by decide)
  ⟨h.1, h.2.2⟩

/-- C5: whenever the StepType fetched for Options.StepTypeID has a SourceID
different from Options.SourceID, ExecuteImportStep returns ErrInvalidStepTypeID,
and the step type fetch is the only call it has made: the input folder is not
scanned and no Step or CollectionJob is created, restarted or updated. -/
theorem C5_step_type_of_another_source (i : ImporterStepService σ) (vendorMapper : VendorMapper)
    (w : World σ) (stepType : StepType)
    (hfetch : (i.billingDB.StepTypeRepository.Fetch i.Options.StepTypeID w.st).1
      = (stepType, none))
    (hsrc : stepType.SourceID ≠ i.Options.SourceID) :
    (i.ExecuteImportStep vendorMapper w).1.1 = Outcome.returned (some Err.ErrInvalidStepTypeID)
    ∧ newEvents w (i.ExecuteImportStep vendorMapper w).2
        = [Event.StepTypeFetch i.Options.StepTypeID] := by
  have hg : i.getStepType w
      = ((stepType, some Err.ErrInvalidStepTypeID),
         w.emit (i.billingDB.StepTypeRepository.Fetch i.Options.StepTypeID w.st).2
           (Event.StepTypeFetch i.Options.StepTypeID)) := by
    unfold ImporterStepService.getStepType
    simp only [BillingDB.StepTypeFetch, hfetch, if_pos hsrc]
  unfold ImporterStepService.ExecuteImportStep
  simp [hg, newEvents, World.emit]

/-- C5 on a folder with eligible files and a step type of source 2 while the
configured source is 1. -/
theorem C5_step_type_of_another_source_witness :
    (Script.otherSource.service.importer.ExecuteImportStep VendorMapper.sample World.init).1.1
        = Outcome.returned (some Err.ErrInvalidStepTypeID)
    ∧ newEvents World.init
        (Script.otherSource.service.importer.ExecuteImportStep VendorMapper.sample World.init).2
        = [Event.StepTypeFetch 4] :=
  C5_step_type_of_another_source Script.otherSource.service.importer VendorMapper.sample
    World.init ⟨4, 2, "IMPORT", 4⟩ rfl (by decide)

/-- The loop of `executeImport` on records that are read and mapped without error,
with every `BulkInsert` succeeding: it returns nil, and its calls are `BulkInsert`
calls whose row lists are the rows held in `bulk` followed by the mapped rows, cut
every ten rows. -/
theorem importLoop_batches (i : ImporterStepService σ) (vm : VendorMapper) (keys : List String)
    (hbulk : ∀ entities st,
      (i.billingDB.BillingTransactionDB.BulkInsert vm.SqlBase vm.SqlValues entities st).1 = none)
    (records : List (List String)) :
    ∀ (bulk : List (List Value)) (w : World σ), bulk.length < 10 →
      (∀ r ∈ records, (buildUsage i.Options.User vm keys r).isSome = true) →
      (i.importLoop vm keys (records.map ReadResult.record) bulk w).1 = Outcome.returned none
      ∧ ∃ calls : List (List (List Value)),
          (i.importLoop vm keys (records.map ReadResult.record) bulk w).2.log
            = w.log ++ calls.map (fun c => Event.BulkInsert vm.SqlBase vm.SqlValues c none)
          ∧ calls.length = (bulk.length + records.length + 9) / 10
          ∧ calls.flatten = bulk ++ records.filterMap (buildUsage i.Options.User vm keys)
          ∧ (∀ c ∈ calls.dropLast, c.length = 10)
          ∧ (∀ c ∈ calls, c ≠ [] ∧ c.length ≤ 10) := by
  induction records with
  | nil =>
    intro bulk w hlt _
    simp only [List.map_nil, ImporterStepService.importLoop]
    by_cases hb : bulk.length > 0
    · simp only [if_pos hb, BillingDB.BulkInsert, hbulk, World.emit]
      refine ⟨trivial, [bulk], by simp, ?_, by simp, by simp, ?_⟩
      · simp only [List.length_singleton, List.length_nil]; omega
      · intro c hc
        rw [List.mem_singleton] at hc
        subst hc
        exact ⟨fun h => by simp [h] at hb, by omega⟩
    · simp only [if_neg hb]
      have hb0 : bulk = [] := List.length_eq_zero.mp (by omega)
      subst hb0
      exact ⟨trivial, [], by simp, by simp, by simp, by simp, by simp⟩
  | cons r rs ih =>
    intro bulk w hlt hmap
    obtain ⟨row, hrow⟩ := Option.isSome_iff_exists.mp (hmap r (List.mem_cons_self _ _))
    have hmap1 : ∀ r1 ∈ rs, (buildUsage i.Options.User vm keys r1).isSome = true :=
      fun r1 h1 => hmap r1 (List.mem_cons_of_mem _ h1)
    simp only [List.map_cons, ImporterStepService.importLoop, hrow,
      List.filterMap_cons_some hrow]
    by_cases hfull : (bulk ++ [row]).length = 10
    · simp only [if_pos hfull, BillingDB.BulkInsert, hbulk, World.emit]
      obtain ⟨hret, calls, hlog, hlen, hjoin, hlast, hall⟩ :=
        ih [] ⟨(i.billingDB.BillingTransactionDB.BulkInsert vm.SqlBase vm.SqlValues
          (bulk ++ [row]) w.st).2,
          w.log ++ [Event.BulkInsert vm.SqlBase vm.SqlValues (bulk ++ [row]) none],
          w.nowCount⟩ (by simp) hmap1
      refine ⟨hret, (bulk ++ [row]) :: calls, ?_, ?_, ?_, ?_, ?_⟩
      · rw [hlog]; simp
      · simp only [List.length_append, List.length_singleton, List.length_cons,
          List.length_nil] at hfull hlen ⊢
        omega
      · simp [hjoin]
      · intro c hc
        cases calls with
        | nil => simp at hc
        | cons c1 cs =>
          rw [List.dropLast_cons₂] at hc
          rcases List.mem_cons.mp hc with rfl | hc
          · exact hfull
          · exact hlast c hc
      · intro c hc
        rcases List.mem_cons.mp hc with rfl | hc
        · exact ⟨by simp, by omega⟩
        · exact hall c hc
    · simp only [if_neg hfull]
      have hlt1 : (bulk ++ [row]).length < 10 := by
        simp only [List.length_append, List.length_singleton] at hfull ⊢
        omega
      obtain ⟨hret, calls, hlog, hlen, hjoin, hlast, hall⟩ :=
        ih (bulk ++ [row]) w hlt1 hmap1
      refine ⟨hret, calls, hlog, ?_, ?_, hlast, hall⟩
      · simp only [List.length_append, List.length_singleton, List.length_cons,
          List.length_nil] at hlen ⊢
        omega
      · simp [hjoin]

/-- C6, as stated, fails: one record `["x"]` is read without error and `BulkInsert`
always succeeds, but the sample mapping reads field 1 of the record, so building the row
indexes out of range: `executeImport` panics and has called `BulkInsert` zero times, not
ceil(1/10) = 1 time. -/
theorem C6_short_record_panics :
    (Script.ok.service.importer.executeImport
        (some ⟨"in/b.csv", [ReadResult.record ["x"]]⟩) VendorMapper.sample World.init).1
      = Outcome.panicked
    ∧ newEvents World.init (Script.ok.service.importer.executeImport
        (some ⟨"in/b.csv", [ReadResult.record ["x"]]⟩) VendorMapper.sample World.init).2
      = [] := by
  decide

/-- C6 (amended): for every input of n records read without error and mapped without an
out-of-range index, with every BulkInsert succeeding, executeImport returns nil and
its calls are exactly ceil(n/10) BulkInsert calls (with the vendor's SQL) whose row
lists, in call order, concatenate to the mapped rows in input order; every list
but the last has exactly 10 rows and none is empty. -/
theorem C6_bulk_insert_batches (i : ImporterStepService σ) (vm : VendorMapper)
    (data : ReadCloser) (records : List (List String)) (w : World σ)
    (hread : data.stream = records.map ReadResult.record)
    (hmap : ∀ r ∈ records, (buildUsage i.Options.User vm vm.keys r).isSome = true)
    (hbulk : ∀ entities st,
      (i.billingDB.BillingTransactionDB.BulkInsert vm.SqlBase vm.SqlValues entities st).1
        = none) :
    (i.executeImport (some data) vm w).1 = Outcome.returned none
    ∧ ∃ calls : List (List (List Value)),
        newEvents w (i.executeImport (some data) vm w).2
          = calls.map (fun c => Event.BulkInsert vm.SqlBase vm.SqlValues c none)
        ∧ calls.length = (records.length + 9) / 10
        ∧ calls.flatten = records.filterMap (buildUsage i.Options.User vm vm.keys)
        ∧ (∀ c ∈ calls.dropLast, c.length = 10)
        ∧ (∀ c ∈ calls, c ≠ [] ∧ c.length ≤ 10) := by
  obtain ⟨hret, calls, hlog, hlen, hjoin, hlast, hall⟩ :=
    importLoop_batches i vm vm.keys hbulk records [] w (by simp) hmap
  unfold ImporterStepService.executeImport
  simp only [hread]
  refine ⟨hret, calls, newEvents_of_log w _ _ hlog, ?_, ?_, hlast, hall⟩
  · simpa using hlen
  · simpa using hjoin

/-- C6 on 25 records: three calls, of 10, 10 and 5 rows. -/
theorem C6_bulk_insert_batches_witness :
    (Script.ok.service.importer.executeImport (some ReadCloser.sample) VendorMapper.sample
        World.init).1 = Outcome.returned none
    ∧ (newEvents World.init (Script.ok.service.importer.executeImport (some ReadCloser.sample)
        VendorMapper.sample World.init).2).map Event.bulkSize = [10, 10, 5] :=
  ⟨(C6_bulk_insert_batches Script.ok.service.importer VendorMapper.sample ReadCloser.sample
      sampleRecords World.init rfl (by decide) (fun _ _ => rfl)).1,
   by decide⟩

/-- C20: for a non-nil transaction, HandleTx performs exactly one transaction
action, CommitTransaction when err is nil and RollbackTransaction otherwise, and
returns that action's error when the action failed and err otherwise, so that it
returns nil only when err is nil and the commit succeeded; for a nil transaction
it performs no action and returns err. -/
theorem C20_HandleTx_performs_one_action (db : BillingDB σ) (w : World σ) :
    (∀ t : Tx,
      newEvents w (db.HandleTx (some t) none w).2
          = [Event.CommitTransaction t (db.BillingTx.CommitTransaction t w.st).1]
      ∧ (db.HandleTx (some t) none w).1 = (db.BillingTx.CommitTransaction t w.st).1)
    ∧ (∀ (t : Tx) (e : Err),
      newEvents w (db.HandleTx (some t) (some e) w).2
          = [Event.RollbackTransaction t (db.BillingTx.RollbackTransaction t w.st).1]
      ∧ (db.HandleTx (some t) (some e) w).1
          = some (((db.BillingTx.RollbackTransaction t w.st).1).getD e))
    ∧ (∀ (t : Tx) (err : Option Err),
      ((db.HandleTx (some t) err w).1 = none
        ↔ err = none ∧ (db.BillingTx.CommitTransaction t w.st).1 = none))
    ∧ (∀ err : Option Err, db.HandleTx none err w = (err, w)) := by
  refine ⟨fun t => ?_, fun t e => ?_, fun t err => ?_, fun err => rfl⟩
  · simp only [BillingDB.HandleTx, BillingDB.CommitTransaction, World.emit]
    generalize db.BillingTx.CommitTransaction t w.st = rc
    rcases rc with ⟨x, st⟩
    cases x <;> simp [newEvents]
  · simp only [BillingDB.HandleTx, BillingDB.RollbackTransaction, World.emit]
    generalize db.BillingTx.RollbackTransaction t w.st = rr
    rcases rr with ⟨x, st⟩
    cases x <;> simp [newEvents]
  · simp only [BillingDB.HandleTx, BillingDB.CommitTransaction, BillingDB.RollbackTransaction,
      World.emit]
    generalize db.BillingTx.CommitTransaction t w.st = rc
    generalize db.BillingTx.RollbackTransaction t w.st = rr
    rcases rc with ⟨x, st⟩
    rcases rr with ⟨y, st1⟩
    cases err <;> cases x <;> cases y <;> simp

/-- `RestartStep` records nothing but the calls of its transaction and
`StepRepository.Update`. -/
theorem RestartStep_footprint (i : StepServiceImpl σ) (s : Step) (w : World σ) :
    (i.RestartStep s w).2.log = w.log ++ newEvents w (i.RestartStep s w).2
    ∧ (newEvents w (i.RestartStep s w).2).all Event.isStepTx = true := by
  unfold StepServiceImpl.RestartStep
  rcases hn : i.billingDB.BillingTransactionDB.NewTransaction w.st with ⟨⟨tx, e0⟩, st0⟩
  simp only [BillingDB.NewTransaction, hn, BillingDB.StepUpdate, timeNow, World.emit]
  generalize hu : i.billingDB.StepRepository.Update _ _ _ _ = ru
  rcases ru with ⟨e1, st1⟩
  cases tx with
  | none => cases e0 <;> cases e1 <;> simp [BillingDB.HandleTx, newEvents, Event.isStepTx]
  | some t =>
    simp only [BillingDB.HandleTx, BillingDB.RollbackTransaction, BillingDB.CommitTransaction,
      World.emit]
    generalize i.billingDB.BillingTx.RollbackTransaction t st0 = rr0
    generalize i.billingDB.BillingTx.RollbackTransaction t st1 = rr
    generalize i.billingDB.BillingTx.CommitTransaction t st1 = rc
    rcases rr0 with ⟨x0, st2⟩
    rcases rr with ⟨x1, st3⟩
    rcases rc with ⟨x2, st4⟩
    cases e0 <;> cases e1 <;> cases x0 <;> cases x1 <;> cases x2 <;>
      simp [newEvents, Event.isStepTx]

/-- `UpdateStepToSuccessWithFileID` records nothing but the calls of its transaction
and `StepRepository.Update`. -/
theorem UpdateStepToSuccessWithFileID_footprint (i : StepServiceImpl σ) (s : Step)
    (fileID : Int) (w : World σ) :
    (i.UpdateStepToSuccessWithFileID s fileID w).2.log
        = w.log ++ newEvents w (i.UpdateStepToSuccessWithFileID s fileID w).2
    ∧ (newEvents w (i.UpdateStepToSuccessWithFileID s fileID w).2).all Event.isStepTx
        = true := by
  unfold StepServiceImpl.UpdateStepToSuccessWithFileID
  rcases hn : i.billingDB.BillingTransactionDB.NewTransaction w.st with ⟨⟨tx, e0⟩, st0⟩
  simp only [BillingDB.NewTransaction, hn, BillingDB.StepUpdate, timeNow, World.emit]
  generalize hu : i.billingDB.StepRepository.Update _ _ _ _ = ru
  rcases ru with ⟨e1, st1⟩
  cases tx with
  | none => cases e0 <;> cases e1 <;> simp [BillingDB.HandleTx, newEvents, Event.isStepTx]
  | some t =>
    simp only [BillingDB.HandleTx, BillingDB.RollbackTransaction, BillingDB.CommitTransaction,
      World.emit]
    generalize i.billingDB.BillingTx.RollbackTransaction t st0 = rr0
    generalize i.billingDB.BillingTx.RollbackTransaction t st1 = rr
    generalize i.billingDB.BillingTx.CommitTransaction t st1 = rc
    rcases rr0 with ⟨x0, st2⟩
    rcases rr with ⟨x1, st3⟩
    rcases rc with ⟨x2, st4⟩
    cases e0 <;> cases e1 <;> cases x0 <;> cases x1 <;> cases x2 <;>
      simp [newEvents, Event.isStepTx]

/-- `UpdateStepToError` records nothing but the calls of its transaction and
`StepRepository.Update`. -/
theorem UpdateStepToError_footprint (i : StepServiceImpl σ) (s : Step) (err : Option Err)
    (w : World σ) :
    (i.UpdateStepToError s err w).2.log = w.log ++ newEvents w (i.UpdateStepToError s err w).2
    ∧ (newEvents w (i.UpdateStepToError s err w).2).all Event.isStepTx = true := by
  cases err with
  | none => simp [StepServiceImpl.UpdateStepToError, newEvents_self]
  | some e =>
    unfold StepServiceImpl.UpdateStepToError
    rcases hn : i.billingDB.BillingTransactionDB.NewTransaction w.st with ⟨⟨tx, e0⟩, st0⟩
    simp only [BillingDB.NewTransaction, hn, BillingDB.StepUpdate, timeNow, World.emit]
    generalize hu : i.billingDB.StepRepository.Update _ _ _ _ = ru
    rcases ru with ⟨e1, st1⟩
    cases tx with
    | none => cases e0 <;> cases e1 <;> simp [BillingDB.HandleTx, newEvents, Event.isStepTx]
    | some t =>
      simp only [BillingDB.HandleTx, BillingDB.RollbackTransaction, BillingDB.CommitTransaction,
        World.emit]
      generalize i.billingDB.BillingTx.RollbackTransaction t st0 = rr0
      generalize i.billingDB.BillingTx.RollbackTransaction t st1 = rr
      generalize i.billingDB.BillingTx.CommitTransaction t st1 = rc
      rcases rr0 with ⟨x0, st2⟩
      rcases rr with ⟨x1, st3⟩
      rcases rc with ⟨x2, st4⟩
      cases e0 <;> cases e1 <;> cases x0 <;> cases x1 <;> cases x2 <;>
        simp [newEvents, Event.isStepTx]

/-- C11: for every Step s and non-nil error e, when persistence succeeds (the
transaction is opened, StepRepository.Update and the commit succeed)
UpdateStepToError(s, e) returns a nil error and s with Status "ERROR", Error the
message of e and EndDate the current time, every other field being that of s; its
calls are the opening of the transaction, one StepRepository.Update with the
returned Step, and the commit. -/
theorem C11_UpdateStepToError_success (i : StepServiceImpl σ) (s : Step) (e : Err)
    (w : World σ) (t : Tx)
    (hnew : (i.billingDB.BillingTransactionDB.NewTransaction w.st).1 = (some t, none))
    (hupd : ∀ step tx st, (i.billingDB.StepRepository.Update step i.Options.User tx st).1 = none)
    (hcommit : ∀ st, (i.billingDB.BillingTx.CommitTransaction t st).1 = none) :
    (i.UpdateStepToError s (some e) w).1
        = ({ s with Status := "ERROR", Error := e.Error, EndDate := i.sys.clock w.nowCount },
           none)
    ∧ newEvents w (i.UpdateStepToError s (some e) w).2
        = [Event.NewTransaction (some t) none,
           Event.StepUpdate
             { s with Status := "ERROR", Error := e.Error, EndDate := i.sys.clock w.nowCount }
             i.Options.User (some t) none,
           Event.CommitTransaction t none] := by
  unfold StepServiceImpl.UpdateStepToError
  simp only [BillingDB.NewTransaction, hnew, BillingDB.StepUpdate, timeNow, World.emit, hupd,
    BillingDB.HandleTx, BillingDB.CommitTransaction, hcommit, StepStatusError]
  simp [newEvents]

/-- C12: for every Step s and file id f, when persistence succeeds
UpdateStepToSuccessWithFileID(s, f) returns a nil error and s with FileID = (f,
valid), Status "FINISHED", empty Error and EndDate the current time, every other
field being that of s; and on every run, successful or not, it records no call of
FileRepository (no lookup, no Create). -/
theorem C12_UpdateStepToSuccessWithFileID_success (i : StepServiceImpl σ) (s : Step)
    (f : Int) (w : World σ) (t : Tx)
    (hnew : (i.billingDB.BillingTransactionDB.NewTransaction w.st).1 = (some t, none))
    (hupd : ∀ step tx st, (i.billingDB.StepRepository.Update step i.Options.User tx st).1 = none)
    (hcommit : ∀ st, (i.billingDB.BillingTx.CommitTransaction t st).1 = none) :
    (i.UpdateStepToSuccessWithFileID s f w).1
        = ({ s with FileID := ⟨f, true⟩, Status := "FINISHED", Error := "",
                    EndDate := i.sys.clock w.nowCount }, none)
    ∧ newEvents w (i.UpdateStepToSuccessWithFileID s f w).2
        = [Event.NewTransaction (some t) none,
           Event.StepUpdate
             { s with FileID := ⟨f, true⟩, Status := "FINISHED", Error := "",
                      EndDate := i.sys.clock w.nowCount }
             i.Options.User (some t) none,
           Event.CommitTransaction t none]
    ∧ ∀ (s1 : Step) (f1 : Int) (w1 : World σ),
        (newEvents w1 (i.UpdateStepToSuccessWithFileID s1 f1 w1).2).any Event.isFileRepository
          = false := by
  refine ⟨?_, ?_, fun s1 f1 w1 => ?_⟩
  · unfold StepServiceImpl.UpdateStepToSuccessWithFileID
    simp only [BillingDB.NewTransaction, hnew, BillingDB.StepUpdate, timeNow, World.emit, hupd,
      BillingDB.HandleTx, BillingDB.CommitTransaction, hcommit, StepStatusFinished]
  · unfold StepServiceImpl.UpdateStepToSuccessWithFileID
    simp only [BillingDB.NewTransaction, hnew, BillingDB.StepUpdate, timeNow, World.emit, hupd,
      BillingDB.HandleTx, BillingDB.CommitTransaction, hcommit, StepStatusFinished]
    simp [newEvents]
  · have h := (UpdateStepToSuccessWithFileID_footprint i s1 f1 w1).2
    rw [List.all_eq_true] at h
    rw [List.any_eq_false]
    intro x hx hf
    have := h x hx
    cases x <;> simp [Event.isStepTx, Event.isFileRepository] at this hf
/-- `RestartStep` returns the input Step or a Step in progress, and writes Steps in
progress only. -/
theorem RestartStep_shape (i : StepServiceImpl σ) (s : Step) (w : World σ) :
    ((i.RestartStep s w).1.1 = s ∨ (i.RestartStep s w).1.1.Status = StepStatusInProgress)
    ∧ ∀ st user tx err, Event.StepUpdate st user tx err ∈ newEvents w (i.RestartStep s w).2 →
        st.Status = StepStatusInProgress := by
  unfold StepServiceImpl.RestartStep
  rcases hn : i.billingDB.BillingTransactionDB.NewTransaction w.st with ⟨⟨tx, e0⟩, st0⟩
  simp only [BillingDB.NewTransaction, hn, BillingDB.StepUpdate, timeNow, World.emit]
  generalize hu : i.billingDB.StepRepository.Update _ _ _ _ = ru
  rcases ru with ⟨e1, st1⟩
  cases tx with
  | none =>
    cases e0 <;> cases e1 <;> simp [BillingDB.HandleTx, newEvents] <;> intros <;> simp_all
  | some t =>
    simp only [BillingDB.HandleTx, BillingDB.RollbackTransaction, BillingDB.CommitTransaction,
      World.emit]
    generalize i.billingDB.BillingTx.RollbackTransaction t st0 = rr0
    generalize i.billingDB.BillingTx.RollbackTransaction t st1 = rr
    generalize i.billingDB.BillingTx.CommitTransaction t st1 = rc
    rcases rr0 with ⟨x0, st2⟩
    rcases rr with ⟨x1, st3⟩
    rcases rc with ⟨x2, st4⟩
    cases e0 <;> cases e1 <;> cases x0 <;> cases x1 <;> cases x2 <;>
      simp [newEvents] <;> intros <;> simp_all

/-- `UpdateStepToError` returns the input Step or a Step in error, and writes Steps in
error only. -/
theorem UpdateStepToError_shape (i : StepServiceImpl σ) (s : Step) (err : Option Err)
    (w : World σ) :
    ((i.UpdateStepToError s err w).1.1 = s
      ∨ (i.UpdateStepToError s err w).1.1.Status = StepStatusError)
    ∧ ∀ st user tx e, Event.StepUpdate st user tx e
        ∈ newEvents w (i.UpdateStepToError s err w).2 → st.Status = StepStatusError := by
  cases err with
  | none => simp [StepServiceImpl.UpdateStepToError, newEvents_self]
  | some e =>
    unfold StepServiceImpl.UpdateStepToError
    rcases hn : i.billingDB.BillingTransactionDB.NewTransaction w.st with ⟨⟨tx, e0⟩, st0⟩
    simp only [BillingDB.NewTransaction, hn, BillingDB.StepUpdate, timeNow, World.emit]
    generalize hu : i.billingDB.StepRepository.Update _ _ _ _ = ru
    rcases ru with ⟨e1, st1⟩
    cases tx with
    | none =>
      cases e0 <;> cases e1 <;> simp [BillingDB.HandleTx, newEvents] <;> intros <;> simp_all
    | some t =>
      simp only [BillingDB.HandleTx, BillingDB.RollbackTransaction, BillingDB.CommitTransaction,
        World.emit]
      generalize i.billingDB.BillingTx.RollbackTransaction t st0 = rr0
      generalize i.billingDB.BillingTx.RollbackTransaction t st1 = rr
      generalize i.billingDB.BillingTx.CommitTransaction t st1 = rc
      rcases rr0 with ⟨x0, st2⟩
      rcases rr with ⟨x1, st3⟩
      rcases rc with ⟨x2, st4⟩
      cases e0 <;> cases e1 <;> cases x0 <;> cases x1 <;> cases x2 <;>
        simp [newEvents] <;> intros <;> simp_all

/-- `UpdateStepToSuccessWithFileID` returns the input Step or a Step with a file, and
writes Steps with a file only. -/
theorem UpdateStepToSuccessWithFileID_shape (i : StepServiceImpl σ) (s : Step) (fileID : Int)
    (w : World σ) :
    ((i.UpdateStepToSuccessWithFileID s fileID w).1.1 = s
      ∨ (i.UpdateStepToSuccessWithFileID s fileID w).1.1.FileID.Valid = true)
    ∧ ∀ st user tx e, Event.StepUpdate st user tx e
        ∈ newEvents w (i.UpdateStepToSuccessWithFileID s fileID w).2 →
        st.FileID.Valid = true := by
  unfold StepServiceImpl.UpdateStepToSuccessWithFileID
  rcases hn : i.billingDB.BillingTransactionDB.NewTransaction w.st with ⟨⟨tx, e0⟩, st0⟩
  simp only [BillingDB.NewTransaction, hn, BillingDB.StepUpdate, timeNow, World.emit]
  generalize hu : i.billingDB.StepRepository.Update _ _ _ _ = ru
  rcases ru with ⟨e1, st1⟩
  cases tx with
  | none =>
    cases e0 <;> cases e1 <;> simp [BillingDB.HandleTx, newEvents] <;> intros <;> simp_all
  | some t =>
    simp only [BillingDB.HandleTx, BillingDB.RollbackTransaction, BillingDB.CommitTransaction,
      World.emit]
    generalize i.billingDB.BillingTx.RollbackTransaction t st0 = rr0
    generalize i.billingDB.BillingTx.RollbackTransaction t st1 = rr
    generalize i.billingDB.BillingTx.CommitTransaction t st1 = rc
    rcases rr0 with ⟨x0, st2⟩
    rcases rr with ⟨x1, st3⟩
    rcases rc with ⟨x2, st4⟩
    cases e0 <;> cases e1 <;> cases x0 <;> cases x1 <;> cases x2 <;>
      simp [newEvents] <;> intros <;> simp_all
/-- `HandleTx` makes no `StepRepository.Update` call. -/
theorem HandleTx_noStepUpdate (db : BillingDB σ) (tx : Option Tx) (err : Option Err)
    (w : World σ) :
    ∃ evs, (db.HandleTx tx err w).2.log = w.log ++ evs
      ∧ evs.any Event.isStepUpdate = false := by
  rcases (HandleTx_log db tx err w).2 with h | ⟨t, x, h⟩ | ⟨t, x, h⟩
  · exact ⟨[], by simpa using h, rfl⟩
  · exact ⟨_, h, by simp [Event.isStepUpdate]⟩
  · exact ⟨_, h, by simp [Event.isStepUpdate]⟩

/-- The lookup stage makes no `StepRepository.Update` call. -/
theorem fileIDForChecksum_noStepUpdate (i : StepServiceImpl σ) (fm : FileMeta)
    (tx : Option Tx) (w : World σ) :
    ∃ evs, (i.fileIDForChecksum fm tx w).2.log = w.log ++ evs
        ∧ evs.any Event.isStepUpdate = false := by
  unfold StepServiceImpl.fileIDForChecksum
  simp only [BillingDB.FileFetchByChecksum, BillingDB.FileCreate, World.emit]
  generalize i.billingDB.FileRepository.FetchByChecksum _ _ = rf
  rcases rf with ⟨⟨file, e1⟩, st1⟩
  generalize i.billingDB.FileRepository.Create _ _ _ _ _ _ = rc
  rcases rc with ⟨⟨fid, e2⟩, st2⟩
  rcases e1 with _ | e1
  · exact ⟨_, rfl, by simp [Event.isStepUpdate]⟩
  · cases e1 <;> first
      | exact ⟨_, rfl, by simp [Event.isStepUpdate]⟩
      | (cases e2 <;> exact ⟨_, List.append_assoc _ _ _, by simp [Event.isStepUpdate]⟩)

/-- The finishing stage returns the Step it was given or a Step with a file, and
writes Steps with a file only. -/
theorem finishWithFileID_shape (i : StepServiceImpl σ) (s : Step) (file : File) (fileID : Int)
    (tx : Option Tx) (w : World σ) :
    ((i.finishWithFileID s file fileID tx w).1.1 = s
      ∨ (i.finishWithFileID s file fileID tx w).1.1.FileID.Valid = true)
    ∧ ∃ evs, (i.finishWithFileID s file fileID tx w).2.log = w.log ++ evs
      ∧ ∀ st user t e, Event.StepUpdate st user t e ∈ evs → st.FileID.Valid = true := by
  unfold StepServiceImpl.finishWithFileID
  simp only [timeNow, BillingDB.StepUpdate, World.emit]
  generalize hu : i.billingDB.StepRepository.Update _ _ _ _ = ru
  rcases ru with ⟨eu, su⟩
  simp only []
  generalize hW : (⟨su, w.log ++ [Event.StepUpdate _ _ _ _], _⟩ : World σ) = W
  have hWlog : ∃ st0 : Step, st0.FileID.Valid = true
      ∧ W.log = w.log ++ [Event.StepUpdate st0 i.Options.User tx eu] := by
    rw [← hW]; exact ⟨_, rfl, rfl⟩
  obtain ⟨st0, hst0, hWlog⟩ := hWlog
  have key : ∀ (W1 : World σ) (evs : List Event), W1.log = W.log ++ evs →
      (∀ st user t e, Event.StepUpdate st user t e ∈ evs → False) →
      ∃ evs1, W1.log = w.log ++ evs1
        ∧ ∀ st user t e, Event.StepUpdate st user t e ∈ evs1 → st.FileID.Valid = true := by
    intro W1 evs h1 h2
    refine ⟨Event.StepUpdate st0 i.Options.User tx eu :: evs, by rw [h1, hWlog]; simp, ?_⟩
    intro st user t e hm
    rcases List.mem_cons.1 hm with h | h
    · injection h with h; subst h; exact hst0
    · exact (h2 _ _ _ _ h).elim
  have noUpd : ∀ evs : List Event, evs.any Event.isStepUpdate = false →
      ∀ st user t e, Event.StepUpdate st user t e ∈ evs → False := by
    intro evs h st user t e hm
    have := (List.any_eq_false.1 h) _ hm
    simp [Event.isStepUpdate] at this
  cases eu with
  | some eu =>
    simp only []
    obtain ⟨evs, hl, hf⟩ := HandleTx_noStepUpdate i.billingDB tx (some eu) W
    exact ⟨Or.inl trivial, key _ evs hl (noUpd _ hf)⟩
  | none =>
    simp only []
    obtain ⟨evs, hl, hf⟩ := HandleTx_noStepUpdate i.billingDB tx none W
    generalize i.billingDB.HandleTx tx none W = rh at hl ⊢
    rcases rh with ⟨eh, Wh⟩
    cases eh with
    | some eh => exact ⟨Or.inl rfl, key _ evs hl (noUpd _ hf)⟩
    | none =>
      simp only [] at hl ⊢
      split
      · simp only [BillingDB.FileFetch, World.emit]
        generalize i.billingDB.FileRepository.Fetch _ _ = rg
        rcases rg with ⟨⟨gfile, eg⟩, sg⟩
        cases eg with
        | some eg =>
          simp only []
          obtain ⟨evs2, hl2, hf2⟩ := HandleTx_noStepUpdate i.billingDB tx (some eg)
            ⟨sg, Wh.log ++ [Event.FileFetch fileID], Wh.nowCount⟩
          refine ⟨Or.inr trivial, key _ (evs ++ [Event.FileFetch fileID] ++ evs2)
            (by rw [hl2, hl]; simp) (noUpd _ ?_)⟩
          simp [hf, hf2, Event.isStepUpdate]
        | none =>
          refine ⟨Or.inr rfl, key _ (evs ++ [Event.FileFetch fileID])
            (by simp [hl]) (noUpd _ ?_)⟩
          simp [hf, Event.isStepUpdate]
      · exact ⟨Or.inr rfl, key _ evs hl (noUpd _ hf)⟩

/-- `UpdateStepToSuccessAndCreateFile` returns the input Step or a Step with a file, and
writes Steps with a file only. -/
theorem UpdateStepToSuccessAndCreateFile_shape (i : StepServiceImpl σ) (s : Step)
    (fm : FileMeta) (w : World σ) :
    ((i.UpdateStepToSuccessAndCreateFile s fm w).1.1 = s
      ∨ (i.UpdateStepToSuccessAndCreateFile s fm w).1.1.FileID.Valid = true)
    ∧ ∀ st user tx e, Event.StepUpdate st user tx e
        ∈ newEvents w (i.UpdateStepToSuccessAndCreateFile s fm w).2 →
        st.FileID.Valid = true := by
  have noUpd : ∀ evs : List Event, evs.any Event.isStepUpdate = false →
      ∀ st user t e, Event.StepUpdate st user t e ∈ evs → st.FileID.Valid = true := by
    intro evs h st user t e hm
    have := (List.any_eq_false.1 h) _ hm
    simp [Event.isStepUpdate] at this
  unfold StepServiceImpl.UpdateStepToSuccessAndCreateFile
  rcases hn : i.billingDB.BillingTransactionDB.NewTransaction w.st with ⟨⟨tx, e0⟩, st0⟩
  simp only [BillingDB.NewTransaction, hn, World.emit]
  generalize hW0 : (⟨st0, w.log ++ [Event.NewTransaction tx e0], w.nowCount⟩ : World σ) = W0
  have hW0log : W0.log = w.log ++ [Event.NewTransaction tx e0] := by rw [← hW0]
  cases e0 with
  | some e =>
    simp only []
    obtain ⟨evs, hl, hf⟩ := HandleTx_noStepUpdate i.billingDB tx (some e) W0
    rw [newEvents_of_log w _ ([Event.NewTransaction tx (some e)] ++ evs)
      (by rw [hl, hW0log, List.append_assoc])]
    exact ⟨Or.inl trivial, noUpd _ (by simp [Event.isStepUpdate, hf])⟩
  | none =>
    simp only []
    obtain ⟨evsA, hAlog, hAf⟩ := fileIDForChecksum_noStepUpdate i fm tx W0
    generalize i.fileIDForChecksum fm tx W0 = rc at hAlog ⊢
    rcases rc with ⟨⟨file, res⟩, WA⟩
    simp only [] at hAlog
    cases res with
    | error e =>
      simp only []
      obtain ⟨evs, hl, hf⟩ := HandleTx_noStepUpdate i.billingDB tx (some e) WA
      rw [newEvents_of_log w _ ([Event.NewTransaction tx none] ++ evsA ++ evs)
        (by rw [hl, hAlog, hW0log]; simp only [List.append_assoc])]
      exact ⟨Or.inl trivial, noUpd _ (by simp [Event.isStepUpdate, hf, hAf])⟩
    | ok fileID =>
      simp only []
      obtain ⟨hret, evs, hl, hf⟩ := finishWithFileID_shape i s file fileID tx WA
      rw [newEvents_of_log w _ ([Event.NewTransaction tx none] ++ evsA ++ evs)
        (by rw [hl, hAlog, hW0log]; simp only [List.append_assoc])]
      refine ⟨hret, ?_⟩
      intro st user t e hm
      rcases List.mem_append.1 hm with h | h
      · exact noUpd _ (by simp [Event.isStepUpdate, hAf]) _ _ _ _ h
      · exact hf _ _ _ _ h
/-- C11 on the run in which every call succeeds: the sample step fails with
"no rows". -/
theorem C11_UpdateStepToError_success_witness :
    (Script.ok.service.UpdateStepToError Step.sample (some Err.ErrNoRows) World.init).1
        = ({ Step.sample with Status := "ERROR", Error := Err.ErrNoRows.Error, EndDate := 0 },
           none) :=
  (C11_UpdateStepToError_success Script.ok.service Step.sample Err.ErrNoRows World.init 1
    rfl (fun _ _ _ => rfl) (fun _ => rfl)).1

/-- C12 on the run in which every call succeeds: the sample step gets the file 9. -/
theorem C12_UpdateStepToSuccessWithFileID_success_witness :
    (Script.ok.service.UpdateStepToSuccessWithFileID Step.sample 9 World.init).1
        = ({ Step.sample with FileID := ⟨9, true⟩, Status := "FINISHED", Error := "",
                              EndDate := 0 }, none) :=
  (C12_UpdateStepToSuccessWithFileID_success Script.ok.service Step.sample 9 World.init 1
    rfl (fun _ _ _ => rfl) (fun _ => rfl)).1

/-- C13: the predicate "Status = FINISHED implies FileID is non-null" is preserved by
each of the four transitions of the step service: when the input Step satisfies it,
the Step returned satisfies it, whether the call succeeded or failed, and so does
every Step handed to `StepRepository.Update` during the call. -/
theorem C13_finished_step_has_file (i : StepServiceImpl σ) (op : StepTransition) (s : Step)
    (w : World σ) (hs : FinishedHasFile s) :
    FinishedHasFile (op.run i s w).1
    ∧ ∀ st user tx e, Event.StepUpdate st user tx e ∈ newEvents w (op.run i s w).2 →
        FinishedHasFile st := by
  have inProgress : ∀ st : Step, st.Status = StepStatusInProgress → FinishedHasFile st := by
    intro st h hf
    rw [h] at hf
    exact absurd hf (by decide)
  have inError : ∀ st : Step, st.Status = StepStatusError → FinishedHasFile st := by
    intro st h hf
    rw [h] at hf
    exact absurd hf (by decide)
  cases op with
  | RestartStep =>
    obtain ⟨h1, h2⟩ := RestartStep_shape i s w
    refine ⟨?_, fun st user tx e hm => inProgress _ (h2 st user tx e hm)⟩
    rcases h1 with h | h
    · simpa only [StepTransition.run, h] using hs
    · exact inProgress _ h
  | UpdateStepToSuccessAndCreateFile fm =>
    obtain ⟨h1, h2⟩ := UpdateStepToSuccessAndCreateFile_shape i s fm w
    refine ⟨?_, fun st user tx e hm _ => h2 st user tx e hm⟩
    rcases h1 with h | h
    · simpa only [StepTransition.run, h] using hs
    · exact fun _ => h
  | UpdateStepToSuccessWithFileID f =>
    obtain ⟨h1, h2⟩ := UpdateStepToSuccessWithFileID_shape i s f w
    refine ⟨?_, fun st user tx e hm _ => h2 st user tx e hm⟩
    rcases h1 with h | h
    · simpa only [StepTransition.run, h] using hs
    · exact fun _ => h
  | UpdateStepToError err =>
    obtain ⟨h1, h2⟩ := UpdateStepToError_shape i s err w
    refine ⟨?_, fun st user tx e hm => inError _ (h2 st user tx e hm)⟩
    rcases h1 with h | h
    · simpa only [StepTransition.run, h] using hs
    · exact inError _ h

/-- C13 on the run in which every call succeeds: the sample step, in progress, is
finished with a new File. -/
theorem C13_finished_step_has_file_witness :
    FinishedHasFile Step.sample
    ∧ (StepTransition.run Script.ok.service
        (.UpdateStepToSuccessAndCreateFile FileMeta.sample) Step.sample World.init).1.Status
        = StepStatusFinished
    ∧ FinishedHasFile (StepTransition.run Script.ok.service
        (.UpdateStepToSuccessAndCreateFile FileMeta.sample) Step.sample World.init).1 :=
  ⟨fun h => absurd h (by decide), by decide,
   (C13_finished_step_has_file Script.ok.service
      (.UpdateStepToSuccessAndCreateFile FileMeta.sample) Step.sample World.init
      (fun h => absurd h (by decide))).1⟩

/-- C16 (amended): in `createNewImportStep`, once the transaction `t` is opened,
`CommitTransaction` is called on it if and only if `StepRepository.Create` and
`CollectionJobRepository.Update` were called and returned nil (the update is only called
when `CollectionJobRepository.Fetch` succeeded), and then no rollback is made; so the
transaction is committed only after the update, and when the commit fails its error is
returned and the transaction is not committed. In every case in which `CommitTransaction`
is not called the transaction is rolled back and an error is returned. The CollectionJob
handed to `Update` is the job `Fetch` returned with `CurrentStepTypeID` replaced by the
step type's ID. -/
theorem C16_createNewImportStep_commit_or_rollback (i : ImporterStepService σ)
    (stepType : StepType) (j : Int) (w : World σ) (t : Tx)
    (hnew : (i.billingDB.BillingTransactionDB.NewTransaction w.st).1.1 = some t) :
    ((newEvents w (i.createNewImportStep stepType j w).2).any (Event.isCommitOf t) = true ↔
      (newEvents w (i.createNewImportStep stepType j w).2).any Event.isStepCreateOk = true
      ∧ (newEvents w (i.createNewImportStep stepType j w).2).any Event.isJobUpdateOk = true)
    ∧ ((newEvents w (i.createNewImportStep stepType j w).2).any (Event.isCommitOf t) = true →
      (newEvents w (i.createNewImportStep stepType j w).2).any Event.isRollback = false)
    ∧ (Event.CommitTransaction t none ∈ newEvents w (i.createNewImportStep stepType j w).2 →
      (newEvents w (i.createNewImportStep stepType j w).2).any Event.isStepCreateOk = true
      ∧ (newEvents w (i.createNewImportStep stepType j w).2).any Event.isJobUpdateOk = true)
    ∧ (∀ e, Event.CommitTransaction t (some e)
        ∈ newEvents w (i.createNewImportStep stepType j w).2 →
      (i.createNewImportStep stepType j w).1.2 = some e
      ∧ Event.CommitTransaction t none ∉ newEvents w (i.createNewImportStep stepType j w).2)
    ∧ ((newEvents w (i.createNewImportStep stepType j w).2).any (Event.isCommitOf t) = false →
      (newEvents w (i.createNewImportStep stepType j w).2).any (Event.isRollbackOf t) = true
      ∧ (i.createNewImportStep stepType j w).1.2 ≠ none)
    ∧ ∀ job user tx err, Event.CollectionJobUpdate job user tx err
        ∈ newEvents w (i.createNewImportStep stepType j w).2 →
        ∃ st, (i.billingDB.CollectionJobRepository.Fetch j st).1.2 = none
          ∧ job = { (i.billingDB.CollectionJobRepository.Fetch j st).1.1 with
                    CurrentStepTypeID := stepType.ID }
          ∧ user = i.Options.User ∧ tx = some t := by
  unfold ImporterStepService.createNewImportStep
  rcases hn : i.billingDB.BillingTransactionDB.NewTransaction w.st with ⟨⟨tx, e0⟩, st0⟩
  rw [hn] at hnew
  simp only [] at hnew
  subst hnew
  simp only [BillingDB.NewTransaction, hn, BillingDB.StepCreate, BillingDB.CollectionJobFetch,
    BillingDB.CollectionJobUpdate, BillingDB.StepFetch, BillingDB.HandleTx,
    BillingDB.RollbackTransaction, BillingDB.CommitTransaction, World.emit]
  generalize i.billingDB.BillingTx.RollbackTransaction t st0 = rr0
  rcases rr0 with ⟨x0, sr0⟩
  generalize i.billingDB.StepRepository.Create _ _ _ _ _ = rc
  rcases rc with ⟨⟨id, ec⟩, sc⟩
  simp only []
  generalize i.billingDB.BillingTx.RollbackTransaction t sc = rr1
  rcases rr1 with ⟨x1, sr1⟩
  generalize hj : i.billingDB.CollectionJobRepository.Fetch j sc = rj
  rcases rj with ⟨⟨job, ej⟩, sj⟩
  simp only []
  generalize i.billingDB.BillingTx.RollbackTransaction t sj = rr2
  rcases rr2 with ⟨x2, sr2⟩
  generalize i.billingDB.CollectionJobRepository.Update _ _ _ _ = ru
  rcases ru with ⟨eu, su⟩
  simp only []
  generalize i.billingDB.BillingTx.RollbackTransaction t su = rr3
  rcases rr3 with ⟨x3, sr3⟩
  generalize i.billingDB.BillingTx.CommitTransaction t su = rcm
  rcases rcm with ⟨x4, sr4⟩
  simp only []
  generalize i.billingDB.StepRepository.Fetch _ _ = rf
  rcases rf with ⟨⟨fs, ef⟩, sf⟩
  have hjob : ∀ (a : CollectionJob) (b : String) (c : Option Tx), ej = none →
      a = { job with CurrentStepTypeID := stepType.ID } → b = i.Options.User → c = some t →
      ∃ st, (i.billingDB.CollectionJobRepository.Fetch j st).1.2 = none
        ∧ a = { (i.billingDB.CollectionJobRepository.Fetch j st).1.1 with
                CurrentStepTypeID := stepType.ID }
        ∧ b = i.Options.User ∧ c = some t := by
    intro a b c h h1 h2 h3
    exact ⟨sc, by rw [hj]; exact h, by rw [hj]; exact h1, h2, h3⟩
  cases e0 with
  | some e =>
    cases x0 <;>
      simp [newEvents, Event.isCommitOf, Event.isRollbackOf, Event.isRollback,
        Event.isStepCreateOk, Event.isJobUpdateOk]
  | none =>
    cases ec with
    | some e =>
      cases x1 <;>
        simp [newEvents, Event.isCommitOf, Event.isRollbackOf, Event.isRollback,
          Event.isStepCreateOk, Event.isJobUpdateOk]
    | none =>
      cases ej with
      | some e =>
        cases x2 <;>
          simp [newEvents, Event.isCommitOf, Event.isRollbackOf, Event.isRollback,
            Event.isStepCreateOk, Event.isJobUpdateOk]
      | none =>
        cases eu with
        | some e =>
          cases x3 <;>
            simp [newEvents, Event.isCommitOf, Event.isRollbackOf, Event.isRollback,
              Event.isStepCreateOk, Event.isJobUpdateOk] <;>
            (intro a b c d h1 h2 h3 _; exact hjob a b c rfl h1 h2 h3)
        | none =>
          cases x4 <;>
            simp [newEvents, Event.isCommitOf, Event.isRollbackOf, Event.isRollback,
              Event.isStepCreateOk, Event.isJobUpdateOk] <;>
            (intro a b c d h1 h2 h3 _; exact hjob a b c rfl h1 h2 h3)


/-- C16, as stated, fails: `StepRepository.Create`, `CollectionJobRepository.Fetch` and
`CollectionJobRepository.Update` all succeed and `CommitTransaction` fails; the
transaction is not committed, it is not rolled back either, and the error of the commit
is returned. -/
theorem C16_failed_commit_is_not_rolled_back :
    newEvents World.init
        (Script.newStepCommitFails.service.importer.createNewImportStep ⟨4, 1, "IMPORT", 4⟩ 2
          World.init).2
      = [Event.NewTransaction (some 1) none,
         Event.StepCreate 4 2 "importer" (some 1) none,
         Event.CollectionJobFetch 2,
         Event.CollectionJobUpdate ⟨2, 1, "IN PROGRESS", 4, 50, 0⟩ "importer" (some 1) none,
         Event.CommitTransaction 1 (some (Err.other "commit"))]
    ∧ (Script.newStepCommitFails.service.importer.createNewImportStep ⟨4, 1, "IMPORT", 4⟩ 2
          World.init).1.2 = some (Err.other "commit") := by
  decide

/-- C16 on the scripted run in which every call succeeds: the commit is called. -/
theorem C16_createNewImportStep_commit_or_rollback_witness :
    (newEvents World.init
      (Script.newStep.service.importer.createNewImportStep ⟨4, 1, "IMPORT", 4⟩ 2
        World.init).2).any (Event.isCommitOf 1) = true :=
  (C16_createNewImportStep_commit_or_rollback Script.newStep.service.importer
    ⟨4, 1, "IMPORT", 4⟩ 2 World.init 1 rfl).1.2 ⟨by decide, by decide⟩

theorem all_imp (P Q : Event → Bool) (evs : List Event) (h : evs.all P = true)
    (hPQ : ∀ e, P e = true → Q e = true) : evs.all Q = true := by
  rw [List.all_eq_true] at h ⊢
  exact fun e he => hPQ e (h e he)

theorem any_false_of_all (P Q : Event → Bool) (evs : List Event) (h : evs.all P = true)
    (hPQ : ∀ e, P e = true → Q e = false) : evs.any Q = false := by
  rw [List.all_eq_true] at h
  rw [List.any_eq_false]
  intro e he
  simp [hPQ e (h e he)]

/-- What `createNewImportStep` records. -/
theorem createNewImportStep_footprint (i : ImporterStepService σ) (stepType : StepType)
    (j : Int) (w : World σ) :
    (i.createNewImportStep stepType j w).2.log
        = w.log ++ newEvents w (i.createNewImportStep stepType j w).2
    ∧ (newEvents w (i.createNewImportStep stepType j w).2).all Event.isNewImportStep = true := by
  unfold ImporterStepService.createNewImportStep
  rcases hn : i.billingDB.BillingTransactionDB.NewTransaction w.st with ⟨⟨tx, e0⟩, st0⟩
  simp only [BillingDB.NewTransaction, hn, BillingDB.StepCreate, BillingDB.CollectionJobFetch,
    BillingDB.CollectionJobUpdate, BillingDB.StepFetch, World.emit]
  generalize i.billingDB.StepRepository.Create _ _ _ _ _ = rc
  rcases rc with ⟨⟨id, ec⟩, sc⟩
  simp only []
  generalize hj : i.billingDB.CollectionJobRepository.Fetch j sc = rj
  rcases rj with ⟨⟨job, ej⟩, sj⟩
  simp only []
  generalize i.billingDB.CollectionJobRepository.Update _ _ _ _ = ru
  rcases ru with ⟨eu, su⟩
  simp only []
  have key : ∀ (err : Option Err) (W : World σ), (∃ evs, W.log = w.log ++ evs
        ∧ evs.all Event.isNewImportStep = true) →
      ∃ evs1, (i.billingDB.HandleTx tx err W).2.log = w.log ++ evs1
        ∧ evs1.all Event.isNewImportStep = true := by
    rintro err W ⟨evs, hW, hevs⟩
    rcases (HandleTx_log i.billingDB tx err W).2 with h | ⟨t, x, h⟩ | ⟨t, x, h⟩
    · exact ⟨evs, by rw [h, hW], hevs⟩
    · exact ⟨evs ++ [Event.RollbackTransaction t x], by rw [h, hW, List.append_assoc],
        by simp [hevs, Event.isNewImportStep]⟩
    · exact ⟨evs ++ [Event.CommitTransaction t x], by rw [h, hW, List.append_assoc],
        by simp [hevs, Event.isNewImportStep]⟩
  have fin : ∀ (W : World σ), (∃ evs1, W.log = w.log ++ evs1
        ∧ evs1.all Event.isNewImportStep = true) →
      W.log = w.log ++ newEvents w W ∧ (newEvents w W).all Event.isNewImportStep = true := by
    rintro W ⟨evs1, h1, h2⟩
    rw [newEvents_of_log w W evs1 h1]
    exact ⟨h1, h2⟩
  have e2 : ∀ l a b : List Event, l ++ a ++ b = l ++ (a ++ b) := by intros; simp
  have e3 : ∀ l a b c : List Event, l ++ a ++ b ++ c = l ++ (a ++ b ++ c) := by intros; simp
  have e4 : ∀ l a b c d : List Event, l ++ a ++ b ++ c ++ d = l ++ (a ++ b ++ c ++ d) := by
    intros; simp
  cases e0 with
  | some e => exact fin _ (key _ _ ⟨_, rfl, by simp [Event.isNewImportStep]⟩)
  | none =>
    cases ec with
    | some e => exact fin _ (key _ _ ⟨_, e2 _ _ _, by simp [Event.isNewImportStep]⟩)
    | none =>
      cases ej with
      | some e => exact fin _ (key _ _ ⟨_, e3 _ _ _ _, by simp [Event.isNewImportStep]⟩)
      | none =>
        simp only []
        obtain ⟨evs1, h1, h2⟩ := key eu ⟨su, w.log ++ [Event.NewTransaction tx none]
          ++ [Event.StepCreate stepType.ID j i.Options.User tx none]
          ++ [Event.CollectionJobFetch j]
          ++ [Event.CollectionJobUpdate { job with CurrentStepTypeID := stepType.ID }
                i.Options.User tx eu], w.nowCount⟩
          ⟨_, e4 _ _ _ _ _, by simp [Event.isNewImportStep]⟩
        generalize i.billingDB.HandleTx tx eu _ = rh at h1 ⊢
        rcases rh with ⟨eh, Wh⟩
        cases eh with
        | some e => exact fin _ ⟨evs1, h1, h2⟩
        | none =>
          simp only [] at h1 ⊢
          refine fin ⟨(i.billingDB.StepRepository.Fetch id Wh.st).2,
            Wh.log ++ [Event.StepFetch id], Wh.nowCount⟩
            ⟨evs1 ++ [Event.StepFetch id], ?_, by simp [h2, Event.isNewImportStep]⟩
          show Wh.log ++ [Event.StepFetch id] = _
          rw [h1, List.append_assoc]

/-- What a `RestartStep` call of the engine records: the call, then transaction calls
and `StepRepository.Update` only. -/
theorem callRestartStep_footprint (svc : StepServiceImpl σ) (s : Step) (w : World σ) :
    ∃ evs, (svc.importer.stepService.callRestartStep s w).2.log
        = w.log ++ (Event.RestartStep s :: evs)
      ∧ evs.all Event.isStepTx = true := by
  obtain ⟨h1, h2⟩ := RestartStep_footprint svc s (w.emit w.st (Event.RestartStep s))
  refine ⟨_, ?_, h2⟩
  show (svc.RestartStep s (w.emit w.st (Event.RestartStep s))).2.log = _
  rw [h1]
  simp [World.emit]

/-- C15: for every step type and collection job id j, `startImportStep` restarts the
step found by `FetchUnfinishedBySourceAndType` (it calls `RestartStep` on it and calls
`StepRepository.Create` not at all) when the lookup succeeds and the found step's
CollectionJobID equals j; it runs `createNewImportStep` (and calls `RestartStep` not at
all) when the lookup returns `sql.ErrNoRows` or the found step belongs to another
collection job; and when the lookup fails with any other error it returns the found
step and that error, having made no call but the lookup. `RestartStep` is called
exactly in the first case, and `StepRepository.Create` only in the second. -/
theorem C15_startImportStep_restarts_or_creates (svc : StepServiceImpl σ)
    (stepType : StepType) (j : Int) (w : World σ) :
    ((svc.importer.fetchUnfinished stepType w).1.2 = none
        ∧ (svc.importer.fetchUnfinished stepType w).1.1.CollectionJobID = j →
      svc.importer.startImportStep stepType j w
        = svc.importer.stepService.callRestartStep
            (svc.importer.fetchUnfinished stepType w).1.1
            (svc.importer.fetchUnfinished stepType w).2
      ∧ (newEvents w (svc.importer.startImportStep stepType j w).2).any Event.isStepCreate
          = false)
    ∧ ((svc.importer.fetchUnfinished stepType w).1.2 = some Err.ErrNoRows
        ∨ ((svc.importer.fetchUnfinished stepType w).1.2 = none
          ∧ (svc.importer.fetchUnfinished stepType w).1.1.CollectionJobID ≠ j) →
      svc.importer.startImportStep stepType j w
        = svc.importer.createNewImportStep stepType j
            (svc.importer.fetchUnfinished stepType w).2
      ∧ (newEvents w (svc.importer.startImportStep stepType j w).2).any Event.isRestartStep
          = false)
    ∧ (∀ e, (svc.importer.fetchUnfinished stepType w).1.2 = some e → e ≠ Err.ErrNoRows →
      svc.importer.startImportStep stepType j w
        = (((svc.importer.fetchUnfinished stepType w).1.1, some e),
           (svc.importer.fetchUnfinished stepType w).2)
      ∧ newEvents w (svc.importer.startImportStep stepType j w).2
        = [Event.StepFetchUnfinishedBySourceAndType stepType.SourceID stepType.ID
            svc.Options.User])
    ∧ (Event.RestartStep (svc.importer.fetchUnfinished stepType w).1.1
          ∈ newEvents w (svc.importer.startImportStep stepType j w).2 ↔
        (svc.importer.fetchUnfinished stepType w).1.2 = none
          ∧ (svc.importer.fetchUnfinished stepType w).1.1.CollectionJobID = j)
    ∧ ((newEvents w (svc.importer.startImportStep stepType j w).2).any Event.isRestartStep
          = true →
        (svc.importer.fetchUnfinished stepType w).1.2 = none
          ∧ (svc.importer.fetchUnfinished stepType w).1.1.CollectionJobID = j)
    ∧ ((newEvents w (svc.importer.startImportStep stepType j w).2).any Event.isStepCreate
          = true →
        (svc.importer.fetchUnfinished stepType w).1.2 = some Err.ErrNoRows
        ∨ ((svc.importer.fetchUnfinished stepType w).1.2 = none
          ∧ (svc.importer.fetchUnfinished stepType w).1.1.CollectionJobID ≠ j)) := by
  have hR : ∀ (s : Step) (W : World σ) (ev : Event), W.log = w.log ++ [ev] →
      ev.isStepCreate = false →
      (newEvents w (svc.importer.stepService.callRestartStep s W).2).any Event.isStepCreate
        = false
      ∧ Event.RestartStep s ∈ newEvents w (svc.importer.stepService.callRestartStep s W).2 := by
    intro s W ev hW hev
    obtain ⟨evs, h1, h2⟩ := callRestartStep_footprint svc s W
    rw [newEvents_of_log w _ (ev :: Event.RestartStep s :: evs) (by rw [h1, hW]; simp)]
    refine ⟨?_, by simp⟩
    have := any_false_of_all Event.isStepTx Event.isStepCreate evs h2
      (by intro e; cases e <;> simp [Event.isStepTx, Event.isStepCreate])
    simp only [List.any_cons, hev, this]
    simp [Event.isStepCreate]
  have hC : ∀ (W : World σ) (ev : Event), W.log = w.log ++ [ev] →
      ev.isRestartStep = false →
      (newEvents w (svc.importer.createNewImportStep stepType j W).2).any Event.isRestartStep
        = false := by
    intro W ev hW hev
    obtain ⟨h1, h2⟩ := createNewImportStep_footprint svc.importer stepType j W
    rw [newEvents_of_log w _ (ev :: newEvents W (svc.importer.createNewImportStep stepType j W).2)
      (by rw [h1, hW]; simp)]
    have := any_false_of_all Event.isNewImportStep Event.isRestartStep _ h2
      (by intro e; cases e <;> simp [Event.isNewImportStep, Event.isRestartStep])
    simp [hev, this]
  unfold ImporterStepService.startImportStep ImporterStepService.fetchUnfinished
  simp only [BillingDB.FetchUnfinishedBySourceAndType, World.emit]
  generalize svc.importer.billingDB.StepRepository.FetchUnfinishedBySourceAndType _ _ _ _ = r
  rcases r with ⟨⟨found, err⟩, st1⟩
  simp only []
  generalize hW : (⟨st1, w.log ++ [Event.StepFetchUnfinishedBySourceAndType stepType.SourceID
    stepType.ID svc.importer.Options.User], w.nowCount⟩ : World σ) = W
  have hWlog : W.log = w.log ++ [Event.StepFetchUnfinishedBySourceAndType stepType.SourceID
      stepType.ID svc.importer.Options.User] := by rw [← hW]
  have hR1 := hR found W _ hWlog rfl
  have hC1 := hC W _ hWlog rfl
  have hne : ∀ l : List Event, l.any Event.isRestartStep = false →
      Event.RestartStep found ∉ l := by
    intro l hl hm
    have := (List.any_eq_false.1 hl) _ hm
    simp [Event.isRestartStep] at this
  have hlook : newEvents w W = [Event.StepFetchUnfinishedBySourceAndType stepType.SourceID
      stepType.ID svc.Options.User] := newEvents_of_log w W _ hWlog
  cases err with
  | none =>
    by_cases hj : found.CollectionJobID = j
    · simp only [hj, if_true] at hR1 hC1 ⊢
      simp [hR1.1, hR1.2]
    · simp only [hj, if_false] at hR1 hC1 ⊢
      simp [hC1, hne _ hC1, hj]
  | some e =>
    cases e <;> simp [hC1, hne _ hC1, hlook, Event.isRestartStep, Event.isStepCreate]

/-- The trace of the loop of `executeImport`, for every input: full batches of ten
rows, each inserted successfully, then the end described by `ImportEnd`; the rows of
the batches and the pending rows are the rows held in `bulk` followed by the mapped
rows of the records read. -/
theorem importLoop_trace (i : ImporterStepService σ) (vm : VendorMapper) (keys : List String)
    (stream : List ReadResult) :
    ∀ (bulk : List (List Value)) (w : World σ), bulk.length < 10 →
      ∃ (calls : List (List (List Value))) (records : List (List String))
        (rest : List ReadResult) (pending : List (List Value)) (tail : List Event),
        stream = records.map ReadResult.record ++ rest
        ∧ (∀ r ∈ records, (buildUsage i.Options.User vm keys r).isSome = true)
        ∧ (∀ c ∈ calls, c.length = 10)
        ∧ calls.flatten ++ pending = bulk ++ records.filterMap (buildUsage i.Options.User vm keys)
        ∧ (i.importLoop vm keys stream bulk w).2.log
            = w.log ++ (calls.map (fun c => Event.BulkInsert vm.SqlBase vm.SqlValues c none)
                ++ tail)
        ∧ ImportEnd i.Options.User vm keys (i.importLoop vm keys stream bulk w).1 rest pending
            tail := by
  induction stream with
  | nil =>
    intro bulk w hlt
    simp only [ImporterStepService.importLoop]
    by_cases hb : bulk.length > 0
    · simp only [if_pos hb, BillingDB.BulkInsert, World.emit]
      refine ⟨[], [], [], bulk, [Event.BulkInsert vm.SqlBase vm.SqlValues bulk _],
        by simp, by simp, by simp, by simp, by simp, Or.inr ⟨_, rfl, rfl, ?_, by omega, ?_, ?_⟩⟩
      · intro h; simp [h] at hb
      · intro _; rfl
      · intro _; exact ⟨rfl, hlt⟩
    · simp only [if_neg hb]
      have hb0 : bulk = [] := List.length_eq_zero.mp (by omega)
      subst hb0
      exact ⟨[], [], [], [], [], by simp, by simp, by simp, by simp, by simp,
        Or.inl ⟨rfl, by simp, Or.inl ⟨rfl, rfl, rfl⟩⟩⟩
  | cons a rs ih =>
    intro bulk w hlt
    cases a with
    | error e =>
      simp only [ImporterStepService.importLoop]
      exact ⟨[], [], ReadResult.error e :: rs, bulk, [], by simp, by simp, by simp, by simp,
        by simp, Or.inl ⟨rfl, hlt, Or.inr (Or.inl ⟨e, rs, rfl, rfl⟩)⟩⟩
    | record r =>
      cases hrow : buildUsage i.Options.User vm keys r with
      | none =>
        simp only [ImporterStepService.importLoop, hrow]
        exact ⟨[], [], ReadResult.record r :: rs, bulk, [], by simp, by simp, by simp,
          by simp, by simp, Or.inl ⟨rfl, hlt, Or.inr (Or.inr ⟨r, rs, rfl, hrow, rfl⟩)⟩⟩
      | some row =>
        simp only [ImporterStepService.importLoop, hrow]
        by_cases hfull : (bulk ++ [row]).length = 10
        · simp only [if_pos hfull, BillingDB.BulkInsert, World.emit]
          generalize i.billingDB.BillingTransactionDB.BulkInsert _ _ _ _ = rb
          rcases rb with ⟨eb, sb⟩
          cases eb with
          | some e =>
            refine ⟨[], [r], rs, bulk ++ [row],
              [Event.BulkInsert vm.SqlBase vm.SqlValues (bulk ++ [row]) (some e)],
              by simp, ?_, by simp, by simp [hrow], by simp,
              Or.inr ⟨some e, rfl, rfl, by simp, by omega, ?_, ?_⟩⟩
            · intro r1 h1
              rw [List.mem_singleton] at h1
              subst h1
              simp [hrow]
            · intro h; omega
            · intro h; cases h
          | none =>
            simp only []
            obtain ⟨calls, records, rest, pending, tail, hs, hmap, hcalls, hflat, hlog, hend⟩ :=
              ih [] ⟨sb, w.log ++ [Event.BulkInsert vm.SqlBase vm.SqlValues (bulk ++ [row]) none],
                w.nowCount⟩ (by simp)
            refine ⟨(bulk ++ [row]) :: calls, r :: records, rest, pending, tail, by simp [hs],
              ?_, ?_, ?_, ?_, hend⟩
            · intro r1 h1
              rcases List.mem_cons.mp h1 with rfl | h1
              · simp [hrow]
              · exact hmap r1 h1
            · intro c hc
              rcases List.mem_cons.mp hc with rfl | hc
              · exact hfull
              · exact hcalls c hc
            · simp only [List.flatten_cons, List.filterMap_cons_some hrow, List.append_assoc]
              simp only [List.nil_append] at hflat
              rw [hflat]
              simp
            · rw [hlog]
              simp
        · simp only [if_neg hfull]
          obtain ⟨calls, records, rest, pending, tail, hs, hmap, hcalls, hflat, hlog, hend⟩ :=
            ih (bulk ++ [row]) w (by
              simp only [List.length_append, List.length_singleton] at hfull ⊢
              omega)
          refine ⟨calls, r :: records, rest, pending, tail, by simp [hs], ?_, hcalls, ?_, hlog,
            hend⟩
          · intro r1 h1
            rcases List.mem_cons.mp h1 with rfl | h1
            · simp [hrow]
            · exact hmap r1 h1
          · rw [hflat, List.filterMap_cons_some hrow]
            simp

/-- The loop of `executeImport` on an input whose read fails with `e` after `records`:
it returns `e` having inserted full batches only, the rows left over being dropped,
unless a `BulkInsert` failed before, which is then its last call. -/
theorem importLoop_read_error (i : ImporterStepService σ) (vm : VendorMapper)
    (keys : List String) (e : Err) (rest : List ReadResult) (records : List (List String)) :
    ∀ (bulk : List (List Value)) (w : World σ), bulk.length < 10 →
      (∀ r ∈ records, (buildUsage i.Options.User vm keys r).isSome = true) →
      ((i.importLoop vm keys (records.map ReadResult.record ++ ReadResult.error e :: rest)
          bulk w).1 = Outcome.returned (some e)
        ∧ ∃ (calls : List (List (List Value))) (pending : List (List Value)),
            (∀ c ∈ calls, c.length = 10)
            ∧ pending.length < 10
            ∧ calls.flatten ++ pending
                = bulk ++ records.filterMap (buildUsage i.Options.User vm keys)
            ∧ (i.importLoop vm keys (records.map ReadResult.record ++ ReadResult.error e :: rest)
                bulk w).2.log
              = w.log ++ calls.map (fun c => Event.BulkInsert vm.SqlBase vm.SqlValues c none))
      ∨ ∃ (evs : List Event) (entities : List (List Value)) (e1 : Err),
          (i.importLoop vm keys (records.map ReadResult.record ++ ReadResult.error e :: rest)
              bulk w).2.log
            = w.log ++ (evs ++ [Event.BulkInsert vm.SqlBase vm.SqlValues entities (some e1)]) := by
  induction records with
  | nil =>
    intro bulk w hlt _
    simp only [List.map_nil, List.nil_append, ImporterStepService.importLoop]
    exact Or.inl ⟨trivial, [], bulk, by simp, hlt, by simp, by simp⟩
  | cons r rs ih =>
    intro bulk w hlt hmap
    obtain ⟨row, hrow⟩ := Option.isSome_iff_exists.mp (hmap r (List.mem_cons_self _ _))
    have hmap1 : ∀ r1 ∈ rs, (buildUsage i.Options.User vm keys r1).isSome = true :=
      fun r1 h1 => hmap r1 (List.mem_cons_of_mem _ h1)
    simp only [List.map_cons, List.cons_append, ImporterStepService.importLoop, hrow,
      List.filterMap_cons_some hrow]
    by_cases hfull : (bulk ++ [row]).length = 10
    · simp only [if_pos hfull, BillingDB.BulkInsert, World.emit]
      generalize i.billingDB.BillingTransactionDB.BulkInsert _ _ _ _ = rb
      rcases rb with ⟨eb, sb⟩
      cases eb with
      | some e1 => exact Or.inr ⟨[], bulk ++ [row], e1, by simp⟩
      | none =>
        simp only []
        rcases ih [] ⟨sb, w.log ++ [Event.BulkInsert vm.SqlBase vm.SqlValues (bulk ++ [row]) none],
          w.nowCount⟩ (by simp) hmap1 with ⟨hret, calls, pending, hcalls, hp, hflat, hlog⟩
          | ⟨evs, entities, e1, hlog⟩
        · refine Or.inl ⟨hret, (bulk ++ [row]) :: calls, pending, ?_, hp, ?_, ?_⟩
          · intro c hc
            rcases List.mem_cons.mp hc with rfl | hc
            · exact hfull
            · exact hcalls c hc
          · simp only [List.nil_append] at hflat
            simp only [List.flatten_cons, List.append_assoc, hflat]
            simp
          · refine hlog.trans ?_
            simp
        · refine Or.inr ⟨Event.BulkInsert vm.SqlBase vm.SqlValues (bulk ++ [row]) none :: evs,
            entities, e1, ?_⟩
          refine hlog.trans ?_
          simp
    · simp only [if_neg hfull]
      rcases ih (bulk ++ [row]) w (by
          simp only [List.length_append, List.length_singleton] at hfull ⊢
          omega) hmap1 with ⟨hret, calls, pending, hcalls, hp, hflat, hlog⟩
        | ⟨evs, entities, e1, hlog⟩
      · exact Or.inl ⟨hret, calls, pending, hcalls, hp, by rw [hflat]; simp, hlog⟩
      · exact Or.inr ⟨evs, entities, e1, hlog⟩

/-- `ExecuteImportStep` is its stages in sequence: `startStage`, `executeImport`, and
`finalize` when the import returned nil. -/
theorem ExecuteImportStep_stages (i : ImporterStepService σ) (vm : VendorMapper)
    (w : World σ) (data : Option ReadCloser) (prev step : Step) (W : World σ)
    (hstart : i.startStage w = (Except.ok (data, prev, step), W)) :
    i.ExecuteImportStep vm w
      = match (i.executeImport data vm W).1 with
        | Outcome.panicked => ((Outcome.panicked, none), (i.executeImport data vm W).2)
        | Outcome.returned (some e) =>
          ((Outcome.returned (some e), some e), (i.executeImport data vm W).2)
        | Outcome.returned none =>
          i.finalize step prev.FileID.Int64 (i.executeImport data vm W).2 := by
  unfold ImporterStepService.startStage at hstart
  unfold ImporterStepService.ExecuteImportStep ImporterStepService.finalize
  generalize i.getStepType w = g at hstart ⊢
  rcases g with ⟨⟨st, ge⟩, gw⟩
  cases ge with
  | some e => simp at hstart
  | none =>
    simp only [] at hstart ⊢
    generalize i.stepService.callFetchUnprocessedFileByStepType st gw = f at hstart ⊢
    rcases f with ⟨⟨fd, fp, fe⟩, fw⟩
    cases fe with
    | some e => simp at hstart
    | none =>
      simp only [] at hstart ⊢
      generalize i.startImportStep st fp.CollectionJobID fw = s at hstart ⊢
      rcases s with ⟨⟨ss, se⟩, sw⟩
      cases se with
      | some e => simp at hstart
      | none =>
        simp only [Prod.mk.injEq, Except.ok.injEq] at hstart
        obtain ⟨⟨rfl, rfl, rfl⟩, rfl⟩ := hstart
        rfl

/-- C19: when the step of a run was started and `executeImport` fails with `e`,
`ExecuteImportStep` returns `e` and stops where `executeImport` stopped, so that
after the start of the step it made `BulkInsert` calls only (no
`UpdateStepToSuccessWithFileID`, no `UpdateStepToError`); `e` is the error of a failed
read, the full batches of ten rows read before it having been inserted and the rows
accumulated since not, or the error of the last `BulkInsert` call, every call before
it having inserted a full batch. Conversely, on every input, a `BulkInsert` call that
fails is the last call and its error is returned; and a read that fails after records
that could be mapped, no `BulkInsert` having failed, ends the call with the error of
the read, full batches only having been inserted. -/
theorem C19_import_error_aborts (i : ImporterStepService σ) (vm : VendorMapper)
    (w : World σ) (data : Option ReadCloser) (prev step : Step) (W : World σ) (e : Err)
    (hstart : i.startStage w = (Except.ok (data, prev, step), W))
    (herr : (i.executeImport data vm W).1 = Outcome.returned (some e)) :
    i.ExecuteImportStep vm w
      = ((Outcome.returned (some e), some e), (i.executeImport data vm W).2)
    ∧ (newEvents W (i.ExecuteImportStep vm w).2).all Event.isBulkInsert = true
    ∧ (∃ (d : ReadCloser) (calls : List (List (List Value))) (records : List (List String))
        (rest : List ReadResult) (pending : List (List Value)),
        data = some d
        ∧ d.stream = records.map ReadResult.record ++ rest
        ∧ (∀ c ∈ calls, c.length = 10)
        ∧ calls.flatten ++ pending
            = records.filterMap (buildUsage i.Options.User vm vm.keys)
        ∧ ((∃ rest1, rest = ReadResult.error e :: rest1) ∧ pending.length < 10
            ∧ newEvents W (i.executeImport data vm W).2
              = calls.map (fun c => Event.BulkInsert vm.SqlBase vm.SqlValues c none)
          ∨ newEvents W (i.executeImport data vm W).2
              = calls.map (fun c => Event.BulkInsert vm.SqlBase vm.SqlValues c none)
                ++ [Event.BulkInsert vm.SqlBase vm.SqlValues pending (some e)]))
    ∧ (∀ (d : ReadCloser) (w0 : World σ) (b v : String) (entities : List (List Value))
        (e1 : Err),
        Event.BulkInsert b v entities (some e1)
            ∈ newEvents w0 (i.executeImport (some d) vm w0).2 →
        (i.executeImport (some d) vm w0).1 = Outcome.returned (some e1)
        ∧ ∃ calls : List (List (List Value)), (∀ c ∈ calls, c.length = 10)
          ∧ newEvents w0 (i.executeImport (some d) vm w0).2
            = calls.map (fun c => Event.BulkInsert vm.SqlBase vm.SqlValues c none)
              ++ [Event.BulkInsert b v entities (some e1)])
    ∧ (∀ (d : ReadCloser) (w0 : World σ) (records : List (List String)) (e1 : Err)
        (rest : List ReadResult),
        d.stream = records.map ReadResult.record ++ ReadResult.error e1 :: rest →
        (∀ r ∈ records, (buildUsage i.Options.User vm vm.keys r).isSome = true) →
        (∀ b v entities e2, Event.BulkInsert b v entities (some e2)
            ∉ newEvents w0 (i.executeImport (some d) vm w0).2) →
        (i.executeImport (some d) vm w0).1 = Outcome.returned (some e1)
        ∧ ∃ (calls : List (List (List Value))) (pending : List (List Value)),
            (∀ c ∈ calls, c.length = 10) ∧ pending.length < 10
            ∧ calls.flatten ++ pending
                = records.filterMap (buildUsage i.Options.User vm vm.keys)
            ∧ newEvents w0 (i.executeImport (some d) vm w0).2
              = calls.map (fun c => Event.BulkInsert vm.SqlBase vm.SqlValues c none)) := by
  have hrun : i.ExecuteImportStep vm w
      = ((Outcome.returned (some e), some e), (i.executeImport data vm W).2) := by
    rw [ExecuteImportStep_stages i vm w data prev step W hstart, herr]
  have hnot : ∀ (calls : List (List (List Value))) (b v : String) (c : List (List Value))
      (e1 : Err), Event.BulkInsert b v c (some e1)
        ∉ calls.map (fun c => Event.BulkInsert vm.SqlBase vm.SqlValues c none) := by
    intro calls b v c e1 h
    simp at h
  refine ⟨hrun, ?_, ?_, ?_, ?_⟩
  · rw [hrun]
    cases data with
    | none => simp [ImporterStepService.executeImport] at herr
    | some d =>
      obtain ⟨calls, records, rest, pending, tail, _, _, _, _, hlog, hend⟩ :=
        importLoop_trace i vm vm.keys d.stream [] W (by simp)
      show (newEvents W (i.importLoop vm vm.keys d.stream [] W).2).all Event.isBulkInsert = true
      rw [newEvents_of_log W _ _ hlog]
      rcases hend with ⟨rfl, _⟩ | ⟨err, rfl, _⟩ <;> simp [Event.isBulkInsert]
  · cases data with
    | none => simp [ImporterStepService.executeImport] at herr
    | some d =>
      obtain ⟨calls, records, rest, pending, tail, hs, _, hcalls, hflat, hlog, hend⟩ :=
        importLoop_trace i vm vm.keys d.stream [] W (by simp)
      have hout : (i.importLoop vm vm.keys d.stream [] W).1 = Outcome.returned (some e) := herr
      refine ⟨d, calls, records, rest, pending, rfl, hs, hcalls, by simpa using hflat, ?_⟩
      have hev : newEvents W (i.executeImport (some d) vm W).2
          = calls.map (fun c => Event.BulkInsert vm.SqlBase vm.SqlValues c none) ++ tail :=
        newEvents_of_log W _ _ hlog
      rw [hev]
      rw [hout] at hend
      rcases hend with ⟨rfl, hp, h | ⟨e0, rest1, hr, he⟩ | ⟨r, rest1, _, _, h⟩⟩
        | ⟨err, rfl, he, _⟩
      · simp at h
      · injection he with he
        injection he with he
        subst he
        exact Or.inl ⟨⟨rest1, hr⟩, hp, List.append_nil _⟩
      · cases h
      · injection he with he
        subst he
        exact Or.inr rfl
  · intro d w0 b v entities e1 hmem
    obtain ⟨calls, records, rest, pending, tail, _, _, hcalls, _, hlog, hend⟩ :=
      importLoop_trace i vm vm.keys d.stream [] w0 (by simp)
    have hev : newEvents w0 (i.executeImport (some d) vm w0).2
        = calls.map (fun c => Event.BulkInsert vm.SqlBase vm.SqlValues c none) ++ tail :=
      newEvents_of_log w0 _ _ hlog
    rw [hev] at hmem ⊢
    rcases List.mem_append.mp hmem with h | h
    · exact absurd h (hnot _ _ _ _ _)
    · rcases hend with ⟨rfl, _⟩ | ⟨err, rfl, he, _⟩
      · simp at h
      · rw [List.mem_singleton] at h
        injection h with h1 h2 h3 h4
        subst h1 h2 h3 h4
        exact ⟨he, calls, hcalls, rfl⟩
  · intro d w0 records e1 rest hs hmap hno
    have hrun0 : i.executeImport (some d) vm w0
        = i.importLoop vm vm.keys (records.map ReadResult.record ++ ReadResult.error e1 :: rest)
            [] w0 := by
      simp [ImporterStepService.executeImport, hs]
    rw [hrun0] at hno ⊢
    rcases importLoop_read_error i vm vm.keys e1 rest records [] w0 (by simp) hmap with
      ⟨hret, calls, pending, hcalls, hp, hflat, hlog⟩ | ⟨evs, entities, e2, hlog⟩
    · exact ⟨hret, calls, pending, hcalls, hp, by simpa using hflat,
        newEvents_of_log w0 _ _ hlog⟩
    · exact absurd (by rw [newEvents_of_log w0 _ _ hlog]; simp) (hno vm.SqlBase vm.SqlValues entities e2)

/-- C19 on the scripted run whose only `BulkInsert` fails: the error of the insert is
returned. -/
theorem C19_import_error_aborts_witness :
    (Script.insertFails.service.importer.ExecuteImportStep VendorMapper.sample World.init).1
      = (Outcome.returned (some (Err.other "insert")), some (Err.other "insert")) :=
  congrArg Prod.fst
    (C19_import_error_aborts Script.insertFails.service.importer VendorMapper.sample World.init
      (some ⟨"in/b.csv", [ReadResult.record ["x", "y"]]⟩)
      ⟨16, 3, 2, 0, 1, ⟨16, true⟩, "FINISHED", ""⟩
      ⟨1, 4, 2, 60, 0, ⟨0, false⟩, "IN PROGRESS", ""⟩
      (Script.insertFails.service.importer.startStage World.init).2
      (Err.other "insert") (Prod.ext rfl rfl) (by decide)).1

/-- `GetChecksumByName` makes ordinary calls only. -/
theorem GetChecksumByName_ordinary (sys : Sys σ) (name : String) (w : World σ) :
    ∃ evs, (GetChecksumByName sys name w).2.log = w.log ++ evs
      ∧ evs.all Event.isOrdinary = true := by
  unfold GetChecksumByName GetChecksum
  simp only [Sys.callOpen, Sys.callHashCopy, Sys.callClose, World.emit]
  generalize sys.Open _ _ = ro
  rcases ro with ⟨o, so⟩
  cases o with
  | error e =>
    simp only []
    split <;> exact ⟨_, rfl, by simp [Event.isOrdinary]⟩
  | file f =>
    simp only []
    generalize sys.HashCopy _ _ = rh
    rcases rh with ⟨⟨d, eh⟩, sh⟩
    cases eh <;> exact ⟨_, by simp only [List.append_assoc]; rfl, by simp [Event.isOrdinary]⟩

/-- The loop of `FetchUnprocessedFileByStepType` makes ordinary calls only. -/
theorem scanFiles_ordinary (i : StepServiceImpl σ) (stepType : StepType)
    (l : List FileInfo) :
    ∀ prev w, ∃ evs, (i.scanFiles stepType l prev w).2.log = w.log ++ evs
      ∧ evs.all Event.isOrdinary = true := by
  induction l with
  | nil => intro prev w; exact ⟨[], by simp [StepServiceImpl.scanFiles], rfl⟩
  | cons a l ih =>
    intro prev w
    rw [StepServiceImpl.scanFiles]
    simp only []
    obtain ⟨evc, hcl, hcf⟩ := GetChecksumByName_ordinary i.sys
      (i.sys.Join i.Options.InputFolder (i.sys.Clean a.Name)) w
    generalize GetChecksumByName i.sys _ w = rc at hcl ⊢
    rcases rc with ⟨⟨c, ec⟩, wc⟩
    simp only [] at hcl
    cases ec with
    | some e => exact ⟨evc, hcl, hcf⟩
    | none =>
      simp only [BillingDB.FileFetchByChecksum, BillingDB.FetchByFileIDAndNoNextStep,
        Sys.callOpen, World.emit]
      generalize i.billingDB.FileRepository.FetchByChecksum _ _ = rf
      rcases rf with ⟨⟨file, ef⟩, sf⟩
      have hskip : ∀ (p : Step) (W : World σ) (evs : List Event), W.log = w.log ++ evs →
          evs.all Event.isOrdinary = true →
          ∃ evs1, (i.scanFiles stepType l p W).2.log = w.log ++ evs1
            ∧ evs1.all Event.isOrdinary = true := by
        intro p W evs hW hevs
        obtain ⟨evs2, h2, h2f⟩ := ih p W
        exact ⟨evs ++ evs2, by rw [h2, hW, List.append_assoc], by simp [hevs, h2f]⟩
      rcases ef with _ | ef
      · simp only []
        generalize i.billingDB.StepRepository.FetchByFileIDAndNoNextStep _ _ _ _ = rn
        rcases rn with ⟨⟨step, en⟩, sn⟩
        rcases en with _ | en
        · simp only []
          generalize i.sys.Open _ _ = ro
          rcases ro with ⟨o, so⟩
          cases o <;>
            exact ⟨evc ++ _, by simp only [hcl, List.append_assoc]; rfl,
              by simp [hcf, Event.isOrdinary]⟩
        · cases en <;> first
            | exact hskip _ _ (evc ++ _) (by simp only [hcl, List.append_assoc]; rfl)
                (by simp [hcf, Event.isOrdinary])
            | exact ⟨evc ++ _, by simp only [hcl, List.append_assoc]; rfl,
                by simp [hcf, Event.isOrdinary]⟩
      · cases ef <;> first
          | exact hskip _ _ (evc ++ _) (by simp only [hcl, List.append_assoc]; rfl)
              (by simp [hcf, Event.isOrdinary])
          | exact ⟨evc ++ _, by simp only [hcl, List.append_assoc]; rfl,
              by simp [hcf, Event.isOrdinary]⟩

/-- `FetchUnprocessedFileByStepType` makes ordinary calls only. -/
theorem FetchUnprocessed_ordinary (i : StepServiceImpl σ) (stepType : StepType)
    (w : World σ) :
    ∃ evs, (i.FetchUnprocessedFileByStepType stepType w).2.log = w.log ++ evs
      ∧ evs.all Event.isOrdinary = true := by
  unfold StepServiceImpl.FetchUnprocessedFileByStepType ListFilesInFolder
  simp only [Sys.callReadDir, World.emit]
  generalize i.sys.ReadDir _ _ = rd
  rcases rd with ⟨⟨fs, ed⟩, sd⟩
  cases ed with
  | some e => exact ⟨_, rfl, by simp [Event.isOrdinary]⟩
  | none =>
    simp only []
    obtain ⟨evs, h, hf⟩ := scanFiles_ordinary i stepType
      (i.sys.SortSlice byModTime (fs.filter fun finfo => !finfo.IsDir)) Step.zero
      ⟨sd, w.log ++ [Event.ReadDir i.Options.InputFolder], w.nowCount⟩
    exact ⟨[Event.ReadDir i.Options.InputFolder] ++ evs, by rw [h, List.append_assoc],
      by simp [hf, Event.isOrdinary]⟩

/-- `startImportStep` makes ordinary calls only. -/
theorem startImportStep_ordinary (svc : StepServiceImpl σ) (stepType : StepType) (j : Int)
    (w : World σ) :
    ∃ evs, (svc.importer.startImportStep stepType j w).2.log = w.log ++ evs
      ∧ evs.all Event.isOrdinary = true := by
  have hR : ∀ (s : Step) (W : World σ) (ev : Event), W.log = w.log ++ [ev] →
      ev.isOrdinary = true →
      ∃ evs, (svc.importer.stepService.callRestartStep s W).2.log = w.log ++ evs
        ∧ evs.all Event.isOrdinary = true := by
    intro s W ev hW hev
    obtain ⟨evs, h1, h2⟩ := callRestartStep_footprint svc s W
    refine ⟨ev :: Event.RestartStep s :: evs, by rw [h1, hW]; simp, ?_⟩
    have := all_imp Event.isStepTx Event.isOrdinary evs h2
      (by intro e; cases e <;> simp [Event.isStepTx, Event.isOrdinary])
    simp only [List.all_cons, hev, this]
    simp [Event.isOrdinary]
  have hC : ∀ (W : World σ) (ev : Event), W.log = w.log ++ [ev] →
      ev.isOrdinary = true →
      ∃ evs, (svc.importer.createNewImportStep stepType j W).2.log = w.log ++ evs
        ∧ evs.all Event.isOrdinary = true := by
    intro W ev hW hev
    obtain ⟨h1, h2⟩ := createNewImportStep_footprint svc.importer stepType j W
    refine ⟨ev :: newEvents W (svc.importer.createNewImportStep stepType j W).2,
      by rw [h1, hW]; simp, ?_⟩
    have := all_imp Event.isNewImportStep Event.isOrdinary _ h2
      (by intro e; cases e <;> simp [Event.isNewImportStep, Event.isOrdinary])
    simp only [List.all_cons, hev, this]
    rfl
  unfold ImporterStepService.startImportStep
  simp only [BillingDB.FetchUnfinishedBySourceAndType, World.emit]
  generalize svc.importer.billingDB.StepRepository.FetchUnfinishedBySourceAndType _ _ _ _ = r
  rcases r with ⟨⟨found, err⟩, st1⟩
  simp only []
  cases err with
  | none =>
    simp only []
    split
    · exact hR _ _ _ rfl rfl
    · exact hC _ _ rfl rfl
  | some e =>
    cases e <;> first
      | exact hC _ _ rfl rfl
      | exact ⟨_, rfl, by simp [Event.isOrdinary]⟩

/-- Up to the start of the import step, an engine over the step service makes ordinary
calls only. -/
theorem startStage_ordinary (svc : StepServiceImpl σ) (w : World σ) :
    ∃ evs, (svc.importer.startStage w).2.log = w.log ++ evs
      ∧ evs.all Event.isOrdinary = true := by
  unfold ImporterStepService.startStage ImporterStepService.getStepType
  simp only [BillingDB.StepTypeFetch, World.emit]
  generalize svc.importer.billingDB.StepTypeRepository.Fetch _ _ = rt
  rcases rt with ⟨⟨st, et⟩, s1⟩
  cases et with
  | some e => exact ⟨_, rfl, by simp [Event.isOrdinary]⟩
  | none =>
    simp only []
    by_cases hsrc : st.SourceID ≠ svc.importer.Options.SourceID
    · simp only [if_pos hsrc]
      exact ⟨_, rfl, by simp [Event.isOrdinary]⟩
    · simp only [if_neg hsrc]
      obtain ⟨evs, h1, h2⟩ := FetchUnprocessed_ordinary svc st
        ⟨s1, w.log ++ [Event.StepTypeFetch svc.importer.Options.StepTypeID]
          ++ [Event.FetchUnprocessedFileByStepType st], w.nowCount⟩
      have hf : (svc.importer.stepService.callFetchUnprocessedFileByStepType st
          ⟨s1, w.log ++ [Event.StepTypeFetch svc.importer.Options.StepTypeID], w.nowCount⟩).2.log
          = w.log ++ ([Event.StepTypeFetch svc.importer.Options.StepTypeID,
              Event.FetchUnprocessedFileByStepType st] ++ evs) := by
        refine h1.trans ?_
        simp
      generalize svc.importer.stepService.callFetchUnprocessedFileByStepType st _ = f at hf ⊢
      rcases f with ⟨⟨fd, fp, fe⟩, fw⟩
      simp only [] at hf
      cases fe with
      | some e => exact ⟨_, hf, by simp [h2, Event.isOrdinary]⟩
      | none =>
        simp only []
        obtain ⟨evs2, h3, h4⟩ := startImportStep_ordinary svc st fp.CollectionJobID fw
        have hs : (svc.importer.startImportStep st fp.CollectionJobID fw).2.log
            = w.log ++ ([Event.StepTypeFetch svc.importer.Options.StepTypeID,
                Event.FetchUnprocessedFileByStepType st] ++ evs ++ evs2) := by
          rw [h3, hf]
          simp
        have hall : ([Event.StepTypeFetch svc.importer.Options.StepTypeID,
            Event.FetchUnprocessedFileByStepType st] ++ evs ++ evs2).all Event.isOrdinary
            = true := by
          simp [h2, h4, Event.isOrdinary]
        generalize svc.importer.startImportStep st fp.CollectionJobID fw = s at hs ⊢
        rcases s with ⟨⟨ss, se⟩, sw⟩
        cases se <;> exact ⟨_, hs, hall⟩

theorem filter_nil_of_all (P Q : Event → Bool) (evs : List Event) (h : evs.all P = true)
    (hPQ : ∀ e, P e = true → Q e = false) : evs.filter Q = [] := by
  rw [List.all_eq_true] at h
  rw [List.filter_eq_nil_iff]
  intro e he
  simp [hPQ e (h e he)]

/-- What an `UpdateStepToSuccessWithFileID` call of the engine records: the call, then
transaction calls and `StepRepository.Update` only. -/
theorem callUpdateStepToSuccessWithFileID_footprint (svc : StepServiceImpl σ) (s : Step)
    (f : Int) (w : World σ) :
    ∃ evs, (svc.importer.stepService.callUpdateStepToSuccessWithFileID s f w).2.log
        = w.log ++ (Event.UpdateStepToSuccessWithFileID s f :: evs)
      ∧ evs.all Event.isStepTx = true := by
  obtain ⟨h1, h2⟩ := UpdateStepToSuccessWithFileID_footprint svc s f
    (w.emit w.st (Event.UpdateStepToSuccessWithFileID s f))
  refine ⟨_, ?_, h2⟩
  show (svc.UpdateStepToSuccessWithFileID s f
    (w.emit w.st (Event.UpdateStepToSuccessWithFileID s f))).2.log = _
  rw [h1]
  simp [World.emit]

/-- What an `UpdateStepToError` call of the engine records: the call, then transaction
calls and `StepRepository.Update` only. -/
theorem callUpdateStepToError_footprint (svc : StepServiceImpl σ) (s : Step)
    (err : Option Err) (w : World σ) :
    ∃ evs, (svc.importer.stepService.callUpdateStepToError s err w).2.log
        = w.log ++ (Event.UpdateStepToError s err :: evs)
      ∧ evs.all Event.isStepTx = true := by
  obtain ⟨h1, h2⟩ := UpdateStepToError_footprint svc s err
    (w.emit w.st (Event.UpdateStepToError s err))
  refine ⟨_, ?_, h2⟩
  show (svc.UpdateStepToError s err (w.emit w.st (Event.UpdateStepToError s err))).2.log = _
  rw [h1]
  simp [World.emit]

/-- The calls of `executeImport` are `BulkInsert` calls. -/
theorem executeImport_footprint (i : ImporterStepService σ) (data : Option ReadCloser)
    (vm : VendorMapper) (w : World σ) :
    ∃ evs, (i.executeImport data vm w).2.log = w.log ++ evs
      ∧ evs.all Event.isBulkInsert = true := by
  cases data with
  | none => exact ⟨[], by simp [ImporterStepService.executeImport], rfl⟩
  | some d =>
    obtain ⟨calls, records, rest, pending, tail, _, _, _, _, hlog, hend⟩ :=
      importLoop_trace i vm vm.keys d.stream [] w (by simp)
    refine ⟨_, hlog, ?_⟩
    rcases hend with ⟨rfl, _⟩ | ⟨err, rfl, _⟩ <;> simp [Event.isBulkInsert]

/-- What the stages of a started run are: the step type was fetched, the step service
returned the file data and the producing step, and `startImportStep` returned the
started step for the collection job of the producing step. -/
theorem startStage_ok (i : ImporterStepService σ) (w : World σ) (data : Option ReadCloser)
    (prev step : Step) (W : World σ)
    (hstart : i.startStage w = (Except.ok (data, prev, step), W)) :
    ∃ (stepType : StepType) (w2 : World σ),
      (i.getStepType w).1 = (stepType, none)
      ∧ i.stepService.callFetchUnprocessedFileByStepType stepType (i.getStepType w).2
          = ((data, prev, none), w2)
      ∧ i.startImportStep stepType prev.CollectionJobID w2 = ((step, none), W) := by
  unfold ImporterStepService.startStage at hstart
  generalize i.getStepType w = g at hstart ⊢
  rcases g with ⟨⟨st, ge⟩, gw⟩
  cases ge with
  | some e => simp at hstart
  | none =>
    simp only [] at hstart ⊢
    generalize hf : i.stepService.callFetchUnprocessedFileByStepType st gw = f at hstart
    rcases f with ⟨⟨fd, fp, fe⟩, fw⟩
    cases fe with
    | some e => simp at hstart
    | none =>
      simp only [] at hstart
      generalize hs : i.startImportStep st fp.CollectionJobID fw = s at hstart
      rcases s with ⟨⟨ss, se⟩, sw⟩
      cases se with
      | some e => simp at hstart
      | none =>
        simp only [Prod.mk.injEq, Except.ok.injEq] at hstart
        obtain ⟨⟨rfl, rfl, rfl⟩, rfl⟩ := hstart
        exact ⟨st, fw, rfl, hf, hs⟩

/-- The trace of a started run up to the end of its finalization: ordinary calls, then
the `UpdateStepToSuccessWithFileID` call with its transaction calls, then, if made, the
`UpdateStepToError` call with its transaction calls. -/
theorem finalize_trace (svc : StepServiceImpl σ) (vm : VendorMapper) (w : World σ)
    (data : Option ReadCloser) (prev step : Step) (W : World σ) (f : Int)
    (hstart : svc.importer.startStage w = (Except.ok (data, prev, step), W)) :
    ∃ pre evsU, pre.all Event.isOrdinary = true ∧ evsU.all Event.isStepTx = true
      ∧ (svc.importer.stepService.callUpdateStepToSuccessWithFileID step f
            (svc.importer.executeImport data vm W).2).2.log
          = w.log ++ (pre ++ Event.UpdateStepToSuccessWithFileID step f :: evsU)
      ∧ ∀ err, ∃ evsV, evsV.all Event.isStepTx = true
        ∧ (svc.importer.stepService.callUpdateStepToError step err
            (svc.importer.stepService.callUpdateStepToSuccessWithFileID step f
              (svc.importer.executeImport data vm W).2).2).2.log
          = w.log ++ (pre ++ Event.UpdateStepToSuccessWithFileID step f :: evsU
              ++ Event.UpdateStepToError step err :: evsV) := by
  obtain ⟨evs0, h0, h0a⟩ := startStage_ordinary svc w
  rw [hstart] at h0
  simp only [] at h0
  obtain ⟨evsI, hI, hIa⟩ := executeImport_footprint svc.importer data vm W
  obtain ⟨evsU, hU, hUa⟩ := callUpdateStepToSuccessWithFileID_footprint svc step f
    (svc.importer.executeImport data vm W).2
  have hpre : (evs0 ++ evsI).all Event.isOrdinary = true := by
    have := all_imp Event.isBulkInsert Event.isOrdinary evsI hIa
      (by intro e; cases e <;> simp [Event.isBulkInsert, Event.isOrdinary])
    simp only [List.all_append, h0a, this]
    rfl
  have hUlog : (svc.importer.stepService.callUpdateStepToSuccessWithFileID step f
        (svc.importer.executeImport data vm W).2).2.log
      = w.log ++ (evs0 ++ evsI ++ Event.UpdateStepToSuccessWithFileID step f :: evsU) := by
    rw [hU, hI, h0]
    simp
  refine ⟨evs0 ++ evsI, evsU, hpre, hUa, hUlog, fun err => ?_⟩
  obtain ⟨evsV, hV, hVa⟩ := callUpdateStepToError_footprint svc step err
    (svc.importer.stepService.callUpdateStepToSuccessWithFileID step f
      (svc.importer.executeImport data vm W).2).2
  refine ⟨evsV, hVa, ?_⟩
  rw [hV, hUlog]
  simp

/-- C18: on every run in which an eligible file is found, the step is started and
`executeImport` returns nil, the events of `ExecuteImportStep` hold exactly one
`UpdateStepToSuccessWithFileID` call, on the started step and with the file id of the
producing step returned by `FetchUnprocessedFileByStepType` (`previousStep.FileID`);
no `FileRepository.Create` call is made; and when that call succeeds
`ExecuteImportStep` returns nil, having made no other call that ends a step. -/
theorem C18_success_attaches_input_file (svc : StepServiceImpl σ) (vm : VendorMapper)
    (w : World σ) (data : Option ReadCloser) (prev step : Step) (W : World σ)
    (hstart : svc.importer.startStage w = (Except.ok (data, prev, step), W))
    (himp : (svc.importer.executeImport data vm W).1 = Outcome.returned none) :
    (∃ (stepType : StepType) (w2 : World σ),
      svc.importer.stepService.callFetchUnprocessedFileByStepType stepType
          (svc.importer.getStepType w).2 = ((data, prev, none), w2)
      ∧ svc.importer.startImportStep stepType prev.CollectionJobID w2 = ((step, none), W))
    ∧ (newEvents w (svc.importer.ExecuteImportStep vm w).2).filter Event.isSuccessWithFileID
        = [Event.UpdateStepToSuccessWithFileID step prev.FileID.Int64]
    ∧ (newEvents w (svc.importer.ExecuteImportStep vm w).2).any Event.isFileCreate = false
    ∧ ((svc.importer.stepService.callUpdateStepToSuccessWithFileID step prev.FileID.Int64
          (svc.importer.executeImport data vm W).2).1.2 = none →
        (svc.importer.ExecuteImportStep vm w).1 = (Outcome.returned none, none)
        ∧ (newEvents w (svc.importer.ExecuteImportStep vm w).2).filter Event.isFinalization
          = [Event.UpdateStepToSuccessWithFileID step prev.FileID.Int64]) := by
  obtain ⟨stepType, w2, _, hf, hs⟩ := startStage_ok svc.importer w data prev step W hstart
  obtain ⟨pre, evsU, hpre, hUa, hU, hV⟩ :=
    finalize_trace svc vm w data prev step W prev.FileID.Int64 hstart
  have hrun := ExecuteImportStep_stages svc.importer vm w data prev step W hstart
  rw [himp] at hrun
  simp only [ImporterStepService.finalize] at hrun
  have p1 := filter_nil_of_all Event.isOrdinary Event.isSuccessWithFileID pre hpre
    (by intro e; cases e <;> simp [Event.isOrdinary, Event.isSuccessWithFileID])
  have p2 := filter_nil_of_all Event.isOrdinary Event.isFinalization pre hpre
    (by intro e; cases e <;> simp [Event.isOrdinary, Event.isFinalization])
  have p3 := any_false_of_all Event.isOrdinary Event.isFileCreate pre hpre
    (by intro e; cases e <;> simp [Event.isOrdinary, Event.isFileCreate])
  have u1 := filter_nil_of_all Event.isStepTx Event.isSuccessWithFileID evsU hUa
    (by intro e; cases e <;> simp [Event.isStepTx, Event.isSuccessWithFileID])
  have u2 := filter_nil_of_all Event.isStepTx Event.isFinalization evsU hUa
    (by intro e; cases e <;> simp [Event.isStepTx, Event.isFinalization])
  have u3 := any_false_of_all Event.isStepTx Event.isFileCreate evsU hUa
    (by intro e; cases e <;> simp [Event.isStepTx, Event.isFileCreate])
  refine ⟨⟨stepType, w2, hf, hs⟩, ?_⟩
  rw [hrun]
  cases hu : (svc.importer.stepService.callUpdateStepToSuccessWithFileID step
      prev.FileID.Int64 (svc.importer.executeImport data vm W).2).1.2 with
  | none =>
    simp only []
    rw [newEvents_of_log w _ _ hU]
    simp [List.filter_cons, p1, p2, p3, u1, u2, u3, Event.isSuccessWithFileID,
      Event.isFinalization, Event.isFileCreate]
  | some e1 =>
    simp only []
    obtain ⟨evsV, hVa, hVlog⟩ := hV (some e1)
    have v1 := filter_nil_of_all Event.isStepTx Event.isSuccessWithFileID evsV hVa
      (by intro e; cases e <;> simp [Event.isStepTx, Event.isSuccessWithFileID])
    have v3 := any_false_of_all Event.isStepTx Event.isFileCreate evsV hVa
      (by intro e; cases e <;> simp [Event.isStepTx, Event.isFileCreate])
    have hfin : ∀ x : (Outcome × Option Err) × World σ,
        x.2 = (svc.importer.stepService.callUpdateStepToError step (some e1)
          (svc.importer.stepService.callUpdateStepToSuccessWithFileID step prev.FileID.Int64
            (svc.importer.executeImport data vm W).2).2).2 →
        (newEvents w x.2).filter Event.isSuccessWithFileID
            = [Event.UpdateStepToSuccessWithFileID step prev.FileID.Int64]
        ∧ (newEvents w x.2).any Event.isFileCreate = false := by
      intro x hx
      rw [hx, newEvents_of_log w _ _ hVlog]
      simp [List.filter_cons, p1, p3, u1, u3, v1, v3, Event.isSuccessWithFileID,
        Event.isFileCreate]
    split
    · exact ⟨(hfin _ rfl).1, (hfin _ rfl).2, fun h => by cases h⟩
    · exact ⟨(hfin _ rfl).1, (hfin _ rfl).2, fun h => by cases h⟩

/-- C18 on the scripted run that creates a new import step and imports an empty
file: the run returns nil. -/
theorem C18_success_attaches_input_file_witness :
    (Script.newStep.service.importer.ExecuteImportStep VendorMapper.sample World.init).1
      = (Outcome.returned none, none) :=
  ((C18_success_attaches_input_file Script.newStep.service VendorMapper.sample World.init
      (some ⟨"in/b.csv", []⟩)
      ⟨16, 3, 2, 0, 1, ⟨16, true⟩, "FINISHED", ""⟩
      ⟨1, 4, 2, 60, 0, ⟨0, false⟩, "IN PROGRESS", ""⟩
      (Script.newStep.service.importer.startStage World.init).2
      (Prod.ext rfl rfl) (by decide)).2.2.2 (by decide)).1

/-- C17: when the import of a started run returned nil and the
`UpdateStepToSuccessWithFileID` call fails with `e1`, the calls of `ExecuteImportStep`
that end a step are that call and then one `UpdateStepToError` call on the started
step with `e1`; `ExecuteImportStep` returns `e2` when this second call failed with
`e2`, and `e1` when it succeeded; it does not return nil. -/
theorem C17_finalization_failure (svc : StepServiceImpl σ) (vm : VendorMapper)
    (w : World σ) (data : Option ReadCloser) (prev step : Step) (W : World σ) (e1 : Err)
    (hstart : svc.importer.startStage w = (Except.ok (data, prev, step), W))
    (himp : (svc.importer.executeImport data vm W).1 = Outcome.returned none)
    (hfail : (svc.importer.stepService.callUpdateStepToSuccessWithFileID step
        prev.FileID.Int64 (svc.importer.executeImport data vm W).2).1.2 = some e1) :
    (newEvents w (svc.importer.ExecuteImportStep vm w).2).filter Event.isFinalization
        = [Event.UpdateStepToSuccessWithFileID step prev.FileID.Int64,
           Event.UpdateStepToError step (some e1)]
    ∧ (∀ e2, (svc.importer.stepService.callUpdateStepToError step (some e1)
          (svc.importer.stepService.callUpdateStepToSuccessWithFileID step prev.FileID.Int64
            (svc.importer.executeImport data vm W).2).2).1.2 = some e2 →
        (svc.importer.ExecuteImportStep vm w).1 = (Outcome.returned (some e2), some e2))
    ∧ ((svc.importer.stepService.callUpdateStepToError step (some e1)
          (svc.importer.stepService.callUpdateStepToSuccessWithFileID step prev.FileID.Int64
            (svc.importer.executeImport data vm W).2).2).1.2 = none →
        (svc.importer.ExecuteImportStep vm w).1 = (Outcome.returned (some e1), some e1))
    ∧ (svc.importer.ExecuteImportStep vm w).1.1 ≠ Outcome.returned none := by
  obtain ⟨pre, evsU, hpre, hUa, hU, hV⟩ :=
    finalize_trace svc vm w data prev step W prev.FileID.Int64 hstart
  obtain ⟨evsV, hVa, hVlog⟩ := hV (some e1)
  have hrun := ExecuteImportStep_stages svc.importer vm w data prev step W hstart
  rw [himp] at hrun
  simp only [ImporterStepService.finalize, hfail] at hrun
  have p2 := filter_nil_of_all Event.isOrdinary Event.isFinalization pre hpre
    (by intro e; cases e <;> simp [Event.isOrdinary, Event.isFinalization])
  have u2 := filter_nil_of_all Event.isStepTx Event.isFinalization evsU hUa
    (by intro e; cases e <;> simp [Event.isStepTx, Event.isFinalization])
  have v2 := filter_nil_of_all Event.isStepTx Event.isFinalization evsV hVa
    (by intro e; cases e <;> simp [Event.isStepTx, Event.isFinalization])
  have hfin : (newEvents w (svc.importer.stepService.callUpdateStepToError step (some e1)
        (svc.importer.stepService.callUpdateStepToSuccessWithFileID step prev.FileID.Int64
          (svc.importer.executeImport data vm W).2).2).2).filter Event.isFinalization
      = [Event.UpdateStepToSuccessWithFileID step prev.FileID.Int64,
         Event.UpdateStepToError step (some e1)] := by
    rw [newEvents_of_log w _ _ hVlog]
    simp [List.filter_cons, p2, u2, v2, Event.isFinalization]
  rw [hrun]
  cases hv : (svc.importer.stepService.callUpdateStepToError step (some e1)
      (svc.importer.stepService.callUpdateStepToSuccessWithFileID step prev.FileID.Int64
        (svc.importer.executeImport data vm W).2).2).1.2 with
  | none =>
    simp only []
    exact ⟨hfin, fun e2 h => (by cases h), fun _ => trivial, by simp⟩
  | some e2 =>
    simp only []
    refine ⟨hfin, fun e3 h => ?_, fun h => (by cases h), by simp⟩
    injection h with h
    subst h
    rfl

/-- C17 on the scripted run whose `StepRepository.Update` fails: both calls fail and
the error of the second is returned. -/
theorem C17_finalization_failure_witness :
    (Script.updateFails.service.importer.ExecuteImportStep VendorMapper.sample World.init).1
      = (Outcome.returned (some (Err.other "update")), some (Err.other "update")) :=
  (C17_finalization_failure Script.updateFails.service VendorMapper.sample World.init
      (some ⟨"in/b.csv", []⟩)
      ⟨16, 3, 2, 0, 1, ⟨16, true⟩, "FINISHED", ""⟩
      ⟨1, 4, 2, 60, 0, ⟨0, false⟩, "IN PROGRESS", ""⟩
      (Script.updateFails.service.importer.startStage World.init).2 (Err.other "update")
      (Prod.ext rfl rfl) (by decide) (by decide)).2.1 (Err.other "update") (by decide)

/-- Over the step tables, `RestartStep` leaves the committed steps as they were or
rewrites the rows of the step's id to IN PROGRESS; the step types are untouched. -/
theorem StepTables_RestartStep (φ : StepFaults) (svc : StepServiceImpl StepTables)
    (hdb : svc.billingDB = StepTables.db φ) (s : Step) (w : World StepTables) :
    (svc.RestartStep s w).2.st.stepTypes = w.st.stepTypes
    ∧ ((svc.RestartStep s w).2.st.steps = w.st.steps
      ∨ ∃ s1 endDate, s1.ID = s.ID ∧ s1.Status = StepStatusInProgress
          ∧ (svc.RestartStep s w).2.st.steps
            = StepTables.applyWrite w.st.steps (StepWrite.update s1 endDate)) := by
  unfold StepServiceImpl.RestartStep
  simp only [hdb, BillingDB.NewTransaction, BillingDB.StepUpdate, BillingDB.HandleTx,
    BillingDB.CommitTransaction, BillingDB.RollbackTransaction, timeNow, World.emit,
    StepTables.db, StepTables.clear, StepTables.commit]
  generalize φ.newTx w.st = e0
  cases e0 with
  | some e =>
    simp only []
    generalize φ.rollback _ = e2
    cases e2 <;> exact ⟨rfl, Or.inl rfl⟩
  | none =>
    simp only []
    generalize φ.update _ = e1
    cases e1 with
    | some e =>
      simp only []
      generalize φ.rollback _ = e2
      cases e2 <;> exact ⟨rfl, Or.inl rfl⟩
    | none =>
      simp only []
      generalize φ.commit _ = e3
      cases e3 with
      | some e => exact ⟨rfl, Or.inl rfl⟩
      | none => refine ⟨rfl, Or.inr ⟨_, _, ?_, ?_, rfl⟩⟩ <;> rfl

/-- Over the step tables, `createNewImportStep` leaves the committed steps as they
were or adds one row, of the step type, the collection job and the configured user;
the step types are untouched. -/
theorem StepTables_createNewImportStep (φ : StepFaults) (i : ImporterStepService StepTables)
    (hdb : i.billingDB = StepTables.db φ) (stepType : StepType) (j : Int)
    (w : World StepTables) :
    (i.createNewImportStep stepType j w).2.st.stepTypes = w.st.stepTypes
    ∧ ((i.createNewImportStep stepType j w).2.st.steps = w.st.steps
      ∨ ∃ row : StepRow, row.createdBy = i.Options.User ∧ row.step.StepTypeID = stepType.ID
          ∧ row.step.CollectionJobID = j ∧ row.step.Status = w.st.stepDefaults.Status
          ∧ (i.createNewImportStep stepType j w).2.st.steps = w.st.steps ++ [row]) := by
  have hNew : ∀ st, i.billingDB.BillingTransactionDB.NewTransaction st
      = ((some 1, φ.newTx st), st.clear) := by
    intro st; rw [hdb]; rfl
  have hRollback : ∀ t st, i.billingDB.BillingTx.RollbackTransaction t st
      = (φ.rollback st, st.clear) := by
    intro t st; rw [hdb]; rfl
  have hCommit : ∀ t st, i.billingDB.BillingTx.CommitTransaction t st
      = (match φ.commit st with
        | some e => (some e, st.clear)
        | none => (none, st.commit)) := by
    intro t st; rw [hdb]; rfl
  have hCreate : ∀ a b c d st, i.billingDB.StepRepository.Create a b c d st
      = (match φ.create st with
        | some e => ((0, some e), st)
        | none => (((st.Create a b c).1, none), (st.Create a b c).2)) := by
    intro a b c d st; rw [hdb]; rfl
  have hJobFetch : ∀ a st, (i.billingDB.CollectionJobRepository.Fetch a st).2 = st := by
    intro a st; rw [hdb]
    show (match φ.select st with
      | some msg => ((_, some (Err.other msg)), st)
      | none => (st.JobFetch a, st)).2 = st
    split <;> rfl
  have hJobUpdate : ∀ a b c st, i.billingDB.CollectionJobRepository.Update a b c st
      = (match φ.jobUpdate st with
        | some e => (some e, st)
        | none => (none, { st with pendingJobs := st.pendingJobs ++ [a] })) := by
    intro a b c st; rw [hdb]; rfl
  have hStepFetch : ∀ a st, (i.billingDB.StepRepository.Fetch a st).2 = st := by
    intro a st; rw [hdb]
    show (match φ.select st with
      | some msg => ((_, some (Err.other msg)), st)
      | none => (st.StepFetch a, st)).2 = st
    split <;> rfl
  unfold ImporterStepService.createNewImportStep
  simp only [BillingDB.NewTransaction, hNew, World.emit]
  generalize φ.newTx w.st = e0
  cases e0 with
  | some e =>
    simp only [BillingDB.HandleTx, BillingDB.RollbackTransaction, hRollback, World.emit]
    generalize φ.rollback _ = e2
    cases e2 <;> exact ⟨rfl, Or.inl rfl⟩
  | none =>
    simp only [BillingDB.StepCreate, hCreate, World.emit]
    generalize φ.create _ = e1
    cases e1 with
    | some e =>
      simp only [BillingDB.HandleTx, BillingDB.RollbackTransaction, hRollback, World.emit]
      generalize φ.rollback _ = e2
      cases e2 <;> exact ⟨rfl, Or.inl rfl⟩
    | none =>
      simp only [BillingDB.CollectionJobFetch, World.emit]
      generalize hj : i.billingDB.CollectionJobRepository.Fetch j _ = rj
      have hj2 := hJobFetch j (w.st.clear.Create stepType.ID j i.Options.User).2
      rw [hj] at hj2
      rcases rj with ⟨⟨job, ej⟩, sj⟩
      simp only [] at hj2
      subst hj2
      cases ej with
      | some e =>
        simp only [BillingDB.HandleTx, BillingDB.RollbackTransaction, hRollback, World.emit]
        generalize φ.rollback _ = e2
        cases e2 <;> exact ⟨rfl, Or.inl rfl⟩
      | none =>
        simp only [BillingDB.CollectionJobUpdate, hJobUpdate, World.emit]
        generalize φ.jobUpdate _ = e4
        cases e4 with
        | some e =>
          simp only [BillingDB.HandleTx, BillingDB.RollbackTransaction, hRollback, World.emit]
          generalize φ.rollback _ = e2
          cases e2 <;> exact ⟨rfl, Or.inl rfl⟩
        | none =>
          simp only [BillingDB.HandleTx, BillingDB.CommitTransaction, hCommit, World.emit]
          generalize φ.commit _ = e5
          cases e5 with
          | some e => exact ⟨rfl, Or.inl rfl⟩
          | none =>
            simp only [BillingDB.StepFetch, World.emit, hStepFetch]
            refine ⟨rfl, Or.inr ⟨_, ?_, ?_, ?_, ?_, rfl⟩⟩ <;> rfl

/-- The unfinished steps of a combination depend on the committed steps and the step
types only. -/
theorem unfinished_congr (t1 t2 : StepTables) (hs : t1.steps = t2.steps)
    (ht : t1.stepTypes = t2.stepTypes) (sourceID stepTypeID : Int) (user : String) :
    t1.unfinished sourceID stepTypeID user = t2.unfinished sourceID stepTypeID user := by
  unfold StepTables.unfinished
  rw [hs]
  congr 1
  funext r
  simp [StepTables.isUnfinished, ht]

/-- Rewriting the one unfinished step of a combination to IN PROGRESS leaves the
unfinished steps of the combination as many as they were, when step ids are unique. -/
theorem unfinished_update (t1 t2 : StepTables) (ht : t2.stepTypes = t1.stepTypes)
    (hkey : t1.steps.Pairwise (fun a b => a.step.ID ≠ b.step.ID))
    (sourceID stepTypeID : Int) (user : String) (r : StepRow)
    (hr : r ∈ t1.unfinished sourceID stepTypeID user) (s1 : Step) (endDate : Time)
    (hid : s1.ID = r.step.ID) (hst : s1.Status = StepStatusInProgress)
    (hs : t2.steps = StepTables.applyWrite t1.steps (StepWrite.update s1 endDate)) :
    (t2.unfinished sourceID stepTypeID user).length
      = (t1.unfinished sourceID stepTypeID user).length := by
  have hrmem : r ∈ t1.steps := (List.mem_filter.mp hr).1
  have hrp : t1.isUnfinished sourceID stepTypeID user r = true := (List.mem_filter.mp hr).2
  have huniq : ∀ x ∈ t1.steps, x.step.ID = r.step.ID → x = r := by
    intro x hx hxid
    by_contra hne
    exact (List.Pairwise.forall (fun a b h => Ne.symm h) hkey hx hrmem hne) hxid
  unfold StepTables.unfinished
  rw [hs]
  simp only [StepTables.applyWrite, List.filter_map, List.length_map]
  congr 1
  apply List.filter_congr
  intro x hx
  simp only [Function.comp]
  by_cases hx1 : x.step.ID = s1.ID
  · have hxr : x = r := huniq x hx (hx1.trans hid)
    subst hxr
    rw [if_pos hx1, hrp]
    simp only [StepTables.isUnfinished, ht, hst] at hrp ⊢
    simp only [Bool.and_eq_true] at hrp ⊢
    exact ⟨⟨⟨hrp.1.1.1, hrp.1.1.2⟩, by decide⟩, hrp.2⟩
  · rw [if_neg hx1]
    simp [StepTables.isUnfinished, ht]

/-- C14, as stated, fails: with one unfinished step of the combination, which belongs
to the collection job 5, startImportStep for the collection job 2 creates a second
unfinished step of the same combination. -/
theorem C14_other_job_adds_unfinished_step :
    ¬ ((StepTables.sample.unfinished 1 4 "importer").length ≤ 1 →
        ((StepTables.sampleService.importer.startImportStep ⟨4, 1, "IMPORT", 4⟩ 2
            ⟨StepTables.sample, [], 0⟩).2.st.unfinished 1 4 "importer").length ≤ 1) := by
  decide

/-- C14 (amended): over the model of the step table, with unique step ids, if before
a call of startImportStep for the collection job j there is at most one unfinished
Step of the (source, step type, user) combination and that Step, if any, belongs to
the collection job j, then after the call, whatever failed and whether it restarted
the step or created one, there is still at most one unfinished Step of the
combination. -/
theorem C14_unfinished_step_stays_unique (φ : StepFaults) (svc : StepServiceImpl StepTables)
    (hdb : svc.billingDB = StepTables.db φ) (stepType : StepType) (j : Int)
    (w : World StepTables)
    (hone : (w.st.unfinished stepType.SourceID stepType.ID svc.Options.User).length ≤ 1)
    (hkey : w.st.steps.Pairwise (fun a b => a.step.ID ≠ b.step.ID))
    (hjob : ∀ r ∈ w.st.unfinished stepType.SourceID stepType.ID svc.Options.User,
      r.step.CollectionJobID = j) :
    ((svc.importer.startImportStep stepType j w).2.st.unfinished stepType.SourceID
        stepType.ID svc.Options.User).length ≤ 1 := by
  have hLook : ∀ a b c st,
      svc.importer.billingDB.StepRepository.FetchUnfinishedBySourceAndType a b c st
      = (match φ.select st with
        | some msg => ((Step.zero, some (Err.other msg)), st)
        | none => (st.FetchUnfinishedBySourceAndType a b c, st)) := by
    intro a b c st
    show svc.billingDB.StepRepository.FetchUnfinishedBySourceAndType a b c st = _
    rw [hdb]; rfl
  have hCreate : ∀ W : World StepTables, W.st = w.st →
      ((svc.importer.createNewImportStep stepType j W).2.st.unfinished stepType.SourceID
        stepType.ID svc.Options.User).length
      ≤ (w.st.unfinished stepType.SourceID stepType.ID svc.Options.User).length + 1 := by
    intro W hW
    obtain ⟨ht, hs | ⟨row, _, _, _, _, hs⟩⟩ :=
      StepTables_createNewImportStep φ svc.importer hdb stepType j W
    · rw [unfinished_congr _ w.st (hs.trans (by rw [hW])) (ht.trans (by rw [hW]))]
      omega
    · rw [hW] at hs ht
      unfold StepTables.unfinished
      rw [hs, List.filter_append, List.length_append]
      have h1 : (List.filter ((svc.importer.createNewImportStep stepType j W).2.st.isUnfinished
          stepType.SourceID stepType.ID svc.Options.User) w.st.steps)
          = List.filter (w.st.isUnfinished stepType.SourceID stepType.ID svc.Options.User)
              w.st.steps := by
        congr 1
        funext r
        simp [StepTables.isUnfinished, ht]
      rw [h1]
      have h2 := List.length_filter_le
        ((svc.importer.createNewImportStep stepType j W).2.st.isUnfinished
          stepType.SourceID stepType.ID svc.Options.User) [row]
      simp only [List.length_singleton] at h2
      omega
  unfold ImporterStepService.startImportStep
  simp only [BillingDB.FetchUnfinishedBySourceAndType, hLook, World.emit]
  generalize φ.select w.st = e0
  cases e0 with
  | some msg => exact hone
  | none =>
    simp only [StepTables.FetchUnfinishedBySourceAndType]
    cases hU : w.st.unfinished stepType.SourceID stepType.ID svc.importer.Options.User with
    | nil =>
      have hU1 : w.st.unfinished stepType.SourceID stepType.ID svc.Options.User = [] := hU
      simp only [List.head?_nil]
      have := hCreate ⟨w.st, w.log ++ [Event.StepFetchUnfinishedBySourceAndType
        stepType.SourceID stepType.ID svc.importer.Options.User], w.nowCount⟩ rfl
      rw [hU1] at this
      simpa using this
    | cons r rest =>
      have hU1 : w.st.unfinished stepType.SourceID stepType.ID svc.Options.User = r :: rest :=
        hU
      have hrj : r.step.CollectionJobID = j := hjob r (by rw [hU1]; exact List.mem_cons_self _ _)
      simp only [List.head?_cons, hrj, if_true]
      obtain ⟨ht, hs | ⟨s1, endDate, hid, hst, hs⟩⟩ := StepTables_RestartStep φ svc hdb r.step
        (World.emit ⟨w.st, w.log ++ [Event.StepFetchUnfinishedBySourceAndType
          stepType.SourceID stepType.ID svc.importer.Options.User], w.nowCount⟩ w.st
          (Event.RestartStep r.step))
      · show ((svc.RestartStep r.step _).2.st.unfinished _ _ _).length ≤ 1
        rw [unfinished_congr _ w.st hs ht]
        exact hone
      · show ((svc.RestartStep r.step _).2.st.unfinished _ _ _).length ≤ 1
        rw [unfinished_update w.st _ ht hkey stepType.SourceID stepType.ID svc.Options.User r
          (by rw [hU1]; exact List.mem_cons_self _ _) s1 endDate hid hst hs]
        exact hone

/-- C14 (amended) on the sample tables: the unfinished step belongs to the collection
job 5, and startImportStep for that job restarts it. -/
theorem C14_unfinished_step_stays_unique_witness :
    ((StepTables.sampleService.importer.startImportStep ⟨4, 1, "IMPORT", 4⟩ 5
        ⟨StepTables.sample, [], 0⟩).2.st.unfinished 1 4 "importer").length ≤ 1 :=
  C14_unfinished_step_stays_unique StepFaults.none StepTables.sampleService rfl
    ⟨4, 1, "IMPORT", 4⟩ 5 ⟨StepTables.sample, [], 0⟩ (by decide) (by decide) (by decide)

/-- The trace error of `ExecuteImportStep` once the step type is resolved: the error
returned, unless that is `ErrNoFileToTransform`; nil when nil is returned. -/
theorem ExecuteImportStep_trace_error (i : ImporterStepService σ) (vm : VendorMapper)
    (w : World σ) (hg : (i.getStepType w).1.2 = none) :
    (∀ e, (i.ExecuteImportStep vm w).1.1 = Outcome.returned (some e) →
        e ≠ Err.ErrNoFileToTransform → (i.ExecuteImportStep vm w).1.2 = some e)
    ∧ ((i.ExecuteImportStep vm w).1.1 = Outcome.returned none →
        (i.ExecuteImportStep vm w).1.2 = none) := by
  unfold ImporterStepService.ExecuteImportStep
  simp only [hg]
  generalize i.stepService.callFetchUnprocessedFileByStepType _ _ = f
  rcases f with ⟨⟨fd, fp, fe⟩, fw⟩
  cases fe with
  | some e => exact ⟨fun e1 h hne => (by simp_all), fun h => (by simp_all)⟩
  | none =>
    simp only []
    generalize i.startImportStep _ _ _ = s
    rcases s with ⟨⟨ss, se⟩, sw⟩
    cases se with
    | some e => exact ⟨fun e1 h _ => (by simp_all), fun h => (by simp_all)⟩
    | none =>
      simp only []
      generalize i.executeImport _ _ _ = x
      rcases x with ⟨xo, xw⟩
      cases xo with
      | panicked => exact ⟨fun e1 h => (by cases h), fun h => (by cases h)⟩
      | returned xe =>
        cases xe with
        | some e => exact ⟨fun e1 h _ => (by simp_all), fun h => (by simp_all)⟩
        | none =>
          simp only []
          generalize i.stepService.callUpdateStepToSuccessWithFileID _ _ _ = u
          rcases u with ⟨⟨us, ue⟩, uw⟩
          cases ue with
          | none => exact ⟨fun e1 h => (by cases h), fun _ => rfl⟩
          | some e =>
            simp only []
            generalize i.stepService.callUpdateStepToError _ _ _ = v
            rcases v with ⟨⟨vs, ve⟩, vw⟩
            cases ve with
            | some e2 => exact ⟨fun e1 h _ => (by simp_all), fun h => (by simp_all)⟩
            | none => exact ⟨fun e1 h _ => (by simp_all), fun h => (by simp_all)⟩

/-- C22 fails at the first stage: when the step type fetch fails, or the step type
belongs to another source (`ErrInvalidStepTypeID`), `ExecuteImportStep` returns that
error and the trace handed to the tracers has a nil `Error`, so that the run is logged
as a success and the error metric is not counted. -/
theorem C22_step_type_failure_is_not_traced (i : ImporterStepService σ) (vm : VendorMapper)
    (w : World σ) (e : Err) (hg : (i.getStepType w).1.2 = some e) :
    (i.ExecuteImportStep vm w).1 = (Outcome.returned (some e), none) := by
  unfold ImporterStepService.ExecuteImportStep
  simp only [hg]

/-- C22 on a step type of source 2 while the configured source is 1. -/
theorem C22_step_type_failure_is_not_traced_witness :
    (Script.otherSource.service.importer.ExecuteImportStep VendorMapper.sample World.init).1
      = (Outcome.returned (some Err.ErrInvalidStepTypeID), none) :=
  C22_step_type_failure_is_not_traced Script.otherSource.service.importer VendorMapper.sample
    World.init Err.ErrInvalidStepTypeID (by decide)

theorem String_length_eq_zero (s : String) : s.length = 0 ↔ s = "" := by
  constructor
  · intro h
    cases s with
    | mk l =>
      have : l = [] := List.length_eq_zero.mp h
      subst this
      rfl
  · intro h
    subst h
    rfl

/-- C24: for every Options value and every non-nil BillingDB, `importer.New` returns
(nil, ErrorNewInvalidOptions) if and only if Options.User is empty, or
Options.InputFolder is empty, or Options.SourceID < 1, or one of the BillingDB's
BillingTransactionDB, StepRepository, StepTypeRepository, FileRepository is nil;
otherwise it returns a nil error and a service holding exactly the given options,
step service and BillingDB. -/
theorem C24_New_validates (stepService : Option (StepService σ)) (options : Options)
    (billingDB : BillingDBFields σ) :
    (New stepService options (some billingDB) = some (none, some ErrorNewInvalidOptions) ↔
      options.User = "" ∨ options.InputFolder = "" ∨ options.SourceID < 1
      ∨ billingDB.BillingTransactionDB.isNone = true ∨ billingDB.StepRepository.isNone = true
      ∨ billingDB.StepTypeRepository.isNone = true ∨ billingDB.FileRepository.isNone = true)
    ∧ (¬ (options.User = "" ∨ options.InputFolder = "" ∨ options.SourceID < 1
        ∨ billingDB.BillingTransactionDB.isNone = true ∨ billingDB.StepRepository.isNone = true
        ∨ billingDB.StepTypeRepository.isNone = true ∨ billingDB.FileRepository.isNone = true) →
      New stepService options (some billingDB)
        = some (some ⟨options, billingDB, stepService⟩, none)) := by
  simp only [← String_length_eq_zero]
  unfold New validateOptions validateBillingDB
  by_cases h1 : options.User.length = 0 <;> by_cases h2 : options.InputFolder.length = 0 <;>
    by_cases h3 : options.SourceID < 1 <;>
    cases h4 : billingDB.BillingTransactionDB.isNone <;>
    cases h5 : billingDB.StepRepository.isNone <;>
    cases h6 : billingDB.StepTypeRepository.isNone <;>
    cases h7 : billingDB.FileRepository.isNone <;>
    simp [h1, h2, h3, h4, h5, h6, h7]

/-- In every state reached from a state with the flag set exactly while one execution
runs, the same holds. -/
theorem ServerState_run_invariant (actions : List ServerAction) :
    ∀ s s1 : ServerState, (s.executions ≤ 1 ∧ (s.processing = true ↔ s.executions = 1)) →
      s.run actions = some s1 →
      s1.executions ≤ 1 ∧ (s1.processing = true ↔ s1.executions = 1) := by
  induction actions with
  | nil =>
    intro s s1 h hr
    simp only [ServerState.run, Option.some.injEq] at hr
    exact hr ▸ h
  | cons a rest ih =>
    intro s s1 h hr
    simp only [ServerState.run] at hr
    cases hs : s.step a with
    | none => simp [hs] at hr
    | some s2 =>
      rw [hs] at hr
      refine ih s2 s1 ?_ hr
      cases a with
      | trigger =>
        simp only [ServerState.step] at hs
        split at hs
        · simp only [Option.some.injEq] at hs
          subst hs
          unfold StartImportStep
          by_cases hp : s.processing = true
          · simpa [hp] using h
          · have h0 : s.executions = 0 := by
              rcases h with ⟨h1, h2⟩
              have : s.executions ≠ 1 := fun h3 => hp (h2.mpr h3)
              omega
            simp [hp, h0]
        · cases hs
      | finish outcome =>
        simp only [ServerState.step] at hs
        split at hs
        · rename_i ha
          simp only [Option.some.injEq] at hs
          subst hs
          have h1 : s.executions = 1 := by omega
          simp [endExecution, h1]
        · cases hs

/-- C21: taking the test-and-set of the processing flag as one step: a trigger that
finds the flag clear is answered 200, sets the flag and starts one execution; a
trigger that finds the flag set is answered 503 and changes nothing; the end of an
execution clears the flag whatever the outcome. Hence in every state reached from
the start at most one execution is running and the flag is set exactly while one is,
and a trigger after the end of the run is answered 200 again. -/
theorem C21_single_run_in_flight (actions : List ServerAction) (s : ServerState)
    (hreach : ServerState.init.run actions = some s) :
    (s.executions ≤ 1 ∧ (s.processing = true ↔ s.executions = 1))
    ∧ (s.processing = false →
        StartImportStep s = ((200, "Import Step request enqueued"),
          { s with processing := true, executions := s.executions + 1 })
        ∧ (StartImportStep s).2.executions = 1)
    ∧ (s.processing = true → StartImportStep s = ((503, "Serve is busy. Try again later"), s))
    ∧ (∀ outcome, (endExecution outcome s).processing = false
        ∧ (endExecution outcome s).executions = s.executions - 1)
    ∧ (∀ err, (StartImportStep (endExecution (Outcome.returned err) s)).1.1 = 200) := by
  have hinv := ServerState_run_invariant actions ServerState.init s
    ⟨by decide, by decide⟩ hreach
  refine ⟨hinv, fun hp => ?_, fun hp => ?_, fun outcome => ⟨rfl, rfl⟩, fun err => ?_⟩
  · have h0 : s.executions = 0 := by
      rcases hinv with ⟨h1, h2⟩
      have : s.executions ≠ 1 := fun h3 => by simp [h2.mpr h3] at hp
      omega
    simp [StartImportStep, hp, h0]
  · simp [StartImportStep, hp]
  · simp [StartImportStep, endExecution]

/-- C21 on two triggers in a row, the end of the run and a third trigger: the answers
are 200, 503 and 200. -/
theorem C21_single_run_in_flight_witness :
    (StartImportStep ServerState.init).1.1 = 200
    ∧ (StartImportStep (StartImportStep ServerState.init).2).1.1 = 503
    ∧ (StartImportStep (endExecution (Outcome.returned none)
        (StartImportStep (StartImportStep ServerState.init).2).2)).1.1 = 200 :=
  ⟨by decide, by decide,
   (C21_single_run_in_flight [ServerAction.trigger, ServerAction.trigger]
      (StartImportStep (StartImportStep ServerState.init).2).2 (by decide)).2.2.2.2 none⟩

/-- The encoding of `hex.EncodeToString` has two characters per byte, each of them
one of 0-9a-f. -/
theorem hexEncodeToString_spec (bytes : List Nat) :
    (hexEncodeToString bytes).length = 2 * bytes.length
    ∧ ∀ c ∈ (hexEncodeToString bytes).toList, c ∈ hextable := by
  unfold hexEncodeToString
  induction bytes with
  | nil => simp
  | cons b bs ih =>
    obtain ⟨h1, h2⟩ := ih
    simp only [String.length_mk, String.toList] at h1 h2 ⊢
    refine ⟨by simp only [List.flatMap_cons, List.length_append, List.length_cons,
      List.length_nil, h1]; omega, ?_⟩
    intro c hc
    simp only [List.flatMap_cons, List.mem_append, List.mem_cons, List.mem_nil_iff,
      or_false] at hc
    have hdig : ∀ k, k < 16 → hextable.getD k '0' ∈ hextable := by
      intro k hk
      interval_cases k <;> decide
    rcases hc with (rfl | rfl) | hc
    · exact hdig _ (by omega)
    · exact hdig _ (by omega)
    · exact h2 c hc

/-- C23: for every stream read to its end without error, whose SHA-256 digest is
`digest` (32 bytes), `GetChecksum` returns with a nil error the hexadecimal encoding
of the first 16 bytes of the digest, a string of exactly 32 characters from 0-9a-f,
and the same string on every run in which the digest is the same; for a nil reader it
returns the empty string and ErrInvalidFilePointer. -/
theorem C23_GetChecksum_is_truncated_hex_digest (sys : Sys σ) (file : ReadCloser) (w : World σ)
    (digest : List Nat)
    (hsum : (sys.HashCopy file.name w.st).1 = (digest, none)) (hlen : digest.length = 32) :
    (GetChecksum sys (some file) w).1 = (hexEncodeToString (digest.take 16), none)
    ∧ (hexEncodeToString (digest.take 16)).length = 32
    ∧ (∀ c ∈ (hexEncodeToString (digest.take 16)).toList,
        c ∈ ['0', '1', '2', '3', '4', '5', '6', '7', '8', '9', 'a', 'b', 'c', 'd', 'e', 'f'])
    ∧ (∀ (τ : Type) (sys2 : Sys τ) (file2 : ReadCloser) (w2 : World τ),
        (sys2.HashCopy file2.name w2.st).1 = (digest, none) →
        (GetChecksum sys2 (some file2) w2).1 = (GetChecksum sys (some file) w).1)
    ∧ (GetChecksum sys none w).1 = ("", some Err.ErrInvalidFilePointer) := by
  have hrun : ∀ (τ : Type) (sys2 : Sys τ) (file2 : ReadCloser) (w2 : World τ),
      (sys2.HashCopy file2.name w2.st).1 = (digest, none) →
      (GetChecksum sys2 (some file2) w2).1 = (hexEncodeToString (digest.take 16), none) := by
    intro τ sys2 file2 w2 h
    simp [GetChecksum, Sys.callHashCopy, h]
  obtain ⟨h1, h2⟩ := hexEncodeToString_spec (digest.take 16)
  refine ⟨hrun σ sys file w hsum, ?_, h2, ?_, rfl⟩
  · rw [h1, List.length_take, hlen]
    decide
  · intro τ sys2 file2 w2 h
    rw [hrun τ sys2 file2 w2 h, hrun σ sys file w hsum]

/-- C23 on a file whose digest is 0, 8, 16, ..., 248. -/
theorem C23_GetChecksum_is_truncated_hex_digest_witness :
    (GetChecksum (Script.digest.sys : Sys Unit) (some ⟨"in/a.csv", []⟩) World.init).1
      = ("00081018202830384048505860687078", none) :=
  (C23_GetChecksum_is_truncated_hex_digest (Script.digest.sys : Sys Unit) ⟨"in/a.csv", []⟩
    World.init ((List.range 32).map (· * 8)) rfl (by decide)).1.trans (by decide)

theorem find_map_update (rows : List StepRow) (id : Int) (f : StepRow → StepRow)
    (hf : ∀ r, (f r).step.ID = r.step.ID) :
    (rows.map f).find? (fun r => r.step.ID == id)
      = (rows.find? (fun r => r.step.ID == id)).map f := by
  induction rows with
  | nil => rfl
  | cons r rs ih =>
    simp only [List.map_cons, List.find?_cons, hf]
    cases r.step.ID == id <;> simp [ih]

/-- C29 fails on the end date: over the step tables, after a committed
`StepRepository.Update` of `s`, a `Fetch` of `s.ID` returns the row with the start
date, file id, status and error of `s`, and with the end date `time.Now()` read by
`Update`, whatever `s.EndDate` is; the step type and the collection job of the row
are not written. -/
theorem C29_Update_binds_the_time_of_the_call (φ : StepFaults) (t : StepTables) (s found : Step)
    (user : String) (tx : Option Tx)
    (hsel : ∀ st, φ.select st = none) (hupd : φ.update t = none)
    (hcommit : ∀ st, φ.commit st = none) (hpending : t.pending = [])
    (hfound : t.StepFetch s.ID = (found, none)) :
    ((StepTables.db φ).StepRepository.Fetch s.ID
        ((StepTables.db φ).BillingTx.CommitTransaction 1
          ((StepTables.db φ).StepRepository.Update s user tx t).2).2).1
      = ({ found with StarteDate := s.StarteDate, EndDate := t.now, FileID := s.FileID,
                      Status := s.Status, Error := s.Error }, none) := by
  simp only [StepTables.db, hsel, hupd, hcommit, StepTables.commit, hpending, List.nil_append,
    List.foldl_cons, List.foldl_nil, StepTables.applyWrite, StepTables.StepFetch]
  unfold StepTables.StepFetch at hfound
  rw [find_map_update _ _ _ (by intro r; split <;> rfl)]
  cases hfind : t.steps.find? (fun r => r.step.ID == s.ID) with
  | none => simp [hfind] at hfound
  | some r =>
    rw [hfind] at hfound
    simp only [Prod.mk.injEq, and_true] at hfound
    have hid : r.step.ID = s.ID := by
      have := List.find?_some hfind
      simpa using this
    subst hfound
    simp [hid]

/-- C29 on the sample tables: the step 7 is updated with the end date 25 and comes
back with the end date 30, the time of the call. -/
theorem C29_Update_binds_the_time_of_the_call_witness :
    ((StepTables.db StepFaults.none).StepRepository.Fetch 7
        ((StepTables.db StepFaults.none).BillingTx.CommitTransaction 1
          ((StepTables.db StepFaults.none).StepRepository.Update
            ⟨7, 4, 5, 10, 25, ⟨16, true⟩, "FINISHED", ""⟩ "importer" (some 1)
            StepTables.sample).2).2).1
      = (⟨7, 4, 5, 10, 30, ⟨16, true⟩, "FINISHED", ""⟩, none) :=
  C29_Update_binds_the_time_of_the_call StepFaults.none StepTables.sample
    ⟨7, 4, 5, 10, 25, ⟨16, true⟩, "FINISHED", ""⟩
    ⟨7, 4, 5, 10, 20, ⟨0, false⟩, "ERROR", "broken"⟩ "importer" (some 1)
    (fun _ => rfl) rfl (fun _ => rfl) rfl rfl

/-- A successful finishing stage attaches the file id, creates no File, fetches the
File again exactly when the File value it was given has an id below 1, and returns
the File it was given or the one fetched. -/
theorem finishWithFileID_ok (i : StepServiceImpl σ) (s : Step) (file : File) (fid : Int)
    (tx : Option Tx) (w : World σ) (h : (i.finishWithFileID s file fid tx w).1.2.2 = none) :
    (i.finishWithFileID s file fid tx w).1.1.FileID = ⟨fid, true⟩
    ∧ ∃ evs, (i.finishWithFileID s file fid tx w).2.log = w.log ++ evs
      ∧ evs.any Event.isFileCreate = false
      ∧ (evs.any Event.isFileFetch = true ↔ file.ID < 1)
      ∧ (¬ file.ID < 1 → (i.finishWithFileID s file fid tx w).1.2.1 = file)
      ∧ (file.ID < 1 → Event.FileFetch fid ∈ evs
          ∧ ∃ st, (i.billingDB.FileRepository.Fetch fid st).1
              = ((i.finishWithFileID s file fid tx w).1.2.1, none)) := by
  unfold StepServiceImpl.finishWithFileID at h ⊢
  simp only [timeNow, BillingDB.StepUpdate, World.emit] at h ⊢
  generalize hu : i.billingDB.StepRepository.Update _ _ _ _ = ru at h ⊢
  rcases ru with ⟨eu, su⟩
  cases eu with
  | some e => exact absurd h (HandleTx_error _ _ _ _)
  | none =>
    simp only [] at h ⊢
    obtain ⟨-, hlog⟩ := HandleTx_log i.billingDB tx none
      ⟨su, w.log ++ [Event.StepUpdate { s with FileID := ⟨fid, true⟩,
                                               Status := StepStatusFinished, Error := "",
                                               EndDate := i.sys.clock w.nowCount }
          i.Options.User tx none], w.nowCount + 1⟩
    generalize i.billingDB.HandleTx tx none _ = rh at h hlog ⊢
    rcases rh with ⟨eh, Wh⟩
    simp only [] at hlog
    have hWh : ∃ evs, Wh.log = w.log ++ evs ∧ evs.any Event.isFileCreate = false
        ∧ evs.any Event.isFileFetch = false := by
      rcases hlog with h1 | ⟨t, x, h1⟩ | ⟨t, x, h1⟩
      · exact ⟨_, h1, by simp [Event.isFileCreate], by simp [Event.isFileFetch]⟩
      · exact ⟨_, h1.trans (List.append_assoc _ _ _), by simp [Event.isFileCreate],
          by simp [Event.isFileFetch]⟩
      · exact ⟨_, h1.trans (List.append_assoc _ _ _), by simp [Event.isFileCreate],
          by simp [Event.isFileFetch]⟩
    obtain ⟨evs, hevs, hc, hf⟩ := hWh
    cases eh with
    | some e => simp at h
    | none =>
      simp only [] at h ⊢
      by_cases hid : file.ID < 1
      · simp only [if_pos hid, BillingDB.FileFetch, World.emit] at h ⊢
        rcases hg : i.billingDB.FileRepository.Fetch fid Wh.st with ⟨⟨gf, ge⟩, sg⟩
        simp only [hg] at h ⊢
        cases ge with
        | some e => exact absurd h (HandleTx_error _ _ _ _)
        | none =>
          simp only [] at h ⊢
          refine ⟨trivial, evs ++ [Event.FileFetch fid], by simp [hevs],
            ?_, ?_, ?_, ?_⟩
          · simp [hc, Event.isFileCreate]
          · simp [hid, Event.isFileFetch]
          · intro hn; exact absurd hid hn
          · intro _; exact ⟨by simp, Wh.st, by rw [hg]⟩
      · simp only [if_neg hid] at h ⊢
        refine ⟨trivial, evs, hevs, hc, ?_, fun _ => trivial,
          fun hn => absurd hn hid⟩
        simp [hf, hid]

/-- C28: on every successful call of `UpdateStepToSuccessAndCreateFile`, the re-fetch
(`FileRepository.Fetch`) is made exactly when the File value the checksum lookup
produced has an id below 1. When the lookup found the checksum, the returned Step
carries the id of the File found and, that id being at least 1, the returned File is
the File found; when the lookup found no row, a File is created, the returned Step
carries the new id and, the lookup having left an id below 1, the returned File is
the one `FileRepository.Fetch` returned for the new id. -/
theorem C28_returned_file_is_the_attached_one (i : StepServiceImpl σ) (s : Step)
    (fm : FileMeta) (w : World σ)
    (h : (i.UpdateStepToSuccessAndCreateFile s fm w).1.2.2 = none) :
    ((newEvents w (i.UpdateStepToSuccessAndCreateFile s fm w).2).any Event.isFileFetch = true ↔
      (i.billingDB.FileFetchByChecksum fm.Checksum (i.billingDB.NewTransaction w).2).1.1.ID < 1)
    ∧ ((i.billingDB.FileFetchByChecksum fm.Checksum (i.billingDB.NewTransaction w).2).1.2 = none
        ∨ (i.billingDB.FileFetchByChecksum fm.Checksum (i.billingDB.NewTransaction w).2).1.2
            = some Err.ErrNoRows)
    ∧ ((i.billingDB.FileFetchByChecksum fm.Checksum (i.billingDB.NewTransaction w).2).1.2 = none →
        (i.UpdateStepToSuccessAndCreateFile s fm w).1.1.FileID
          = ⟨(i.billingDB.FileFetchByChecksum fm.Checksum
                (i.billingDB.NewTransaction w).2).1.1.ID, true⟩
        ∧ (newEvents w (i.UpdateStepToSuccessAndCreateFile s fm w).2).any Event.isFileCreate
            = false
        ∧ (¬ (i.billingDB.FileFetchByChecksum fm.Checksum
                (i.billingDB.NewTransaction w).2).1.1.ID < 1 →
            (i.UpdateStepToSuccessAndCreateFile s fm w).1.2.1
              = (i.billingDB.FileFetchByChecksum fm.Checksum
                  (i.billingDB.NewTransaction w).2).1.1))
    ∧ ((i.billingDB.FileFetchByChecksum fm.Checksum (i.billingDB.NewTransaction w).2).1.2
          = some Err.ErrNoRows →
        ∃ fid tx, Event.FileCreate fm.Checksum fm.FileName fm.FilePath i.Options.User tx none
            ∈ newEvents w (i.UpdateStepToSuccessAndCreateFile s fm w).2
          ∧ (∃ st, (i.billingDB.FileRepository.Create fm.Checksum fm.FileName fm.FilePath
                i.Options.User tx st).1 = (fid, none))
          ∧ (i.UpdateStepToSuccessAndCreateFile s fm w).1.1.FileID = ⟨fid, true⟩
          ∧ ((i.billingDB.FileFetchByChecksum fm.Checksum
                (i.billingDB.NewTransaction w).2).1.1.ID < 1 →
              Event.FileFetch fid ∈ newEvents w (i.UpdateStepToSuccessAndCreateFile s fm w).2
              ∧ ∃ st, (i.billingDB.FileRepository.Fetch fid st).1
                  = ((i.UpdateStepToSuccessAndCreateFile s fm w).1.2.1, none))) := by
  unfold StepServiceImpl.UpdateStepToSuccessAndCreateFile at h ⊢
  rcases hn : i.billingDB.BillingTransactionDB.NewTransaction w.st with ⟨⟨tx, e0⟩, st0⟩
  simp only [BillingDB.NewTransaction, hn, World.emit] at h ⊢
  cases e0 with
  | some e => exact absurd h (HandleTx_error _ _ _ _)
  | none =>
    simp only [StepServiceImpl.fileIDForChecksum, BillingDB.FileFetchByChecksum,
      BillingDB.FileCreate, World.emit] at h ⊢
    rcases hl : i.billingDB.FileRepository.FetchByChecksum fm.Checksum st0 with ⟨⟨lf, le⟩, st1⟩
    simp only [hl] at h ⊢
    cases le with
    | none =>
      simp only [] at h ⊢
      obtain ⟨hfid, evs, hlog, hc, hf, hkeep, -⟩ := finishWithFileID_ok i s lf lf.ID tx _ h
      rw [newEvents_of_log w _ ([Event.NewTransaction tx none,
        Event.FileFetchByChecksum fm.Checksum] ++ evs) (by rw [hlog]; simp)]
      refine ⟨?_, Or.inl trivial, fun _ => ⟨hfid, ?_, hkeep⟩, fun hno => by cases hno⟩
      · simpa [Event.isFileFetch] using hf
      · simpa [Event.isFileCreate] using hc
    | some e =>
      have hother : e ≠ Err.ErrNoRows → False := by
        intro hne
        cases e <;> first
          | exact hne rfl
          | exact absurd h (HandleTx_error _ _ _ _)
      by_cases he : e = Err.ErrNoRows
      · subst he
        simp only [] at h ⊢
        rcases hc : i.billingDB.FileRepository.Create fm.Checksum fm.FileName fm.FilePath
          i.Options.User tx st1 with ⟨⟨fid, ec⟩, st2⟩
        simp only [hc] at h ⊢
        cases ec with
        | some e => exact absurd h (HandleTx_error _ _ _ _)
        | none =>
          simp only [] at h ⊢
          obtain ⟨hfid, evs, hlog, hcr, hf, -, hfetch⟩ := finishWithFileID_ok i s lf fid tx _ h
          rw [newEvents_of_log w _ ([Event.NewTransaction tx none,
            Event.FileFetchByChecksum fm.Checksum,
            Event.FileCreate fm.Checksum fm.FileName fm.FilePath i.Options.User tx none]
            ++ evs) (by rw [hlog]; simp)]
          refine ⟨?_, Or.inr trivial, fun hno => (by cases hno), fun _ =>
            ⟨fid, tx, by simp, ⟨st1, by rw [hc]⟩, hfid, fun hid => ?_⟩⟩
          · simpa [Event.isFileFetch] using hf
          · obtain ⟨hm, st, hst⟩ := hfetch hid
            exact ⟨by simp [hm], st, hst⟩
      · exact (hother he).elim

/-- C28 on an empty file table: the File is created, and fetched again after the
commit. -/
theorem C28_returned_file_is_the_attached_one_witness :
    (newEvents (⟨Tables.empty, [], 0⟩ : World Tables)
      (Tables.sampleService.UpdateStepToSuccessAndCreateFile Step.sample FileMeta.sample
        ⟨Tables.empty, [], 0⟩).2).any Event.isFileFetch = true :=
  (C28_returned_file_is_the_attached_one Tables.sampleService Step.sample FileMeta.sample
    ⟨Tables.empty, [], 0⟩ (by decide)).1.mpr (by decide)

/-- The loop of `BulkInsert` appends the repeated values to the statement and the
values of the entities, in order, to the arguments. -/
theorem bulkInsertLoop_spec (sqlValues : String) (len : Nat) (rest : List (List Value)) :
    ∀ (index : Nat) (bulkStmt : String) (valsInsert : List Value),
      index + rest.length = len →
      bulkInsertLoop sqlValues len index rest bulkStmt valsInsert
        = (bulkStmt ++ repeatedValues sqlValues rest.length, valsInsert ++ rest.flatten) := by
  induction rest with
  | nil =>
    intro index bulkStmt valsInsert _
    simp [bulkInsertLoop, repeatedValues]
  | cons entity rest ih =>
    intro index bulkStmt valsInsert hlen
    simp only [bulkInsertLoop]
    rw [ih (index + 1) _ _ (by simp only [List.length_cons] at hlen; omega)]
    cases rest with
    | nil =>
      have hlast : ¬ ((index : Int) < (len : Int) - 1) := by
        simp only [List.length_cons, List.length_nil] at hlen
        omega
      simp [if_neg hlast, repeatedValues]
    | cons e2 rest2 =>
      have hmore : (index : Int) < (len : Int) - 1 := by
        simp only [List.length_cons] at hlen
        omega
      simp [if_pos hmore, repeatedValues, String.append_assoc]

/-- C25, as stated, fails: when `Prepare` returns an error, `BulkInsert` returns that error
after the `Prepare` call alone, so that for a list of one row no statement is executed. -/
theorem C25_failed_prepare_executes_nothing :
    (BillingSQLXDB.BulkInsert SqlDriver.prepareFails "INSERT INTO usage (a, b) VALUES" "(?, ?)"
        [[some "1", some "2"]] ()).1
      = (some (Err.other "prepare"),
         [SqlCall.Prepare "INSERT INTO usage (a, b) VALUES (?, ?)"]) := by
  decide

/-- C25 (amended): for every sqlBase, sqlValues and every list of n rows (empty or not),
`BulkInsert` prepares exactly one statement, whose text is sqlBase, one space, then
sqlValues repeated n times with ", " between consecutive copies and nothing after the
last; the statement being prepared, the calls are that `Prepare`, one `Exec` with the
concatenation of the rows' values in row order as bound arguments, and `Close`. -/
theorem C25_BulkInsert_builds_one_statement (drv : SqlDriver σ) (sqlBase sqlValues : String)
    (entities : List (List Value)) (st : σ)
    (hprep : (drv.Prepare (sqlBase ++ " " ++ repeatedValues sqlValues entities.length) st).1
      = none) :
    (BillingSQLXDB.BulkInsert drv sqlBase sqlValues entities st).1.2
      = [SqlCall.Prepare (sqlBase ++ " " ++ repeatedValues sqlValues entities.length),
         SqlCall.Exec (sqlBase ++ " " ++ repeatedValues sqlValues entities.length)
           entities.flatten,
         SqlCall.Close (sqlBase ++ " " ++ repeatedValues sqlValues entities.length)]
    ∧ ∀ st2 : σ, (BillingSQLXDB.BulkInsert drv sqlBase sqlValues entities st2).1.2.filter
          SqlCall.isPrepare
        = [SqlCall.Prepare (sqlBase ++ " " ++ repeatedValues sqlValues entities.length)] := by
  unfold BillingSQLXDB.BulkInsert
  rw [bulkInsertLoop_spec sqlValues entities.length entities 0 "" [] (by simp)]
  simp only [String.empty_append, List.nil_append] at hprep ⊢
  refine ⟨by simp [hprep], fun st2 => ?_⟩
  cases (drv.Prepare (sqlBase ++ " " ++ repeatedValues sqlValues entities.length) st2).1 <;>
    simp [SqlCall.isPrepare]

/-- C25 on three rows of two values. -/
theorem C25_BulkInsert_builds_one_statement_witness :
    (BillingSQLXDB.BulkInsert SqlDriver.ok "INSERT INTO usage (a, b) VALUES" "(?, ?)"
        [[some "1", some "2"], [some "3", none], [some "5", some "6"]] ()).1.2
      = [SqlCall.Prepare "INSERT INTO usage (a, b) VALUES (?, ?), (?, ?), (?, ?)",
         SqlCall.Exec "INSERT INTO usage (a, b) VALUES (?, ?), (?, ?), (?, ?)"
           [some "1", some "2", some "3", none, some "5", some "6"],
         SqlCall.Close "INSERT INTO usage (a, b) VALUES (?, ?), (?, ?), (?, ?)"] :=
  (C25_BulkInsert_builds_one_statement SqlDriver.ok "INSERT INTO usage (a, b) VALUES" "(?, ?)"
    [[some "1", some "2"], [some "3", none], [some "5", some "6"]] () rfl).1.trans
    (by decide)

/-- With every index in range, the inner loop of `executeImport` does not panic and
is the fold of `setUsage`, which keeps the length of the row. -/
theorem buildUsage_fold (vm : VendorMapper) (record : List String) (ks : List String) :
    ∀ usage : List Value,
      (∀ k ∈ ks, 0 ≤ (vm.at k).CsvIndex ∧ (vm.at k).CsvIndex < record.length
        ∧ 0 ≤ (vm.at k).TableIndex ∧ (vm.at k).TableIndex < usage.length) →
      ks.foldlM
        (fun (usage : List Value) key =>
          let csvIndex := (vm.at key).CsvIndex
          let tableIndex := (vm.at key).TableIndex
          if 0 ≤ csvIndex ∧ csvIndex < record.length then
            if 0 ≤ tableIndex ∧ tableIndex < usage.length then
              some (usage.set tableIndex.toNat (some (record.getD csvIndex.toNat "")))
            else none
          else none) usage
        = some (ks.foldl (setUsage vm record) usage)
      ∧ (ks.foldl (setUsage vm record) usage).length = usage.length := by
  induction ks with
  | nil => intro usage _; exact ⟨rfl, rfl⟩
  | cons k ks ih =>
    intro usage h
    obtain ⟨h1, h2, h3, h4⟩ := h k (List.mem_cons_self _ _)
    have hrest := ih (setUsage vm record usage k) (by
      intro k1 hk1
      obtain ⟨a, b, c, d⟩ := h k1 (List.mem_cons_of_mem _ hk1)
      exact ⟨a, b, c, by simpa [setUsage] using d⟩)
    simp only [List.foldlM_cons, List.foldl_cons]
    rw [if_pos ⟨h1, h2⟩, if_pos ⟨h3, h4⟩]
    exact ⟨hrest.1, by rw [hrest.2]; simp [setUsage]⟩

/-- A position no key writes keeps its value. -/
theorem setUsage_fold_other (vm : VendorMapper) (record : List String) (ks : List String)
    (j : Nat) :
    ∀ usage : List Value, (∀ k ∈ ks, (vm.at k).TableIndex.toNat ≠ j) →
      (ks.foldl (setUsage vm record) usage)[j]? = usage[j]? := by
  induction ks with
  | nil => intro usage _; rfl
  | cons k ks ih =>
    intro usage h
    simp only [List.foldl_cons]
    rw [ih _ (fun k1 hk1 => h k1 (List.mem_cons_of_mem _ hk1))]
    simp [setUsage, List.getElem?_set_ne (h k (List.mem_cons_self _ _))]

/-- The position a key writes holds the field of that key, when no other key writes
there. -/
theorem setUsage_fold_key (vm : VendorMapper) (record : List String) (ks : List String)
    (k : String) :
    ∀ usage : List Value, k ∈ ks → ks.Nodup →
      (∀ a ∈ ks, (vm.at a).TableIndex.toNat = (vm.at k).TableIndex.toNat → a = k) →
      (vm.at k).TableIndex.toNat < usage.length →
      (ks.foldl (setUsage vm record) usage)[(vm.at k).TableIndex.toNat]?
        = some (some (record.getD (vm.at k).CsvIndex.toNat "")) := by
  induction ks with
  | nil => intro usage hk; cases hk
  | cons a ks ih =>
    intro usage hk hnd hinj hlt
    simp only [List.foldl_cons]
    rw [List.nodup_cons] at hnd
    by_cases hmem : k ∈ ks
    · exact ih _ hmem hnd.2 (fun b hb hT => hinj b (List.mem_cons_of_mem _ hb) hT)
        (by simpa [setUsage] using hlt)
    · have hak : a = k := by
        rcases List.mem_cons.mp hk with h | h
        · exact h.symm
        · exact absurd h hmem
      subst hak
      rw [setUsage_fold_other vm record ks _ _ (fun b hb hT =>
        hnd.1 (by rw [← hinj b (List.mem_cons_of_mem _ hb) hT]; exact hb))]
      simp [setUsage, hlt]

/-- The row `executeImport` builds for a record, position by position, for any
enumeration `keys` of the names of the column mappers. -/
theorem buildUsage_row (user : String) (vm : VendorMapper) (keys : List String)
    (record : List String) (hperm : keys.Perm vm.keys) (hnodup : vm.keys.Nodup)
    (htab : ∀ k ∈ vm.keys, 0 ≤ (vm.at k).TableIndex
      ∧ (vm.at k).TableIndex < vm.keys.length)
    (hdist : ∀ a ∈ vm.keys, ∀ b ∈ vm.keys,
      (vm.at a).TableIndex = (vm.at b).TableIndex → a = b)
    (hcsv : ∀ k ∈ vm.keys, 0 ≤ (vm.at k).CsvIndex ∧ (vm.at k).CsvIndex < record.length) :
    ∃ row, buildUsage user vm keys record = some row
      ∧ row.length = vm.keys.length + 1
      ∧ row[vm.keys.length]? = some (some user)
      ∧ (∀ k ∈ vm.keys, row[(vm.at k).TableIndex.toNat]?
          = some (some (record.getD (vm.at k).CsvIndex.toNat "")))
      ∧ (∀ j, j < vm.keys.length → (∀ k ∈ vm.keys, (vm.at k).TableIndex.toNat ≠ j) →
          row[j]? = some none) := by
  have hlen : keys.length = vm.keys.length := hperm.length_eq
  have hmem : ∀ k, k ∈ keys ↔ k ∈ vm.keys := fun k => hperm.mem_iff
  have hkn : keys.Nodup := hperm.nodup_iff.mpr hnodup
  have hinj : ∀ k ∈ keys, ∀ a ∈ keys,
      (vm.at a).TableIndex.toNat = (vm.at k).TableIndex.toNat → a = k := by
    intro k hk a ha hT
    have h1 := (htab a ((hmem a).mp ha)).1
    have h2 := (htab k ((hmem k).mp hk)).1
    exact hdist a ((hmem a).mp ha) k ((hmem k).mp hk) (by omega)
  obtain ⟨hfold, hfl⟩ := buildUsage_fold vm record keys (List.replicate (keys.length + 1) none)
    (by
      intro k hk
      have h1 := htab k ((hmem k).mp hk)
      have h2 := hcsv k ((hmem k).mp hk)
      simp only [List.length_replicate]
      omega)
  simp only [List.length_replicate] at hfl
  have hbuild : buildUsage user vm keys record
      = some ((keys.foldl (setUsage vm record) (List.replicate (keys.length + 1) none)).set
          keys.length (some user)) := by
    have h1 : buildUsage user vm keys record
        = (some (keys.foldl (setUsage vm record) (List.replicate (keys.length + 1) none))).map
            (fun u => u.set (u.length - 1) (some user)) := by
      unfold buildUsage
      exact congrArg (Option.map (fun u : List Value => u.set (u.length - 1) (some user))) hfold
    rw [h1, Option.map_some', hfl, Nat.add_sub_cancel]
  rw [hlen] at hbuild hfl
  refine ⟨_, hbuild, ?_, ?_, ?_, ?_⟩
  · simp [hfl]
  · simp [hfl]
  · intro k hk
    have h1 := htab k hk
    have hne : vm.keys.length ≠ (vm.at k).TableIndex.toNat := by omega
    rw [List.getElem?_set_ne hne]
    exact setUsage_fold_key vm record keys k _ ((hmem k).mpr hk) hkn
      (fun a ha hT => hinj k ((hmem k).mpr hk) a ha hT)
      (by simp only [List.length_replicate]; omega)
  · intro j hj hno
    have hne : vm.keys.length ≠ j := by omega
    rw [List.getElem?_set_ne hne,
      setUsage_fold_other vm record keys j _ (fun k hk => hno k ((hmem k).mp hk))]
    simp only [List.getElem?_replicate]
    rw [if_pos (by omega)]

/-- C26, as stated, fails: with one column mapper of TableIndex 0 and CsvIndex -1, the
TableIndex values are distinct and lie in 0..m-1 and the record ["x"] is longer than
every CsvIndex, yet building the row indexes the record out of range (the code
panics). -/
theorem C26_negative_csv_index_panics :
    ¬ ((∀ k ∈ VendorMapper.negativeIndex.keys,
          0 ≤ (VendorMapper.negativeIndex.at k).TableIndex
          ∧ (VendorMapper.negativeIndex.at k).TableIndex
              < VendorMapper.negativeIndex.keys.length
          ∧ (VendorMapper.negativeIndex.at k).CsvIndex < (["x"] : List String).length) →
        (buildUsage "importer" VendorMapper.negativeIndex VendorMapper.negativeIndex.keys
          ["x"]).isSome = true) := by
  decide

/-- C26 (amended): for every vendor mapping with m column mappers whose TableIndex
values are pairwise distinct and lie in 0..m-1, and every record whose length exceeds
every CsvIndex of the mapping, the CsvIndex values being non-negative, the row
executeImport builds for that record exists (no index is out of range), has exactly
m+1 values, holds record[CsvIndex] at position TableIndex for each mapper and
Options.User at the last position m, and is the same for every order `keys2` in which
the mapper names are enumerated. -/
theorem C26_row_of_a_record (user : String) (vm : VendorMapper) (keys : List String)
    (record : List String) (hperm : keys.Perm vm.keys) (hnodup : vm.keys.Nodup)
    (htab : ∀ k ∈ vm.keys, 0 ≤ (vm.at k).TableIndex
      ∧ (vm.at k).TableIndex < vm.keys.length)
    (hdist : ∀ a ∈ vm.keys, ∀ b ∈ vm.keys,
      (vm.at a).TableIndex = (vm.at b).TableIndex → a = b)
    (hcsv : ∀ k ∈ vm.keys, 0 ≤ (vm.at k).CsvIndex ∧ (vm.at k).CsvIndex < record.length) :
    ∃ row, buildUsage user vm keys record = some row
      ∧ row.length = vm.keys.length + 1
      ∧ (∀ k ∈ vm.keys, row[(vm.at k).TableIndex.toNat]?
          = some (some (record.getD (vm.at k).CsvIndex.toNat "")))
      ∧ row[vm.keys.length]? = some (some user)
      ∧ ∀ keys2 : List String, keys2.Perm vm.keys →
          buildUsage user vm keys2 record = some row := by
  obtain ⟨row, hrow, hlen, hlast, hkey, hother⟩ :=
    buildUsage_row user vm keys record hperm hnodup htab hdist hcsv
  refine ⟨row, hrow, hlen, hkey, hlast, fun keys2 hperm2 => ?_⟩
  obtain ⟨row2, hrow2, hlen2, hlast2, hkey2, hother2⟩ :=
    buildUsage_row user vm keys2 record hperm2 hnodup htab hdist hcsv
  rw [hrow2]
  congr 1
  apply List.ext_getElem?
  intro j
  rcases Nat.lt_trichotomy j vm.keys.length with hj | hj | hj
  · by_cases hex : ∃ k ∈ vm.keys, (vm.at k).TableIndex.toNat = j
    · obtain ⟨k, hk, hT⟩ := hex
      rw [← hT, hkey k hk, hkey2 k hk]
    · have hno : ∀ k ∈ vm.keys, (vm.at k).TableIndex.toNat ≠ j :=
        fun k hk hT => hex ⟨k, hk, hT⟩
      rw [hother j hj hno, hother2 j hj hno]
  · rw [hj, hlast, hlast2]
  · rw [List.getElem?_eq_none (by omega), List.getElem?_eq_none (by omega)]

/-- C26 (amended) on the sample mapping, whose names are enumerated as "b", "a". -/
theorem C26_row_of_a_record_witness :
    buildUsage "importer" VendorMapper.sample ["b", "a"] ["x", "y"]
      = some [some "y", some "x", some "importer"] :=
  let ⟨_, h, _, _, _, h2⟩ := C26_row_of_a_record "importer" VendorMapper.sample ["b", "a"]
    ["x", "y"] (by decide) (by decide) (by decide) (by decide) (by decide)
  h.trans ((h2 ["b", "a"] (by decide)).symm.trans (by decide))

theorem New62_length : New62.Alphabet.length = 62 := by decide

theorem New62_index : ∀ d, d < 62 →
    IndexByte New62.Alphabet (New62.Alphabet.getD d 0 % 256) = (d : Int) := by decide

theorem New62_ascii : ∀ c ∈ New62.Alphabet, c < 128 := by decide

theorem New62_zero : ∀ d, d < 62 → (New62.Alphabet.getD d 0 = 48 ↔ d = 0) := by decide

theorem New62_mem : ∀ d, d < 62 → New62.Alphabet.getD d 0 ∈ New62.Alphabet := by decide


/-- With enough fuel the loop of `Encode` appends the digits of `number`, lowest first. -/
theorem encodeLoop_digits (alphabet : GoString) (hbase : 2 ≤ alphabet.length) :
    ∀ (fuel number : Nat) (result : List Nat), number ≤ fuel →
      encodeLoop alphabet fuel number result
        = some (result ++ (Nat.digits alphabet.length number).map (fun d => alphabet.getD d 0)) := by
  intro fuel
  induction fuel with
  | zero =>
    intro number result h
    have h0 : number = 0 := Nat.le_zero.mp h
    subst h0
    simp [encodeLoop]
  | succ fuel ih =>
    intro number result h
    unfold encodeLoop
    by_cases hpos : number > 0
    · have hdiv : number / alphabet.length ≤ fuel := by
        have : number / alphabet.length < number := Nat.div_lt_self hpos hbase
        omega
      rw [if_pos hpos, ih _ _ hdiv, Nat.digits_def' hbase hpos]
      simp
    · have h0 : number = 0 := by omega
      subst h0
      simp

/-- `Encode` of a positive number with the alphabet of `New62`: the digits in base 62, highest
first. -/
theorem Encode_pos (n : Nat) (hn : 0 < n) :
    New62.Encode (n : Int)
      = some (((Nat.digits 62 n).map (fun d => New62.Alphabet.getD d 0)).reverse) := by
  have hlen := New62_length
  unfold BaseCoder.Encode
  rw [if_neg (by rw [hlen]; decide), if_neg (by omega)]
  rw [Int.toNat_natCast, encodeLoop_digits _ (by rw [hlen]; decide) _ _ _ (le_refl n), hlen]
  simp

theorem wrapInt_id (x : Int) (h0 : 0 ≤ x) (h1 : x < 2 ^ 63) : wrapInt x = x := by
  unfold wrapInt
  rw [Int.emod_eq_of_lt (by omega) (by omega)]
  omega

/-- The loop of `Decode` over the characters of digits adds up their value. -/
theorem decodeLoop_digits (powInt : Int → Int → Int) (hpow : PowExact powInt) (len : Nat) :
    ∀ (D : List Nat) (i : Nat) (acc : Int), (∀ d ∈ D, d < 62) → i + D.length = len →
      D.length ≤ 11 → 0 ≤ acc → acc + (Nat.ofDigits 62 D.reverse : Nat) < 2 ^ 63 →
      decodeLoop New62.Alphabet powInt len
          (List.enumFrom i (D.map (fun d => New62.Alphabet.getD d 0))) acc
        = acc + (Nat.ofDigits 62 D.reverse : Nat) := by
  intro D
  induction D with
  | nil => intro i acc _ _ _ _ _; simp [decodeLoop, Nat.ofDigits]
  | cons d D ih =>
    intro i acc hd hi hl hacc hlt
    have hd0 : d < 62 := hd d (List.mem_cons_self _ _)
    have hval : Nat.ofDigits 62 (d :: D).reverse = Nat.ofDigits 62 D.reverse + 62 ^ D.length * d := by
      rw [List.reverse_cons, Nat.ofDigits_append]
      simp [Nat.ofDigits]
    rw [hval] at hlt ⊢
    simp only [Nat.cast_add, Nat.cast_mul, Nat.cast_pow, Nat.cast_ofNat] at hlt ⊢
    have hexp : ((len : Int) - (i : Int) - 1) = ((D.length : Nat) : Int) := by
      simp only [List.length_cons] at hi
      omega
    have hp : powInt 62 ((D.length : Nat) : Int) = 62 ^ D.length :=
      hpow D.length (by simp only [List.length_cons] at hl; omega)
    have hpos : (0 : Int) ≤ (62 : Int) ^ D.length * (d : Int) := by positivity
    have hpos2 : (0 : Int) ≤ ((Nat.ofDigits 62 D.reverse : Nat) : Int) := by positivity
    simp only [List.map_cons, List.enumFrom_cons, decodeLoop]
    rw [New62_index d hd0, if_neg (by omega), New62_length, hexp]
    simp only [Nat.cast_ofNat]
    rw [hp, mul_comm (d : Int), wrapInt_id _ hpos (by linarith),
      wrapInt_id _ (by linarith) (by linarith)]
    rw [ih (i + 1) _ (fun x hx => hd x (List.mem_cons_of_mem _ hx))
      (by simp only [List.length_cons] at hi; omega)
      (by simp only [List.length_cons] at hl; omega) (by linarith) (by linarith)]
    ring

/-- The string `Encode` returns for a positive number, and what `Decode` makes of it. -/
theorem Encode_Decode_pos (runes : GoString → List (Nat × Nat)) (powInt : Int → Int → Int)
    (hrunes : RangesASCII runes) (hpow : PowExact powInt) (n : Nat) (hpos : 0 < n)
    (hn : n < 2 ^ 63) :
    ∃ s, New62.Encode (n : Int) = some s
      ∧ s = ((Nat.digits 62 n).reverse).map (fun d => New62.Alphabet.getD d 0)
      ∧ New62.Decode runes powInt s = (n : Int)
      ∧ s ≠ [] ∧ (∀ c ∈ s, c ∈ New62.Alphabet) ∧ s.head? ≠ some 48 := by
  have hne : Nat.digits 62 n ≠ [] := Nat.digits_ne_nil_iff_ne_zero.mpr (by omega)
  have hdig : ∀ d ∈ (Nat.digits 62 n).reverse, d < 62 := fun d hd =>
    Nat.digits_lt_base (by decide) (List.mem_reverse.mp hd)
  have hlen : (Nat.digits 62 n).reverse.length ≤ 11 := by
    rw [List.length_reverse]
    by_contra hlong
    have h12 : 62 ^ 12 ≤ 62 ^ (Nat.digits 62 n).length :=
      Nat.pow_le_pow_right (by decide) (by omega)
    have hle := Nat.base_pow_length_digits_le 62 n (by decide) (by omega)
    have h63 : 62 * 2 ^ 63 < 62 ^ 12 := by norm_num
    have hmul : 62 * n < 62 * 2 ^ 63 := by omega
    omega
  have hmem : ∀ c ∈ ((Nat.digits 62 n).reverse).map (fun d => New62.Alphabet.getD d 0),
      c ∈ New62.Alphabet := by
    intro c hc
    obtain ⟨d, hd, rfl⟩ := List.mem_map.mp hc
    exact New62_mem d (hdig d hd)
  refine ⟨_, (Encode_pos n hpos).trans (by rw [List.map_reverse]), rfl, ?_, ?_, hmem, ?_⟩
  · unfold BaseCoder.Decode
    rw [if_neg (by
      rw [New62_length]
      simp [hne]), hrunes _ (fun c hc => New62_ascii c (hmem c hc)), List.enum, List.length_map]
    rw [decodeLoop_digits powInt hpow _ _ 0 0 hdig (by simp) hlen (le_refl 0)
      (by rw [List.reverse_reverse, Nat.ofDigits_digits]; omega)]
    rw [List.reverse_reverse, Nat.ofDigits_digits]
    simp
  · simp [hne]
  · rw [List.head?_map, List.head?_reverse, List.getLast?_eq_getLast _ hne]
    simp only [Option.map_some', ne_eq, Option.some.injEq]
    intro h
    exact Nat.getLast_digit_ne_zero 62 (by omega)
      ((New62_zero _ (Nat.digits_lt_base (by decide) (List.getLast_mem hne))).mp h)

/-- C30: for the base62 coder of `New62` and every `int` n >= 0, `Decode (Encode n) = n`, and
`Encode n` is non-empty, made of characters of the alphabet, and does not start with the
character 0 unless n = 0; every n < 1 encodes to the single character 0.  Go's rune iteration
and `int(math.Pow(..))` are held to their behaviour on ASCII strings and on the exponents up
to ten. -/
theorem C30_base62_round_trip (runes : GoString → List (Nat × Nat)) (powInt : Int → Int → Int)
    (hrunes : RangesASCII runes) (hpow : PowExact powInt) (n : Int) (hn : n < 2 ^ 63) :
    (0 ≤ n → ∃ s, New62.Encode n = some s ∧ New62.Decode runes powInt s = n
        ∧ s ≠ [] ∧ (∀ c ∈ s, c ∈ New62.Alphabet)
        ∧ (n ≠ 0 → s.head? ≠ some (Char.toNat '0')))
    ∧ (n < 1 → New62.Encode n = some (GoString.lit "0")) := by
  refine ⟨fun h0 => ?_, fun h1 => ?_⟩
  · rcases eq_or_lt_of_le h0 with hz | hpos
    · subst hz
      refine ⟨GoString.lit "0", by decide, ?_, by decide, by decide, fun h => absurd rfl h⟩
      unfold BaseCoder.Decode
      rw [if_neg (by decide), hrunes _ (by decide)]
      have hp : powInt 62 ((0 : Nat) : Int) = 62 ^ 0 := hpow 0 (by decide)
      have he : (GoString.lit "0").enum = [(0, 48)] := by decide
      have hi : IndexByte New62.Alphabet (48 % 256) = 0 := by decide
      have hl : (GoString.lit "0").length = 1 := by decide
      rw [he, hl]
      simp only [decodeLoop, hi, New62_length]
      simp [wrapInt]
    · obtain ⟨m, rfl⟩ := Int.eq_ofNat_of_zero_le h0
      obtain ⟨s, h1, _, h2, h3, h4, h5⟩ :=
        Encode_Decode_pos runes powInt hrunes hpow m (by omega) (by omega)
      exact ⟨s, h1, h2, h3, h4, fun _ => h5⟩
  · unfold BaseCoder.Encode
    rw [if_neg (by decide), if_pos h1]
    decide

theorem C30_base62_round_trip_witness :
    (∃ s, New62.Encode 3843 = some s ∧ New62.Decode List.enum exactPow s = 3843
        ∧ s ≠ [] ∧ (∀ c ∈ s, c ∈ New62.Alphabet)
        ∧ ((3843 : Int) ≠ 0 → s.head? ≠ some (Char.toNat '0')))
    ∧ New62.Encode 3843 = some (GoString.lit "zz") :=
  ⟨(C30_base62_round_trip List.enum exactPow (fun _ _ => rfl)
      (fun e he => by
        have h : ∀ k : Nat, k ≤ 10 → exactPow 62 k = 62 ^ k := by decide
        exact h e he)
      3843 (by decide)).1 (by decide), by decide⟩

theorem Split_ne_nil (sep : Nat) : ∀ s : GoString, Split sep s ≠ [] := by
  intro s
  induction s with
  | nil => simp [Split]
  | cons c rest ih =>
    unfold Split
    by_cases h : c = sep
    · simp [h]
    · rw [if_neg h]
      cases hs : Split sep rest with
      | nil => simp
      | cons t ts => simp

/-- A string without the separator is one token. -/
theorem Split_no_sep (sep : Nat) : ∀ a : GoString, sep ∉ a → Split sep a = [a] := by
  intro a
  induction a with
  | nil => intro _; rfl
  | cons c rest ih =>
    intro h
    have hc : c ≠ sep := fun e => h (e ▸ List.mem_cons_self _ _)
    have hr : sep ∉ rest := fun e => h (List.mem_cons_of_mem _ e)
    unfold Split
    rw [if_neg hc, ih hr]

/-- The first token ends at the first separator. -/
theorem Split_append_sep (sep : Nat) (rest : GoString) :
    ∀ a : GoString, sep ∉ a → Split sep (a ++ sep :: rest) = a :: Split sep rest := by
  intro a
  induction a with
  | nil => intro _; simp [Split]
  | cons c a ih =>
    intro h
    have hc : c ≠ sep := fun e => h (e ▸ List.mem_cons_self _ _)
    have hr : sep ∉ a := fun e => h (List.mem_cons_of_mem _ e)
    have hstep : Split sep (c :: (a ++ sep :: rest))
        = match Split sep (a ++ sep :: rest) with
          | t :: ts => (c :: t) :: ts
          | [] => [[c]] := by
      rw [Split, if_neg hc]
    rw [List.cons_append, hstep, ih hr]

/-- Appending to a string extends its last token and leaves the tokens before it. -/
theorem Split_append (sep : Nat) (s : GoString) :
    ∀ m : GoString, ∃ init last x rest,
      Split sep m = init ++ [last] ∧ Split sep (m ++ s) = init ++ (last ++ x) :: rest := by
  intro m
  induction m with
  | nil =>
    cases hs : Split sep s with
    | nil => exact absurd hs (Split_ne_nil sep s)
    | cons x rest => exact ⟨[], [], x, rest, rfl, by simp [hs]⟩
  | cons c m ih =>
    obtain ⟨init, last, x, rest, h1, h2⟩ := ih
    by_cases hc : c = sep
    · refine ⟨[] :: init, last, x, rest, ?_, ?_⟩
      · unfold Split
        rw [if_pos hc, h1]
        rfl
      · rw [List.cons_append]
        unfold Split
        rw [if_pos hc, h2]
        rfl
    · cases init with
      | nil =>
        refine ⟨[], c :: last, x, rest, ?_, ?_⟩
        · unfold Split
          rw [if_neg hc, h1]
          rfl
        · rw [List.cons_append]
          unfold Split
          rw [if_neg hc, h2]
          rfl
      | cons t init =>
        refine ⟨(c :: t) :: init, last, x, rest, ?_, ?_⟩
        · unfold Split
          rw [if_neg hc, h1]
          rfl
        · rw [List.cons_append]
          unfold Split
          rw [if_neg hc, h2]
          rfl

theorem isBase62Rune_alphabet : ∀ c ∈ New62.Alphabet, isBase62Rune c = true := by decide

theorem hyphen_not_in_alphabet : Char.toNat '-' ∉ New62.Alphabet := by decide

theorem zero_in_alphabet : Char.toNat '0' ∈ New62.Alphabet := by decide

/-- A non-empty string of characters of the alphabet passes `IsBase62`. -/
theorem IsBase62_alphabet (runes : GoString → List (Nat × Nat)) (hrunes : RangesASCII runes)
    (s : GoString) (hne : s ≠ []) (hs : ∀ c ∈ s, c ∈ New62.Alphabet) :
    IsBase62 runes s = true := by
  unfold IsBase62
  rw [if_neg (by simpa using hne), hrunes s (fun c hc => New62_ascii c (hs c hc))]
  rw [List.all_eq_true]
  intro ic hic
  have hmem : ic.2 ∈ s := by
    have := List.mem_map_of_mem Prod.snd hic
    rwa [List.enum_map_snd] at this
  exact isBase62Rune_alphabet _ (hs _ hmem)

theorem padZero_spec (width : Nat) (s : GoString) (hlen : s.length ≤ width)
    (hs : ∀ c ∈ s, c ∈ New62.Alphabet) :
    (padZero width s).length = width ∧ ∀ c ∈ padZero width s, c ∈ New62.Alphabet := by
  unfold padZero
  refine ⟨by simp; omega, ?_⟩
  intro c hc
  rcases List.mem_append.mp hc with h | h
  · rw [(List.mem_replicate.mp h).2]
    exact zero_in_alphabet
  · exact hs c h

/-- `Encode` of a number below 62 ^ k: at most k characters of the alphabet. -/
theorem Encode_small (k : Nat) (hk : 0 < k) (n : Int) (hn : n < 62 ^ k) :
    ∃ e, New62.Encode n = some e ∧ e.length ≤ k ∧ ∀ c ∈ e, c ∈ New62.Alphabet := by
  by_cases h1 : n < 1
  · refine ⟨GoString.lit "0", ?_, ?_, by decide⟩
    · unfold BaseCoder.Encode
      rw [if_neg (by decide), if_pos h1]
      decide
    · show 1 ≤ k
      omega
  · obtain ⟨m, rfl⟩ := Int.eq_ofNat_of_zero_le (by omega : 0 ≤ n)
    have hm : 0 < m := by omega
    have hmk : m < 62 ^ k := by exact_mod_cast hn
    refine ⟨_, Encode_pos m hm, ?_, ?_⟩
    · rw [List.length_reverse, List.length_map]
      have hle := Nat.base_pow_length_digits_le 62 m (by decide) (by omega)
      have hlt : 62 ^ (Nat.digits 62 m).length < 62 ^ (k + 1) := by
        rw [Nat.pow_succ]
        omega
      have := (Nat.pow_lt_pow_iff_right (by decide)).mp hlt
      omega
    · intro c hc
      obtain ⟨d, hd, rfl⟩ := List.mem_map.mp (List.mem_reverse.mp hc)
      exact New62_mem d (Nat.digits_lt_base (by decide) hd)

/-- Three parts of 6, 6 and 2 characters of the alphabet, joined by hyphens, pass
`IsEximMsgID`. -/
theorem IsEximMsgID_parts (runes : GoString → List (Nat × Nat)) (hrunes : RangesASCII runes)
    (a b c : GoString) (ha : a.length = 6) (hb : b.length = 6) (hc : c.length = 2)
    (hall : ∀ x ∈ a ++ b ++ c, x ∈ New62.Alphabet) :
    IsEximMsgID runes (a ++ [Char.toNat '-'] ++ b ++ [Char.toNat '-'] ++ c) = true := by
  have ha2 : ∀ x ∈ a, x ∈ New62.Alphabet := fun x hx => hall x (by simp [hx])
  have hb2 : ∀ x ∈ b, x ∈ New62.Alphabet := fun x hx => hall x (by simp [hx])
  have hc2 : ∀ x ∈ c, x ∈ New62.Alphabet := fun x hx => hall x (by simp [hx])
  have hna : Char.toNat '-' ∉ a := fun h => hyphen_not_in_alphabet (ha2 _ h)
  have hnb : Char.toNat '-' ∉ b := fun h => hyphen_not_in_alphabet (hb2 _ h)
  have hnc : Char.toNat '-' ∉ c := fun h => hyphen_not_in_alphabet (hc2 _ h)
  have hsplit : Split (Char.toNat '-') (a ++ [Char.toNat '-'] ++ b ++ [Char.toNat '-'] ++ c)
      = [a, b, c] := by
    have e : a ++ [Char.toNat '-'] ++ b ++ [Char.toNat '-'] ++ c
        = a ++ Char.toNat '-' :: (b ++ Char.toNat '-' :: c) := by simp
    rw [e, Split_append_sep _ _ a hna, Split_append_sep _ _ b hnb, Split_no_sep _ c hnc]
  have hane : a ≠ [] := fun h => by rw [h] at ha; cases ha
  have hbne : b ≠ [] := fun h => by rw [h] at hb; cases hb
  have hcne : c ≠ [] := fun h => by rw [h] at hc; cases hc
  have hlen : (a ++ [Char.toNat '-'] ++ b ++ [Char.toNat '-'] ++ c).length = 16 := by
    simp [ha, hb, hc]
  have htake : c.take 2 = c := List.take_of_length_le (by omega)
  unfold IsEximMsgID
  rw [hsplit, hlen]
  simp [ha, hb, hc, htake, IsBase62_alphabet runes hrunes a hane ha2,
    IsBase62_alphabet runes hrunes b hbne hb2, IsBase62_alphabet runes hrunes c hcne hc2]

/-- What `IsEximMsgID` accepts. -/
theorem IsEximMsgID_iff (runes : GoString → List (Nat × Nat)) (msgid : GoString) :
    IsEximMsgID runes msgid = true ↔
      16 ≤ msgid.length ∧ 3 ≤ (Split (Char.toNat '-') msgid).length
      ∧ ((Split (Char.toNat '-') msgid).getD 0 []).length = 6
      ∧ IsBase62 runes ((Split (Char.toNat '-') msgid).getD 0 []) = true
      ∧ ((Split (Char.toNat '-') msgid).getD 1 []).length = 6
      ∧ IsBase62 runes ((Split (Char.toNat '-') msgid).getD 1 []) = true
      ∧ 2 ≤ ((Split (Char.toNat '-') msgid).getD 2 []).length
      ∧ IsBase62 runes (((Split (Char.toNat '-') msgid).getD 2 []).take 2) = true := by
  unfold IsEximMsgID
  generalize Split (Char.toNat '-') msgid = tokens
  by_cases h16 : msgid.length < 16
  · rw [if_pos h16]
    constructor
    · intro h; cases h
    · intro h; omega
  rw [if_neg h16]
  by_cases h3 : tokens.length < 3
  · rw [if_pos h3]
    constructor
    · intro h; cases h
    · intro h; omega
  rw [if_neg h3]
  by_cases c0 : (tokens.getD 0 []).length ≠ 6 ∨ ¬ IsBase62 runes (tokens.getD 0 []) = true
  · rw [if_pos c0]
    constructor
    · intro h; cases h
    · intro h
      rcases c0 with c | c
      · exact absurd h.2.2.1 c
      · exact absurd h.2.2.2.1 c
  rw [if_neg c0]
  by_cases c1 : (tokens.getD 1 []).length ≠ 6 ∨ ¬ IsBase62 runes (tokens.getD 1 []) = true
  · rw [if_pos c1]
    constructor
    · intro h; cases h
    · intro h
      rcases c1 with c | c
      · exact absurd h.2.2.2.2.1 c
      · exact absurd h.2.2.2.2.2.1 c
  rw [if_neg c1]
  simp only [not_or, not_not, ne_eq] at c0 c1
  simp only [Bool.and_eq_true, decide_eq_true_eq, ge_iff_le]
  exact ⟨fun h => ⟨by omega, by omega, c0.1, c0.2, c1.1, c1.2, h.1, h.2⟩,
    fun h => ⟨h.2.2.2.2.2.2.1, h.2.2.2.2.2.2.2⟩⟩

/-- `IsEximMsgID` looks at the first sixteen bytes only: what it accepts, it accepts with any
suffix. -/
theorem IsEximMsgID_suffix (runes : GoString → List (Nat × Nat)) (msgid s : GoString)
    (h : IsEximMsgID runes msgid = true) : IsEximMsgID runes (msgid ++ s) = true := by
  obtain ⟨init, last, x, rest, h1, h2⟩ := Split_append (Char.toNat '-') s msgid
  rw [IsEximMsgID_iff, h1] at h
  rw [IsEximMsgID_iff, h2, List.length_append]
  obtain ⟨a1, a2, a3, a4, a5, a6, a7, a8⟩ := h
  rcases init with _ | ⟨t0, _ | ⟨t1, _ | ⟨t2, init⟩⟩⟩
  · simp at a2
  · simp at a2
  · simp only [List.cons_append, List.nil_append, List.length_cons, List.length_nil,
      List.getD_cons_zero, List.getD_cons_succ] at a3 a4 a5 a6 a7 a8 ⊢
    refine ⟨by omega, by omega, a3, a4, a5, a6, ?_, ?_⟩
    · rw [List.length_append]
      omega
    · rw [List.take_append_of_le_length a7]
      exact a8
  · simp only [List.cons_append, List.length_cons, List.getD_cons_zero,
      List.getD_cons_succ] at a3 a4 a5 a6 a7 a8 ⊢
    exact ⟨by omega, by omega, a3, a4, a5, a6, a7, a8⟩

/-- C27: for a generator whose `Date` has Unix seconds below 62 ^ 6 and whose `ProcessID` is
below 62 ^ 6, `Generate` returns the three base62 encodings, each padded on the left with the
character 0, to 6, 6 and 2 characters, joined by hyphens: 16 characters which `IsEximMsgID`
accepts; and what `IsEximMsgID` accepts, it accepts with any suffix. -/
theorem C27_generated_ids_are_exim_ids (runes : GoString → List (Nat × Nat))
    (hrunes : RangesASCII runes) (m : MsgIDGenerator) (nowNanos : Nat)
    (hunix : m.Date.Unix < 62 ^ 6) (hpid : m.ProcessID < 62 ^ 6) :
    (∃ e0 e1 e2 g,
        New62.Encode m.Date.Unix = some e0 ∧ New62.Encode m.ProcessID = some e1
        ∧ New62.Encode ((m.nanos nowNanos : Int) % (62 * 62)) = some e2
        ∧ g = padZero 6 e0 ++ [Char.toNat '-'] ++ padZero 6 e1 ++ [Char.toNat '-']
            ++ padZero 2 e2
        ∧ m.Generate nowNanos = some g
        ∧ (padZero 6 e0).length = 6 ∧ (padZero 6 e1).length = 6 ∧ (padZero 2 e2).length = 2
        ∧ (∀ c ∈ padZero 6 e0 ++ padZero 6 e1 ++ padZero 2 e2, isBase62Rune c = true)
        ∧ g.length = 16 ∧ IsEximMsgID runes g = true)
    ∧ (∀ msgid s : GoString,
        IsEximMsgID runes msgid = true → IsEximMsgID runes (msgid ++ s) = true) := by
  refine ⟨?_, fun msgid s h => IsEximMsgID_suffix runes msgid s h⟩
  obtain ⟨e0, h0, l0, m0⟩ := Encode_small 6 (by decide) m.Date.Unix hunix
  obtain ⟨e1, h1, l1, m1⟩ := Encode_small 6 (by decide) m.ProcessID hpid
  have hlt : (m.nanos nowNanos : Int) % (62 * 62) < 62 ^ 2 := by
    have := Int.emod_lt_of_pos (m.nanos nowNanos : Int) (by decide : (0 : Int) < 62 * 62)
    exact lt_of_lt_of_le this (by decide)
  obtain ⟨e2, h2, l2, m2⟩ := Encode_small 2 (by decide) _ hlt
  obtain ⟨p0, q0⟩ := padZero_spec 6 e0 l0 m0
  obtain ⟨p1, q1⟩ := padZero_spec 6 e1 l1 m1
  obtain ⟨p2, q2⟩ := padZero_spec 2 e2 l2 m2
  have hall : ∀ c ∈ padZero 6 e0 ++ padZero 6 e1 ++ padZero 2 e2, c ∈ New62.Alphabet := by
    intro c hc
    rcases List.mem_append.mp hc with h | h
    · rcases List.mem_append.mp h with h | h
      · exact q0 c h
      · exact q1 c h
    · exact q2 c h
  refine ⟨e0, e1, e2, _, h0, h1, h2, rfl, ?_, p0, p1, p2,
    fun c hc => isBase62Rune_alphabet c (hall c hc), ?_,
    IsEximMsgID_parts runes hrunes _ _ _ p0 p1 p2 hall⟩
  · unfold MsgIDGenerator.Generate
    rw [h0, h1, h2]
  · simp [p0, p1, p2]

theorem MsgIDGenerator_sample_id :
    MsgIDGenerator.sample.Generate 123456789 = some (GoString.lit "15ftgG-00016Q-kX") := by
  decide

theorem C27_generated_ids_are_exim_ids_witness :
    MsgIDGenerator.sample.Date.Unix < 62 ^ 6 ∧ MsgIDGenerator.sample.ProcessID < 62 ^ 6
    ∧ MsgIDGenerator.sample.Generate 123456789 = some (GoString.lit "15ftgG-00016Q-kX")
    ∧ IsEximMsgID List.enum (GoString.lit "15ftgG-00016Q-kX") = true :=
  ⟨by decide, by decide, MsgIDGenerator_sample_id,
    let ⟨_, _, _, _, _, _, _, _, hg, _, _, _, _, _, hok⟩ :=
      (C27_generated_ids_are_exim_ids List.enum (fun _ _ => rfl) MsgIDGenerator.sample
        123456789 (by decide) (by decide)).1
    Option.some.inj (hg.symm.trans MsgIDGenerator_sample_id) ▸ hok⟩

end Fusemail
